import Mathlib

/-!
# Health checks of outbounds (`common/healthcheck`, `adapter`)

A shallow embedding of `storage.go`, `storage_stats.go`, `context.go` and
`healthcheck.go` of the package `healthcheck`, and of `RealOutbound` of
`adapter/experimental.go`.

Conventions of the embedding

* A Go call that may panic returns `Option`: `none` is a panic, `some r` a normal
  return with result `r`.
* A Go pointer that may be `nil` (`*Storage`, `*History`, `*time.Timer`) is an
  `Option` as well: `none` is `nil`.  So `Get` has type
  `Option Storage → Int → Option (Option History)`.
* `time.Time` is an `Int`: nanoseconds elapsed since the zero instant, so that
  `IsZero` is `= 0`.  Wall clock and monotonic clock are one time line.
  `time.Now()` is an explicit argument `now`.
* `time.Duration` is an `Int` (an int64 count of nanoseconds).
* Go `int` is `Int` with 64-bit wrap-around where a sum can leave the range.
* `RTT` is a `Nat` below `65536` with wrap-around arithmetic, see `rttMod`.
* Goroutines that run `checkOutbound` concurrently are a step function on what
  they share, see `Task.step`: a step is one access to what is shared, and an
  interleaving is the list of the calls that step, in order.
-/

namespace Healthcheck

/-! ## Machine arithmetic and time -/

/-- Two's complement wrap of an integer into the range of a 64-bit Go `int`. -/
def wrapInt (x : Int) : Int :=
  (x + 9223372036854775808) % 18446744073709551616 - 9223372036854775808

/-- Largest Go `int` (`math.MaxInt64`). -/
def maxInt : Int := 9223372036854775807

/-- Smallest Go `int` (`math.MinInt64`). -/
def minInt : Int := -9223372036854775808

/-- Largest `time.Duration` (`math.MaxInt64` nanoseconds). -/
def maxDuration : Int := 9223372036854775807

/-- Smallest `time.Duration` (`math.MinInt64` nanoseconds). -/
def minDuration : Int := -9223372036854775808

/-- The method `Time.Sub`: the difference `t - u` as a `Duration`, saturated to the
largest or smallest duration when it does not fit. -/
def timeSub (t u : Int) : Int :=
  if t - u > maxDuration then maxDuration
  else if t - u < minDuration then minDuration
  else t - u

/-- The method `Time.Add`.  Instants are kept as seconds and nanoseconds by the
library, so adding a duration to an instant does not overflow. -/
def timeAdd (t d : Int) : Int := t + d

/-- Modelled from the spec: the declaration of the type `RTT` is missing from the
sources.  It is the latency in milliseconds of one probe, and the code converts
to it from the `uint16` result of the probe (`RTT(t)`) and from
`math.MaxUint16` (the initial minimum), so it is taken as `uint16`:
values are below `rttMod` and sums wrap around modulo `rttMod`. -/
def rttMod : Nat := 65536

/-! ## Data model (`storage.go`, `storage_stats.go`) -/

/-- History is the rtt history -/
structure History where
  Time : Int
  Delay : Nat
deriving DecidableEq, Repr

/-- Stats is the statistics of RTTs -/
structure Stats where
  All : Int := 0
  Fail : Int := 0
  Deviation : Nat := 0
  Average : Nat := 0
  Max : Nat := 0
  Min : Nat := 0
  Latest : Nat := 0
  Expires : Int := 0
deriving DecidableEq, Repr

/-- Storage holds ping rtts for health Checker.  The field `expireTimer` is
`some d` when a timer is armed that runs `removeStats` after the duration `d`. -/
structure Storage where
  idx : Int
  cap : Int
  validity : Int
  history : List History
  stats : Stats
  expireTimer : Option Int
deriving DecidableEq, Repr

/-- Slice indexing `xs[i]` with a Go `int` index: panics outside `0 ≤ i < len`. -/
def index (xs : List History) (i : Int) : Option History :=
  if 0 ≤ i then xs[i.toNat]? else none

/-- NewStorage returns a new rtt storage with specified capacity.  `make` panics
when the length does not fit an `int`. -/
def NewStorage (cap : Nat) (validity : Int) : Option Storage :=
  if (cap : Int) ≤ maxInt then
    some
      { idx := 0
        cap := cap
        validity := validity
        history := List.replicate cap { Time := 0, Delay := 0 }
        stats := {}
        expireTimer := none }
  else none

/-- The method `Storage.offset`: `%` is Go's truncating remainder and panics on a
zero divisor. -/
def Storage.offset (h : Storage) (n : Int) : Option Int :=
  let idx := wrapInt (h.idx + n)
  if idx ≥ h.cap then
    if h.cap = 0 then none else some (Int.tmod idx h.cap)
  else if idx < 0 then
    if h.cap = 0 then none else some (wrapInt (Int.tmod idx h.cap + h.cap))
  else some idx

/-- The method `Storage.removeStats` on a non-nil receiver: stops the timer, if
any, and clears the cache. -/
def Storage.removeStats (h : Storage) : Storage :=
  { h with stats := {}, expireTimer := none }

/-- Put puts a new rtt to the HealthPingResult; `now` is the reading of
`time.Now()`. -/
def Storage.Put (h : Storage) (now : Int) (d : Nat) : Option Storage := do
  let idx ← h.offset 1
  let h := { h with idx := idx }
  let old ← index h.history h.idx
  let h := { h with history := h.history.set h.idx.toNat { old with Time := now } }
  let old ← index h.history h.idx
  let h := { h with history := h.history.set h.idx.toNat { old with Delay := d } }
  some h.removeStats

/-- Get gets the history at the offset to the latest history, ignores the validity -/
def Get (h : Option Storage) (offset : Int) : Option (Option History) :=
  match h with
  | none => some none
  | some h => do
    let i ← h.offset offset
    let rtt ← index h.history i
    if rtt.Time = 0 then some none else some (some rtt)

/-- Latest gets the latest history, alias of Get(0) -/
def Latest (h : Option Storage) : Option (Option History) :=
  match h with
  | none => some none
  | some s => do
    let rtt ← index s.history s.idx
    if rtt.Time = 0 then some none else Get h 0

/-- Body of the loop of `All` for the values of `i` still to run, with the
slice `all` built so far; `break` returns at once. -/
def All.loop (h : Storage) : List Nat → List History → Option (List History)
  | [], all => some all
  | i :: rest, all => do
    let j ← h.offset (-(i : Int))
    let rtt ← index h.history j
    if rtt.Time = 0 then some all else All.loop h rest (all ++ [rtt])

/-- All returns all the history, ignores the validity.  `make` panics on a negative
capacity. -/
def All (h : Option Storage) : Option (List History) :=
  match h with
  | none => some []
  | some h =>
    if h.cap < 0 then none
    else All.loop h (List.range h.cap.toNat) []

/-- Local variables of `refreshStats` that live across its loop, together with
the statistics under construction.  The counters `cnt` and `stats.Fail` are Go
`int`s that never exceed the capacity. -/
structure Locals where
  stats : Stats
  min : Nat
  sum : Nat
  cnt : Int
  validRTTs : List Nat
  expiresAt : Int
deriving DecidableEq, Repr

/-- One sample visited by the loop of `refreshStats` (after the expiry test):
a failed one is counted, another one enters count, sum, maximum and minimum. -/
def Locals.visit (Failed : Nat) (validity : Int) (a : Locals) (item : History) : Locals :=
  let a := { a with expiresAt := timeAdd item.Time validity }
  if item.Delay = Failed then
    { a with stats := { a.stats with Fail := a.stats.Fail + 1 } }
  else
    let a := { a with cnt := a.cnt + 1
                      sum := (a.sum + item.Delay) % rttMod
                      validRTTs := a.validRTTs ++ [item.Delay] }
    let a := if a.stats.Max < item.Delay then
      { a with stats := { a.stats with Max := item.Delay } } else a
    if a.min > item.Delay then { a with min := item.Delay } else a

/-- The loop of `refreshStats`, from latest to oldest, for the values of `i`
still to run; `break` at the first expired item. -/
def refreshStats.loop (h : Storage) (Failed : Nat) (now : Int) :
    List Nat → Locals → Option Locals
  | [], a => some a
  | i :: rest, a => do
    let idx ← h.offset (-(i : Int))
    let item ← index h.history idx
    let itemExpiresAt := timeAdd item.Time h.validity
    if itemExpiresAt < now then some a
    else refreshStats.loop h Failed now rest (a.visit Failed h.validity item)

/-- The sum of `math.Pow(float64(rtt)-float64(average), 2)` over the valid RTTs.
All operands are integers below `2 ^ 53`, so the float64 operations are exact. -/
def variance (average : Nat) (validRTTs : List Nat) : Nat :=
  (validRTTs.map (fun rtt => ((rtt : Int) - (average : Int)).natAbs ^ 2)).sum

/-- The conversion `RTT(math.Sqrt(variance / float64(cnt)))`: the integer part of
the square root of the quotient.  The float64 division and square root are
correctly rounded, and exact whenever the quotient is a perfect square, as it is
in the cases evaluated below. -/
def stdDev (variance : Nat) (cnt : Int) : Nat :=
  Nat.sqrt (variance / cnt.toNat)

/-- The part of `refreshStats` after the loop. -/
def refreshStats.finish (h : Storage) (now : Int) (a : Locals) : Storage :=
  let timer := if a.expiresAt ≠ 0 then some (timeSub a.expiresAt now) else h.expireTimer
  let stats := { a.stats with Expires := a.expiresAt, All := a.cnt + a.stats.Fail }
  let stats := if a.cnt > 0 then
    { stats with Average := (a.sum / a.cnt.toNat) % rttMod } else stats
  if stats.All = 0 ∨ stats.Fail = stats.All then
    { h with stats := stats, expireTimer := timer }
  else
    let stats := { stats with Min := a.min }
    let std := if a.cnt < 2 then stats.Average / 2
      else stdDev (variance stats.Average a.validRTTs) a.cnt
    { h with stats := { stats with Deviation := std % rttMod }, expireTimer := timer }

/-- The method `Storage.refreshStats` on a non-nil receiver; `Failed` is the
sentinel constant of the package, whose declaration is not among the sources,
and `now` the reading of `time.Now()`.  `make` panics on a negative capacity. -/
def Storage.refreshStats (h : Storage) (Failed : Nat) (now : Int) : Option Storage := do
  let h := h.removeStats
  let latest ← index h.history h.idx
  if timeSub now latest.Time > h.validity then some h
  else
    let a : Locals :=
      { stats := { h.stats with Latest := latest.Delay }
        min := 65535, sum := 0, cnt := 0, validRTTs := [], expiresAt := 0 }
    if h.cap < 0 then none
    else
      let a ← refreshStats.loop h Failed now (List.range h.cap.toNat) a
      some (refreshStats.finish h now a)

/-- Stats get statistics and write cache for next call: the returned value and
the receiver afterwards. -/
def Storage.Stats (h : Option Storage) (Failed : Nat) (now : Int) :
    Option (Stats × Option Storage) :=
  match h with
  | none => some ({}, none)
  | some s =>
    if s.stats.Expires ≠ 0 then some (s.stats, some s)
    else do
      let s ← s.refreshStats Failed now
      some (s.stats, some s)

/-- A fresh storage after the calls `Put(d)` at the instants `t`, for the pairs
`(t, d)` of `puts` in order. -/
def build (cap : Nat) (validity : Int) (puts : List (Int × Nat)) : Option Storage := do
  let s ← NewStorage cap validity
  puts.foldlM (fun s p => s.Put p.1 p.2) s

/-! ## Notions used to state the properties -/

/-- The never-written slot: the zero value of `History`. -/
def zeroHistory : History := { Time := 0, Delay := 0 }

/-- The samples written by the calls of `puts`, latest first. -/
def written (puts : List (Int × Nat)) : List History :=
  (puts.map (fun p => ({ Time := p.1, Delay := p.2 } : History))).reverse

/-- The samples a ring of capacity `cap` still holds: the last `min n cap`
written, latest first. -/
def retained (cap : Nat) (puts : List (Int × Nat)) : List History :=
  (written puts).take cap

/-- A sample is inside the validity window at `now` when its age does not
exceed `validity`. -/
def inWindow (validity now : Int) (x : History) : Bool :=
  decide (now - x.Time ≤ validity)

/-- The retained samples inside the validity window, latest first. -/
def window (cap : Nat) (validity now : Int) (puts : List (Int × Nat)) : List History :=
  (retained cap puts).filter (inWindow validity now)

/-- The latencies of the samples of `w` that did not fail. -/
def successes (Failed : Nat) (w : List History) : List Nat :=
  (w.filter (fun x => decide (x.Delay ≠ Failed))).map (fun x => x.Delay)

/-- The number of failed samples of `w`. -/
def failures (Failed : Nat) (w : List History) : Nat :=
  w.countP (fun x => decide (x.Delay = Failed))

/-- The local variables of `refreshStats` when its loop starts, `latest` being the
latency of the sample under the cursor. -/
def startLocals (latest : Nat) : Locals :=
  { stats := { Latest := latest }, min := 65535, sum := 0, cnt := 0, validRTTs := []
    expiresAt := 0 }

/-- A storage of capacity 2 in which no sample was written. -/
def emptyOfTwo : Storage :=
  { idx := 0, cap := 2, validity := 60, history := [zeroHistory, zeroHistory], stats := {}
    expireTimer := none }

/-- A storage of capacity 2 that holds one sample and a cache of its statistics,
with the timer armed. -/
def cachedOfTwo : Storage :=
  { idx := 1, cap := 2, validity := 60, history := [zeroHistory, { Time := 100, Delay := 10 }]
    stats := { All := 1, Deviation := 5, Average := 10, Max := 10, Min := 10, Latest := 10
               Expires := 160 }
    expireTimer := some 57 }

/-- The ring invariant of a storage: the capacity is positive and fits an `int`,
the slice has `cap` slots and the cursor points into it. -/
structure Storage.WF (s : Storage) : Prop where
  cap_pos : 0 < s.cap
  cap_le : s.cap ≤ maxInt
  len : (s.history.length : Int) = s.cap
  idx_lo : 0 ≤ s.idx
  idx_hi : s.idx < s.cap

/-- The slot `i` writes before the latest one. -/
def Storage.slotBack (s : Storage) (i : Nat) : Int :=
  if s.idx - i < 0 then s.idx - i + s.cap else s.idx - i

/-- The storage `s` holds the samples `l` (all ever written, latest first): the
slot `i` writes back holds the `i`-th of them, or is still the zero value. -/
def Storage.Holds (s : Storage) (l : List History) : Prop :=
  s.WF ∧ ∀ i : Nat, (i : Int) < s.cap → index s.history (s.slotBack i) = some (l.getD i zeroHistory)

/-- The hypotheses on a run: a capacity of at least one that fits an `int`,
samples written at non-decreasing instants of a clock that never shows the zero
instant, and a query at `now`, not earlier than any `Put` and later than
`validity` after the zero instant (a duration is at most some 292 years, while
the clock shows a date some 2000 years after the zero instant). -/
def Filled (cap : Nat) (validity : Int) (puts : List (Int × Nat)) (now : Int) : Prop :=
  1 ≤ cap ∧ (cap : Int) ≤ maxInt ∧ (∀ p ∈ puts, 0 < p.1) ∧
    puts.Pairwise (fun p q => p.1 ≤ q.1) ∧ (∀ p ∈ puts, p.1 ≤ now) ∧ validity < now

instance (cap : Nat) (validity : Int) (puts : List (Int × Nat)) (now : Int) :
    Decidable (Filled cap validity puts now) := by
  unfold Filled; infer_instance

/-! ## Outbound groups (`adapter/experimental.go`) -/

/-- Modelled from the spec: the declaration of the interface `adapter.Outbound` is
missing from the sources.  An outbound is identified by its tag; `Now` is
`some tag'` exactly when the dynamic type also implements `OutboundGroup`, a
virtual outbound whose currently selected child is `tag'` (the method `Now`). -/
structure Outbound where
  Tag : String
  Now : Option String
deriving DecidableEq, Repr

/-- The lookup part of the interface `Provider`: `Outbound(tag)` with Go's
comma-ok result as an `Option`, and `Outbounds()`. -/
structure Provider where
  Outbound : String → Option Outbound
  Outbounds : List Healthcheck.Outbound

/-- Modelled from the spec: the declaration of the interface `adapter.Router` is
missing from the sources.  The router resolves an outbound by tag (its flat
outbound set) and enumerates the outbound providers. -/
structure Router where
  Outbound : String → Option Outbound
  Providers : List Provider

/-- The errors of `RealOutbound`, with the arguments of `E.New`:
`too deep or loop nesting of outbound groups` and `outbound not found:` followed
by the tag. -/
inductive ResolveError where
  | tooDeep : ResolveError
  | notFound : String → ResolveError
deriving DecidableEq, Repr

/-- The loop of `getOutbound` over the providers still to scan. -/
def getOutbound.scan (tag : String) : List Provider → Option Outbound
  | [] => none
  | provider :: rest =>
    match provider.Outbound tag with
    | some outbound => some outbound
    | none => getOutbound.scan tag rest

/-- The function `getOutbound`; `none` is the nil outbound. -/
def getOutbound (router : Router) (tag : String) : Option Outbound :=
  match router.Outbound tag with
  | some outbound => some outbound
  | none => getOutbound.scan tag router.Providers

/-- What `RealOutbound` returns, the outbound (`none` is nil) and the error
(`none` is nil), together with the tags it passed to `getOutbound`, in order. -/
structure Resolved where
  outbound : Option Outbound
  err : Option ResolveError
  hops : List String
deriving DecidableEq, Repr

/-- The loop of `RealOutbound`, with the values of `redirected` and `nLoop` on
entry and the tags looked up so far; the first argument bounds the number of
iterations, and `none` means that this bound was reached. -/
def RealOutbound.loop (router : Router) :
    Nat → Outbound → Int → List String → Option Resolved
  | 0, _, _, _ => none
  | fuel + 1, redirected, nLoop, hops =>
    match redirected.Now with
    | none => some { outbound := some redirected, err := none, hops := hops }
    | some now =>
      let nLoop := nLoop + 1
      if nLoop > 100 then
        some { outbound := none, err := some .tooDeep, hops := hops }
      else
        match getOutbound router now with
        | none => some { outbound := none, err := some (.notFound now), hops := hops ++ [now] }
        | some outbound => RealOutbound.loop router fuel outbound nLoop (hops ++ [now])

/-- The function `RealOutbound` on a non-nil outbound.  The loop runs at most 101
times, see `RealOutbound_total`. -/
def RealOutbound (router : Router) (group : Outbound) : Option Resolved :=
  RealOutbound.loop router 101 group 0 []

/-- The outbound reached from `o` by following the selected tags through `k`
groups, when each of them is found. -/
def follow (router : Router) (o : Outbound) : Nat → Option Outbound
  | 0 => some o
  | k + 1 =>
    match follow router o k with
    | none => none
    | some g =>
      match g.Now with
      | none => none
      | some now => getOutbound router now

/-- A router whose flat outbound set holds the groups `A`, selecting `B`, and `B`,
selecting `C`, and the concrete outbound `C`, and which has no provider. -/
def chainRouter : Router where
  Outbound := fun tag =>
    if tag = "A" then some { Tag := "A", Now := some "B" }
    else if tag = "B" then some { Tag := "B", Now := some "C" }
    else if tag = "C" then some { Tag := "C", Now := none }
    else none
  Providers := []

/-- A router whose flat outbound set holds the groups `A`, selecting `B`, and `B`,
selecting `A`: a cycle. -/
def cycleRouter : Router where
  Outbound := fun tag =>
    if tag = "A" then some { Tag := "A", Now := some "B" }
    else if tag = "B" then some { Tag := "B", Now := some "A" }
    else none
  Providers := []

/-! ## The probe context (`context.go`) -/

/-- What the connectivity request of `checkNetwork` meets when it is made:
`http.NewRequest` fails, or the request is sent and `client.Do` fails, or the
request is sent and answered. -/
inductive Head where
  | badRequest : Head
  | failed : Head
  | ok : Head
deriving DecidableEq, Repr

/-- Context is the context for health check.  The mutex is not modelled: the calls
are taken one at a time.  Two counters are added to observe the network: `probes`
counts the runs of `checkNetwork` and `requests` the calls of `client.Do`. -/
structure Context where
  connectivityURL : String
  connected : Option Bool
  checked : String → Bool
  probes : Nat
  requests : Nat

/-- NewContext creates a new Connectivity status collector and checker -/
def NewContext (connectivityURL : String) : Context :=
  { connectivityURL := connectivityURL, connected := none, checked := fun _ => false
    probes := 0, requests := 0 }

/-- ReportChecked reports the outbound of the tag is checked -/
def Context.ReportChecked (c : Context) (tag : String) : Context :=
  { c with checked := fun t => if t = tag then true else c.checked t }

/-- Checked tells if the outbound of the tag is checked -/
def Context.Checked (c : Context) (tag : String) : Bool :=
  c.checked tag

/-- The method `udpate` -/
def Context.udpate (c : Context) (available : Bool) : Context :=
  { c with connected := some available }

/-- ReportConnected reports the network is connected -/
def Context.ReportConnected (c : Context) : Context :=
  c.udpate true

/-- Check checks the network connectivity; `head` is what the request meets if it
is made. -/
def Context.checkNetwork (c : Context) (head : Head) : Context :=
  let c := { c with probes := c.probes + 1 }
  if c.connectivityURL = "" then c.udpate true
  else
    match head with
    | .badRequest => c.udpate false
    | .failed => Context.udpate { c with requests := c.requests + 1 } false
    | .ok => Context.udpate { c with requests := c.requests + 1 } true

/-- Connected tells if the network connected: the returned value and the context
afterwards; `none` is the panic of dereferencing a nil `connected`. -/
def Context.Connected (c : Context) (head : Head) : Option (Bool × Context) :=
  let c := if c.connected = none then c.checkNetwork head else c
  match c.connected with
  | none => none
  | some b => some (b, c)

/-- A call of one of the four exported methods of a context. -/
inductive Call where
  | ReportChecked : String → Call
  | Checked : String → Call
  | ReportConnected : Call
  | Connected : Head → Call
deriving DecidableEq, Repr

/-- What a call returns. -/
inductive Reply where
  | done : Reply
  | checked : Bool → Reply
  | connected : Bool → Reply
deriving DecidableEq, Repr

/-- One call on a context: the context afterwards and what the call returns. -/
def Context.call (c : Context) : Call → Option (Context × Reply)
  | .ReportChecked tag => some (c.ReportChecked tag, .done)
  | .Checked tag => some (c, .checked (c.Checked tag))
  | .ReportConnected => some (c.ReportConnected, .done)
  | .Connected head =>
    match c.Connected head with
    | none => none
    | some (b, c) => some (c, .connected b)

/-- A sequence of calls on a context: the context afterwards and what the calls
return, in order. -/
def Context.run (c : Context) : List Call → Option (Context × List Reply)
  | [] => some (c, [])
  | call :: rest =>
    match c.call call with
    | none => none
    | some (c, reply) =>
      match Context.run c rest with
      | none => none
      | some (c, replies) => some (c, reply :: replies)

/-! ## The scheduler (`healthcheck.go`) -/

/-- One second, as a `time.Duration`. -/
def second : Int := 1000000000

/-- One hour, as a `time.Duration`. -/
def hour : Int := 3600000000000

/-- Modelled from the spec: the type `Storages` (the storage registry) and its
methods are missing from the sources.  It maps an outbound tag to its `Storage`
and creates one of the configured capacity and validity on first use. -/
structure Storages where
  cap : Nat
  validity : Int
  storages : String → Option Storage

/-- Modelled from the spec: the constructor of the storage registry. -/
def NewStorages (cap : Nat) (validity : Int) : Storages :=
  { cap := cap, validity := validity, storages := fun _ => none }

/-- Modelled from the spec: `Latest(tag)` of the registry, the latest sample of the
storage of the tag, nil when the tag has no storage. -/
def Storages.Latest (s : Storages) (tag : String) : Option (Option History) :=
  Healthcheck.Latest (s.storages tag)

/-- Modelled from the spec: `GetOrCreate(tag)` of the registry, the storage of the
tag, or a new one of the configured capacity and validity when the tag has
none. -/
def Storages.GetOrCreate (s : Storages) (tag : String) : Option Storage :=
  match s.storages tag with
  | some storage => some storage
  | none => NewStorage s.cap s.validity

/-- Modelled from the spec: `Put(tag, d)` of the registry, a `Put` on the storage of
the tag, created first when the tag has none. -/
def Storages.Put (s : Storages) (tag : String) (now : Int) (d : Nat) : Option Storages :=
  match s.GetOrCreate tag with
  | none => none
  | some storage =>
    match storage.Put now d with
    | none => none
    | some storage =>
      some { s with storages := fun t => if t = tag then some storage else s.storages t }

/-- Modelled from the spec: the declaration of `option.HealthCheckOptions` is
missing from the sources.  The fields the scheduler reads: the destination of the
probes, the probe interval, the sample window size and the connectivity URL. -/
structure HealthCheckOptions where
  Destination : String
  Interval : Int
  Sampling : Nat
  Connectivity : String
deriving DecidableEq, Repr

/-- An entry stored into the global history sink by `StoreURLTestHistory`. -/
structure SinkEntry where
  tag : String
  Time : Int
  Delay : Nat
deriving DecidableEq, Repr

/-- HealthCheck is the health checker for balancers.  The global history is the
list of the entries stored so far, `none` when the pointer is nil; the logger
and the cancel function are left out. -/
structure HealthCheck where
  Storage : Storages
  router : Router
  globalHistory : Option (List SinkEntry)
  providers : List Provider
  providersByTag : String → Option Provider
  options : HealthCheckOptions

/-- New creates a new HealthPing with settings; `options` is `none` for a nil
pointer, and `globalHistory` is the history storage of the clash server of the
router, `none` when there is none. -/
def New (router : Router) (providers : List Provider)
    (providersByTag : String → Option Provider) (options : Option HealthCheckOptions)
    (globalHistory : Option (List SinkEntry)) : HealthCheck :=
  let options := match options with
    | none => { Destination := "", Interval := 0, Sampling := 0, Connectivity := "" }
    | some options => options
  let options := if options.Destination = "" then
    { options with Destination := "http://www.gstatic.com/generate_204" } else options
  let options := if options.Interval < 10 * second then
    { options with Interval := 10 * second } else options
  let options := if options.Sampling ≤ 0 then { options with Sampling := 10 } else options
  { router := router, globalHistory := globalHistory, providers := providers
    providersByTag := providersByTag, options := options
    Storage := NewStorages options.Sampling
      (wrapInt (wrapInt ((options.Sampling : Int) + 1) * options.Interval)) }

/-- The duration that `Start` passes to `cleanupLoop`: `8*time.Hour`. -/
def HealthCheck.Start.interval : Int := 8 * hour

/-- The period of the ticker of `cleanupLoop`, the duration it passes to
`time.NewTicker`; the second argument is the argument `interval` of `cleanupLoop`,
which its body does not read. -/
def HealthCheck.cleanupLoop.period (h : HealthCheck) (_interval : Int) : Int :=
  h.options.Interval

/-- The period of the ticker of `checkLoop`. -/
def HealthCheck.checkLoop.period (h : HealthCheck) : Int :=
  h.options.Interval

/-- ReportFailure reports a failure of the node; `Failed` is the sentinel constant
and `now` the reading of `time.Now()` in `Put`. -/
def HealthCheck.ReportFailure (h : HealthCheck) (Failed : Nat) (now : Int)
    (outbound : Outbound) : Option HealthCheck :=
  match outbound.Now with
  | some _ => some h
  | none =>
    let tag := outbound.Tag
    match h.Storage.Latest tag with
    | none => none
    | some history =>
      if history = none ∨ (history.map (fun x => x.Delay)) ≠ some Failed then
        match h.Storage.Put tag now Failed with
        | none => none
        | some storage => some { h with Storage := storage }
      else some h

/-- What the injected single-probe function `urltest.URLTest` returns: a latency
(a `uint16`) or an error. -/
inductive ProbeResult where
  | ok : Nat → ProbeResult
  | error : String → ProbeResult
deriving DecidableEq, Repr

/-- What the outside answers during one call of `checkOutbound`: the probe
function, what the connectivity request meets, and the two readings of
`time.Now()`, in `Put` and for the entry of the global history. -/
structure Env where
  URLTest : String → Outbound → ProbeResult
  head : Head
  now : Int
  sinkNow : Int

/-- The errors of `checkOutbound`: that of `RealOutbound`, `ErrNoNetWork`, and that
of the probe. -/
inductive CheckError where
  | resolve : ResolveError → CheckError
  | noNetwork : CheckError
  | probe : String → CheckError
deriving DecidableEq, Repr

/-- What `checkOutbound` returns, the latency and the error (`none` is nil), with
the scheduler and the context afterwards, and whether the probe function was
called. -/
structure CheckOutcome where
  t : Nat
  err : Option CheckError
  h : HealthCheck
  ctx : Context
  probed : Bool

/-- The scheduler after `checkOutbound` has recorded a result: the registry is
`storage`, and the entry is stored into the global history when there is one. -/
def HealthCheck.recorded (h : HealthCheck) (storage : Storages) (entry : SinkEntry) :
    HealthCheck :=
  { h with Storage := storage, globalHistory := h.globalHistory.map (fun l => l ++ [entry]) }

/-- The first part of `checkOutbound`: a group is redirected by `RealOutbound`,
another outbound is kept. -/
def HealthCheck.checkOutbound.redirect (h : HealthCheck) (outbound : Outbound) :
    Option Resolved :=
  match outbound.Now with
  | some _ => RealOutbound h.router outbound
  | none => some { outbound := some outbound, err := none, hops := [] }

/-- The second part of `checkOutbound`, from `tag := outbound.Tag()` on, `outbound`
being the concrete outbound: the test of the context, the probe and the record
of its result. -/
def HealthCheck.checkOutbound.probe (h : HealthCheck) (Failed : Nat) (env : Env)
    (outbound : Outbound) (ctx : Context) : Option CheckOutcome :=
  let tag := outbound.Tag
  if ctx.Checked tag then
    some { t := 0, err := none, h := h, ctx := ctx, probed := false }
  else
    let ctx := ctx.ReportChecked tag
    match env.URLTest h.options.Destination outbound with
    | .ok t =>
      let rtt := t % rttMod
      let ctx := ctx.ReportConnected
      match h.Storage.Put tag env.now rtt with
      | none => none
      | some storage =>
        some { t := t, err := none
               h := h.recorded storage { tag := tag, Time := env.sinkNow, Delay := t }
               ctx := ctx, probed := true }
    | .error e =>
      match ctx.Connected env.head with
      | none => none
      | some (connected, ctx) =>
        if !connected then
          some { t := 0, err := some .noNetwork, h := h, ctx := ctx, probed := true }
        else
          match h.Storage.Put tag env.now Failed with
          | none => none
          | some storage =>
            some { t := 0, err := some (.probe e)
                   h := h.recorded storage { tag := tag, Time := env.sinkNow, Delay := 0 }
                   ctx := ctx, probed := true }

/-- The method `checkOutbound`; `Failed` is the sentinel constant.  A nil outbound
returned with a nil error would make `Tag()` panic. -/
def HealthCheck.checkOutbound (h : HealthCheck) (Failed : Nat) (env : Env)
    (outbound : Outbound) (ctx : Context) : Option CheckOutcome :=
  match HealthCheck.checkOutbound.redirect h outbound with
  | none => none
  | some resolved =>
    match resolved.err with
    | some e => some { t := 0, err := some (.resolve e), h := h, ctx := ctx, probed := false }
    | none =>
      match resolved.outbound with
      | none => none
      | some outbound => HealthCheck.checkOutbound.probe h Failed env outbound ctx

/-- The invariant of a context: `checkNetwork` ran at most once, and not at all
while no reachability value is recorded; it sent at most one request, and none
when the connectivity URL is empty, in which case the value false is never
recorded. -/
def Context.Inv (c : Context) : Prop :=
  c.probes ≤ 1 ∧ (c.connected = none → c.probes = 0) ∧ c.requests ≤ c.probes ∧
    (c.connectivityURL = "" → c.requests = 0 ∧ c.connected ≠ some false)

/-- The invariant of the registry: its capacity is at least one and fits an `int`,
and every storage it holds satisfies the ring invariant. -/
def Storages.WF (s : Storages) : Prop :=
  1 ≤ s.cap ∧ (s.cap : Int) ≤ maxInt ∧ ∀ tag st, s.storages tag = some st → st.WF

/-- The most recent stored sample of the tag is a failure. -/
def knownFailed (s : Storages) (Failed : Nat) (tag : String) : Prop :=
  ∃ x, s.Latest tag = some (some x) ∧ x.Delay = Failed

/-- The outbound `o` resolves to `real`: it is `real` itself when it is not a group,
and otherwise `RealOutbound` returns `real` with a nil error. -/
def Resolves (router : Router) (o real : Outbound) : Prop :=
  (o.Now = none ∧ real = o) ∨
    (o.Now ≠ none ∧ ∃ hops, RealOutbound router o =
      some { outbound := some real, err := none, hops := hops })

/-- A scheduler made by `New` with nil options on the router of the chain `A`, `B`,
`C`, without providers and with a global history. -/
def chainCheck : HealthCheck :=
  New chainRouter [] (fun _ => none) none (some [])

/-- An outside in which every probe fails with a timeout, the connectivity request
fails, and the clock shows 100. -/
def deadEnv : Env :=
  { URLTest := fun _ _ => .error "timeout", head := .failed, now := 100, sinkNow := 100 }

/-- An outside in which every probe succeeds with a latency of 42, and the clock
shows 100. -/
def liveEnv : Env :=
  { URLTest := fun _ _ => .ok 42, head := .ok, now := 100, sinkNow := 100 }

/-- What is observed of two calls of `checkOutbound` made one after the other: of the
first whether it probed and its error, of the second whether it probed, its
latency and its error, and the samples the storage of the tag holds at the end. -/
def observeTwo (tag : String) (out₁ out₂ : CheckOutcome) :
    Bool × Option CheckError × Bool × Nat × Option CheckError × Option (List History) :=
  (out₁.probed, out₁.err, out₂.probed, out₂.t, out₂.err, All (out₂.h.Storage.storages tag))

/-- What is observed of one call of `checkOutbound`: its latency and its error,
whether it probed, the samples the storage of the tag holds, and the global
history. -/
def observeOne (tag : String) (out : CheckOutcome) :
    Nat × Option CheckError × Bool × Option (List History) × Option (List SinkEntry) :=
  (out.t, out.err, out.probed, All (out.h.Storage.storages tag), out.h.globalHistory)

/-! ## Concurrent calls of `checkOutbound`

The calls of one round run in goroutines that share the scheduler and the
context.  A call is cut at the points where it touches what is shared: each
method of the context holds the mutex of the context from entry to return and
releases it between two calls, so each such call is one step, and so are the
probe, the `Put` on the registry and the store into the global history. -/

/-- Where a call of `checkOutbound` stands: the statement it executes next, with
the local variables that are live there (`outbound`, and `t` or the error of the
probe), or the values it has returned. -/
inductive Pc where
  | entry : Outbound → Pc
  | test : Outbound → Pc
  | claim : Outbound → Pc
  | urltest : Outbound → Pc
  | reportConnected : Outbound → Nat → Pc
  | putOk : Outbound → Nat → Pc
  | sinkOk : Outbound → Nat → Pc
  | connected : Outbound → String → Pc
  | putFailed : Outbound → String → Pc
  | sinkFailed : Outbound → String → Pc
  | returned : Nat → Option CheckError → Pc
deriving DecidableEq, Repr

/-- What the goroutines of a round share: the scheduler and the context. -/
structure Shared where
  h : HealthCheck
  ctx : Context

/-- One running call of `checkOutbound`: where it stands, what the outside answers
to it, and how many times it has called the probe function. -/
structure Task where
  pc : Pc
  env : Env
  probed : Nat

/-- The task at another statement. -/
def Task.goto (t : Task) (pc : Pc) : Task :=
  { t with pc := pc }

/-- The task after a call of the probe function, at another statement. -/
def Task.probedTo (t : Task) (pc : Pc) : Task :=
  { t with pc := pc, probed := t.probed + 1 }

/-- What is shared, with another context. -/
def Shared.withCtx (s : Shared) (ctx : Context) : Shared :=
  { s with ctx := ctx }

/-- What is shared, after a `Put` on the registry of the scheduler. -/
def Shared.withStorage (s : Shared) (storage : Storages) : Shared :=
  { s with h := { s.h with Storage := storage } }

/-- What is shared, after `StoreURLTestHistory` on the global history, if there is
one. -/
def Shared.withEntry (s : Shared) (entry : SinkEntry) : Shared :=
  { s with h := { s.h with globalHistory := s.h.globalHistory.map (fun l => l ++ [entry]) } }

/-- One step of a call of `checkOutbound`, the statement at which it stands: what
is shared and the task afterwards; `none` is a panic.  A call that has returned
does nothing. -/
def Task.step (t : Task) (Failed : Nat) (s : Shared) : Option (Shared × Task) :=
  match t.pc with
  | .entry outbound =>
    match HealthCheck.checkOutbound.redirect s.h outbound with
    | none => none
    | some resolved =>
      match resolved.err with
      | some e => some (s, t.goto (.returned 0 (some (.resolve e))))
      | none =>
        match resolved.outbound with
        | none => none
        | some outbound => some (s, t.goto (.test outbound))
  | .test outbound =>
    if s.ctx.Checked outbound.Tag then some (s, t.goto (.returned 0 none))
    else some (s, t.goto (.claim outbound))
  | .claim outbound =>
    some (s.withCtx (s.ctx.ReportChecked outbound.Tag), t.goto (.urltest outbound))
  | .urltest outbound =>
    match t.env.URLTest s.h.options.Destination outbound with
    | .ok d => some (s, t.probedTo (.reportConnected outbound d))
    | .error e => some (s, t.probedTo (.connected outbound e))
  | .reportConnected outbound d =>
    some (s.withCtx s.ctx.ReportConnected, t.goto (.putOk outbound d))
  | .putOk outbound d =>
    match s.h.Storage.Put outbound.Tag t.env.now (d % rttMod) with
    | none => none
    | some storage => some (s.withStorage storage, t.goto (.sinkOk outbound d))
  | .sinkOk outbound d =>
    some (s.withEntry { tag := outbound.Tag, Time := t.env.sinkNow, Delay := d },
      t.goto (.returned d none))
  | .connected outbound e =>
    match s.ctx.Connected t.env.head with
    | none => none
    | some (connected, ctx) =>
      if !connected then some (s.withCtx ctx, t.goto (.returned 0 (some .noNetwork)))
      else some (s.withCtx ctx, t.goto (.putFailed outbound e))
  | .putFailed outbound e =>
    match s.h.Storage.Put outbound.Tag t.env.now Failed with
    | none => none
    | some storage => some (s.withStorage storage, t.goto (.sinkFailed outbound e))
  | .sinkFailed outbound e =>
    some (s.withEntry { tag := outbound.Tag, Time := t.env.sinkNow, Delay := 0 },
      t.goto (.returned 0 (some (.probe e))))
  | .returned _ _ => some (s, t)

/-- The given number of steps of one call, no other call running. -/
def Task.run (t : Task) (Failed : Nat) (s : Shared) : Nat → Option (Shared × Task)
  | 0 => some (s, t)
  | n + 1 =>
    match t.step Failed s with
    | none => none
    | some (s, t) => Task.run t Failed s n

/-- A call of `checkOutbound` at its entry. -/
def Task.start (env : Env) (outbound : Outbound) : Task :=
  { pc := .entry outbound, env := env, probed := 0 }

/-- What a call that has returned has returned, as `checkOutbound` gives it; `none`
for a call that has not returned. -/
def Task.outcome (x : Shared × Task) : Option CheckOutcome :=
  match x.2.pc with
  | .returned t err =>
    some { t := t, err := err, h := x.1.h, ctx := x.1.ctx, probed := decide (0 < x.2.probed) }
  | _ => none

/-- One of the two calls of a round. -/
inductive Who where
  | first : Who
  | second : Who
deriving DecidableEq, Repr

/-- Two calls of `checkOutbound` running in one round, and what they share. -/
structure Round where
  shared : Shared
  first : Task
  second : Task

/-- A step of one of the two calls. -/
def Round.step (r : Round) (Failed : Nat) : Who → Option Round
  | .first =>
    match r.first.step Failed r.shared with
    | none => none
    | some (s, t) => some { r with shared := s, first := t }
  | .second =>
    match r.second.step Failed r.shared with
    | none => none
    | some (s, t) => some { r with shared := s, second := t }

/-- An interleaving of the two calls: the steps are taken in the order of the
list. -/
def Round.run (r : Round) (Failed : Nat) : List Who → Option Round
  | [] => some r
  | w :: rest =>
    match r.step Failed w with
    | none => none
    | some r => Round.run r Failed rest

/-- The round in which the two calls are at their entry. -/
def Round.start (h : HealthCheck) (ctx : Context) (env₁ env₂ : Env)
    (o₁ o₂ : Outbound) : Round :=
  { shared := { h := h, ctx := ctx }, first := Task.start env₁ o₁
    second := Task.start env₂ o₂ }

/-- What is observed of a round: of each call where it stands and how many times
it called the probe function, then the samples the storage of the tag holds and
the global history. -/
def Round.observe (tag : String) (r : Round) :
    (Pc × Nat) × (Pc × Nat) × Option (List History) × Option (List SinkEntry) :=
  ((r.first.pc, r.first.probed), (r.second.pc, r.second.probed),
    All (r.shared.h.Storage.storages tag), r.shared.h.globalHistory)

/-- The interleaving in which the two calls alternate, the first one starting, for
seven steps each. -/
def alternating : List Who :=
  [.first, .second, .first, .second, .first, .second, .first, .second,
   .first, .second, .first, .second, .first, .second]

/-- The interleaving in which the first call runs its seven steps and returns
before the second starts. -/
def oneAfterTheOther : List Who :=
  [.first, .first, .first, .first, .first, .first, .first,
   .second, .second, .second, .second, .second, .second, .second]

/-- The call has passed the test `ctx.Checked(tag)` with the answer false: it stands
at `ctx.ReportChecked(tag)` or at the probe and has not probed yet, or it stands
further and has probed once. -/
def Task.Claimed (t : Task) : Prop :=
  match t.pc with
  | .entry _ => False
  | .test _ => False
  | .claim _ => t.probed = 0
  | .urltest _ => t.probed = 0
  | _ => t.probed = 1

/-- An outside in which every probe succeeds with a latency of 57, and the clock
shows 101. -/
def laterEnv : Env :=
  { URLTest := fun _ _ => .ok 57, head := .ok, now := 101, sinkNow := 101 }

/-- The index helper in the words of the spec:
`((cursor + offset) % capacity + capacity) % capacity` under truncating modulo. -/
def offsetFormula (cursor offset capacity : Int) : Int :=
  Int.tmod (Int.tmod (cursor + offset) capacity + capacity) capacity

/-! ## Machine arithmetic -/

theorem wrapInt_of_range {x : Int} (h1 : minInt ≤ x) (h2 : x ≤ maxInt) :
    wrapInt x = x := by
  unfold wrapInt
  unfold minInt at h1
  unfold maxInt at h2
  omega

theorem tmod_of_neg_small {a b : Int} (h1 : -b < a) (h2 : a < 0) : Int.tmod a b = a := by
  obtain ⟨m, rfl⟩ := Int.eq_negSucc_of_lt_zero h2
  have hb : 0 ≤ b := by omega
  obtain ⟨n, rfl⟩ := Int.eq_ofNat_of_zero_le hb
  show -((Nat.succ m % n : Nat) : Int) = Int.negSucc m
  have hm : m + 1 < n := by
    rw [Int.negSucc_eq] at h1
    omega
  rw [Nat.mod_eq_of_lt hm]
  rfl

/-! ## The cursor -/

theorem offset_back {s : Storage} (hs : s.WF) {i : Nat} (hi : (i : Int) < s.cap) :
    s.offset (-(i : Int)) = some (s.slotBack i) := by
  obtain ⟨h1, h2, _, h4, h5⟩ := hs
  unfold maxInt at h2
  have hw : wrapInt (s.idx + -(i : Int)) = s.idx - i :=
    wrapInt_of_range (by unfold minInt; omega) (by unfold maxInt; omega)
  unfold Storage.offset Storage.slotBack
  simp only [hw]
  have hc : s.cap ≠ 0 := by omega
  by_cases hneg : s.idx - (i : Int) < 0
  · have hge : ¬ (s.idx - (i : Int) ≥ s.cap) := by omega
    rw [if_neg hge, if_pos hneg, if_neg hc, if_pos hneg, tmod_of_neg_small (by omega) hneg]
    rw [wrapInt_of_range (by unfold minInt; omega) (by unfold maxInt; omega)]
  · have hge : ¬ (s.idx - (i : Int) ≥ s.cap) := by omega
    rw [if_neg hge, if_neg hneg, if_neg hneg]

theorem offset_zero {s : Storage} (hs : s.WF) : s.offset 0 = some s.idx := by
  have h := offset_back hs (i := 0) (by simpa using hs.cap_pos)
  have h0 : s.slotBack 0 = s.idx := by
    have := hs.idx_lo
    unfold Storage.slotBack
    simp only [Nat.cast_zero, sub_zero]
    rw [if_neg (by omega)]
  simpa [h0] using h

theorem offset_one {s : Storage} (hs : s.WF) :
    s.offset 1 = some (if s.idx + 1 = s.cap then 0 else s.idx + 1) := by
  obtain ⟨h1, h2, _, h4, h5⟩ := hs
  unfold maxInt at h2
  have hw : wrapInt (s.idx + 1) = s.idx + 1 :=
    wrapInt_of_range (by unfold minInt; omega) (by unfold maxInt; omega)
  unfold Storage.offset
  simp only [hw]
  have hc : s.cap ≠ 0 := by omega
  by_cases hge : s.idx + 1 = s.cap
  · rw [if_pos (by omega), if_neg hc, if_pos hge, hge, Int.tmod_self]
  · have hneg : ¬ (s.idx + 1 < 0) := by omega
    rw [if_neg (by omega), if_neg hneg, if_neg hge]

/-! ## The ring invariant -/

theorem index_eq_getElem? {xs : List History} {i : Int} (h : 0 ≤ i) :
    index xs i = xs[i.toNat]? := by
  unfold index
  rw [if_pos h]

theorem NewStorage_eq {cap : Nat} (validity : Int) (h : (cap : Int) ≤ maxInt) :
    NewStorage cap validity = some
      { idx := 0, cap := cap, validity := validity
        history := List.replicate cap zeroHistory, stats := {}, expireTimer := none } := by
  unfold NewStorage zeroHistory
  rw [if_pos h]

theorem Put_eq {s : Storage} (hs : s.WF) (now : Int) (d : Nat) :
    s.Put now d = some
      { idx := if s.idx + 1 = s.cap then 0 else s.idx + 1
        cap := s.cap, validity := s.validity
        history := s.history.set (if s.idx + 1 = s.cap then 0 else s.idx + 1).toNat
          { Time := now, Delay := d }
        stats := {}, expireTimer := none } := by
  have h1 := hs.cap_pos
  have h3 := hs.len
  have h4 := hs.idx_lo
  have h5 := hs.idx_hi
  generalize hj : (if s.idx + 1 = s.cap then 0 else s.idx + 1) = j
  have hj0 : 0 ≤ j := by rw [← hj]; split <;> omega
  have hjl : j.toNat < s.history.length := by rw [← hj]; split <;> omega
  unfold Storage.Put
  rw [offset_one hs, hj]
  simp only [Option.bind_eq_bind, Option.some_bind, index_eq_getElem? hj0,
    List.getElem?_eq_getElem hjl, List.getElem?_set_self hjl, List.set_set,
    List.length_set, Storage.removeStats]

theorem NewStorage_WF {cap : Nat} (validity : Int) (h1 : 1 ≤ cap)
    (h2 : (cap : Int) ≤ maxInt) {s : Storage} (h : NewStorage cap validity = some s) :
    s.WF := by
  rw [NewStorage_eq validity h2] at h
  cases h
  exact ⟨by simpa using h1, h2, by simp, le_refl _, by simpa using h1⟩

theorem Put_WF {s s' : Storage} (hs : s.WF) {now : Int} {d : Nat}
    (h : s.Put now d = some s') : s'.WF := by
  rw [Put_eq hs] at h
  cases h
  have h1 := hs.cap_pos
  have h4 := hs.idx_lo
  have h5 := hs.idx_hi
  refine ⟨h1, hs.cap_le, by simpa using hs.len, ?_, ?_⟩
  · show 0 ≤ (if s.idx + 1 = s.cap then 0 else s.idx + 1)
    split <;> omega
  · show (if s.idx + 1 = s.cap then 0 else s.idx + 1) < s.cap
    split <;> omega

theorem NewStorage_Holds {cap : Nat} (validity : Int) (h1 : 1 ≤ cap)
    (h2 : (cap : Int) ≤ maxInt) {s : Storage} (h : NewStorage cap validity = some s) :
    s.Holds [] := by
  refine ⟨NewStorage_WF validity h1 h2 h, ?_⟩
  rw [NewStorage_eq validity h2] at h
  cases h
  intro i hi
  have hi' : i < cap := by simpa using hi
  have h0 : (0 : Int) ≤ Storage.slotBack
      { idx := 0, cap := cap, validity := validity, history := List.replicate cap zeroHistory,
        stats := {}, expireTimer := none } i := by
    unfold Storage.slotBack
    simp only
    split <;> omega
  rw [index_eq_getElem? h0, List.getElem?_replicate]
  have : (Storage.slotBack
      { idx := 0, cap := cap, validity := validity, history := List.replicate cap zeroHistory,
        stats := {}, expireTimer := none } i).toNat < cap := by
    unfold Storage.slotBack
    simp only
    split <;> omega
  simp [this]

theorem Put_Holds {s s' : Storage} {l : List History} (hs : s.Holds l) {now : Int} {d : Nat}
    (h : s.Put now d = some s') : s'.Holds ({ Time := now, Delay := d } :: l) := by
  refine ⟨Put_WF hs.1 h, ?_⟩
  obtain ⟨hwf, hl⟩ := hs
  rw [Put_eq hwf] at h
  cases h
  have h1 := hwf.cap_pos
  have h3 := hwf.len
  have h4 := hwf.idx_lo
  have h5 := hwf.idx_hi
  intro i hi
  simp only at hi
  unfold Storage.slotBack
  simp only
  cases i with
  | zero =>
    simp only [Nat.cast_zero, sub_zero, List.getD_cons_zero]
    split
    · rw [if_neg (by omega), index_eq_getElem? (le_refl _)]
      rw [List.getElem?_set_self (by simp; omega)]
    · rw [if_neg (by omega), index_eq_getElem? (by omega)]
      rw [List.getElem?_set_self (by omega)]
  | succ i =>
    have hprev := hl i (by omega)
    unfold Storage.slotBack at hprev
    simp only [List.getD_cons_succ]
    rw [← hprev]
    push_cast at hi ⊢
    by_cases hw : s.idx + 1 = s.cap
    · rw [if_pos hw]
      rw [if_pos (by omega)]
      have e1 : (0 : Int) - (↑i + 1) + s.cap = s.idx - i := by omega
      rw [e1, if_neg (by omega)]
      rw [index_eq_getElem? (by omega), index_eq_getElem? (by omega)]
      rw [List.getElem?_set_ne]
      simp only [Int.toNat_zero]
      omega
    · rw [if_neg hw]
      have e1 : s.idx + 1 - ((i : Int) + 1) = s.idx - i := by omega
      rw [e1]
      by_cases hneg : s.idx - (i : Int) < 0
      · simp only [if_pos hneg]
        rw [index_eq_getElem? (by omega), index_eq_getElem? (by omega)]
        rw [List.getElem?_set_ne]
        omega
      · simp only [if_neg hneg]
        rw [index_eq_getElem? (by omega), index_eq_getElem? (by omega)]
        rw [List.getElem?_set_ne]
        omega

theorem foldlM_Put_Holds (puts : List (Int × Nat)) :
    ∀ {s : Storage} {l : List History}, s.Holds l →
      ∃ s', puts.foldlM (fun s p => Storage.Put s p.1 p.2) s = some s' ∧
        s'.Holds (written puts ++ l) ∧ s'.cap = s.cap ∧ s'.validity = s.validity := by
  induction puts with
  | nil =>
    intro s l hs
    exact ⟨s, rfl, by simpa [written] using hs, rfl, rfl⟩
  | cons p ps ih =>
    intro s l hs
    have hput := Put_eq hs.1 p.1 p.2
    obtain ⟨s1, hs1⟩ : ∃ s1, s.Put p.1 p.2 = some s1 := ⟨_, hput⟩
    have hc : s1.cap = s.cap ∧ s1.validity = s.validity := by
      rw [hput] at hs1
      cases hs1
      exact ⟨rfl, rfl⟩
    obtain ⟨s', h1, h2, h3, h4⟩ := ih (Put_Holds hs hs1)
    refine ⟨s', ?_, ?_, by rw [h3, hc.1], by rw [h4, hc.2]⟩
    · rw [List.foldlM_cons, hs1]
      exact h1
    · have : written (p :: ps) ++ l = written ps ++ { Time := p.1, Delay := p.2 } :: l := by
        simp [written]
      rw [this]
      exact h2

theorem build_Holds {cap : Nat} (validity : Int) (puts : List (Int × Nat)) (h1 : 1 ≤ cap)
    (h2 : (cap : Int) ≤ maxInt) :
    ∃ s, build cap validity puts = some s ∧ s.Holds (written puts) ∧
      s.cap = cap ∧ s.validity = validity := by
  have h0 := NewStorage_eq validity h2
  obtain ⟨s', e1, e2, e3, e4⟩ := foldlM_Put_Holds puts (NewStorage_Holds validity h1 h2 h0)
  refine ⟨s', ?_, by simpa using e2, e3, e4⟩
  unfold build
  rw [h0]
  exact e1

/-! ## Lists -/

theorem map_getD_range (z : History) : ∀ (n : Nat) (l : List History),
    (List.range n).map (fun i => l.getD i z) = l.take n ++ List.replicate (n - l.length) z := by
  intro n
  induction n with
  | zero => intro l; simp
  | succ n ih =>
    intro l
    rw [List.range_succ_eq_map, List.map_cons, List.map_map]
    cases l with
    | nil =>
      simp only [List.getD_nil, List.take_nil, List.length_nil, Nat.sub_zero, List.nil_append]
      rw [List.replicate_succ]
      congr 1
      have := ih []
      simp only [List.getD_nil, List.take_nil, List.length_nil, Nat.sub_zero,
        List.nil_append] at this
      rw [← this]
      apply List.map_congr_left
      intro i _
      rfl
    | cons x l =>
      simp only [List.getD_cons_zero, List.take_succ_cons, List.length_cons,
        Nat.add_sub_add_right, List.cons_append]
      congr 1
      rw [← ih l]
      apply List.map_congr_left
      intro i _
      rfl

theorem takeWhile_append_of_none {p : History → Bool} (a b : List History)
    (hb : ∀ x ∈ b, p x = false) : (a ++ b).takeWhile p = a.takeWhile p := by
  induction a with
  | nil =>
    cases b with
    | nil => rfl
    | cons x b => simp [List.takeWhile, hb x (List.mem_cons_self _ _)]
  | cons x a ih =>
    simp only [List.cons_append, List.takeWhile_cons]
    split
    · rw [ih]
    · rfl

theorem takeWhile_of_all {p : History → Bool} (a : List History)
    (ha : ∀ x ∈ a, p x = true) : a.takeWhile p = a := by
  induction a with
  | nil => rfl
  | cons x a ih =>
    rw [List.takeWhile_cons, ha x (List.mem_cons_self _ _)]
    simp only [if_true]
    rw [ih (fun y hy => ha y (List.mem_cons_of_mem _ hy))]

/-! ## `All` -/

theorem All_loop_eq {s : Storage} {l : List History} (hs : s.Holds l) :
    ∀ (is : List Nat) (acc : List History), (∀ i ∈ is, (i : Int) < s.cap) →
      All.loop s is acc = some (acc ++
        (is.map (fun i => l.getD i zeroHistory)).takeWhile (fun x => decide (x.Time ≠ 0))) := by
  intro is
  induction is with
  | nil => intro acc _; simp [All.loop]
  | cons i rest ih =>
    intro acc hi
    have h1 := offset_back hs.1 (hi i (List.mem_cons_self _ _))
    have h2 := hs.2 i (hi i (List.mem_cons_self _ _))
    unfold All.loop
    simp only [h1, h2, Option.bind_eq_bind, Option.some_bind, List.map_cons,
      List.takeWhile_cons]
    generalize l.getD i zeroHistory = x
    by_cases hz : x.Time = 0
    · simp [hz]
    · rw [if_neg hz, ih _ (fun j hj => hi j (List.mem_cons_of_mem _ hj))]
      simp [hz]

theorem written_time_ne_zero {puts : List (Int × Nat)} (ht : ∀ p ∈ puts, p.1 ≠ 0) :
    ∀ x ∈ written puts, x.Time ≠ 0 := by
  intro x hx
  unfold written at hx
  simp only [List.mem_reverse, List.mem_map] at hx
  obtain ⟨p, hp, rfl⟩ := hx
  exact ht p hp

theorem retained_time_ne_zero {puts : List (Int × Nat)} (ht : ∀ p ∈ puts, p.1 ≠ 0)
    (cap : Nat) : ∀ x ∈ retained cap puts, x.Time ≠ 0 := fun x hx =>
  written_time_ne_zero ht x (List.mem_of_mem_take hx)

theorem written_length (puts : List (Int × Nat)) : (written puts).length = puts.length := by
  simp [written]

/-- C1. For every capacity `cap ≥ 1` (that fits an `int`) and every sequence of `Put`
calls on a fresh storage, made at instants other than the zero instant, the calls
succeed and `All()` returns exactly the last `min n cap` samples put, latest
first: never more than `cap` of them, and never a slot with the zero time. -/
theorem All_returns_retained (cap : Nat) (validity : Int) (puts : List (Int × Nat))
    (h1 : 1 ≤ cap) (h2 : (cap : Int) ≤ maxInt) (ht : ∀ p ∈ puts, p.1 ≠ 0) :
    ∃ s, build cap validity puts = some s ∧
      All (some s) = some (retained cap puts) ∧
      (retained cap puts).length = min puts.length cap ∧
      (retained cap puts).length ≤ cap ∧
      ∀ x ∈ retained cap puts, x.Time ≠ 0 := by
  obtain ⟨s, hb, hs, hc, _⟩ := build_Holds validity puts h1 h2
  have hlen : (retained cap puts).length = min puts.length cap := by
    unfold retained
    rw [List.length_take, written_length, Nat.min_comm]
  refine ⟨s, hb, ?_, hlen, by rw [hlen]; exact Nat.min_le_right _ _,
    retained_time_ne_zero ht cap⟩
  unfold All
  simp only
  rw [if_neg (by have := hs.1.cap_pos; omega)]
  rw [All_loop_eq hs _ _ (by
    intro i hi
    have := List.mem_range.mp hi
    omega)]
  rw [hc, Int.toNat_ofNat, map_getD_range, List.nil_append]
  rw [takeWhile_append_of_none _ _ (by
    intro x hx
    rw [List.eq_of_mem_replicate hx]
    rfl)]
  exact congrArg some (takeWhile_of_all _ (by
    intro x hx
    simpa using retained_time_ne_zero ht cap x hx))

/-- The theorem `All_returns_retained` at capacity 3 after four calls of `Put`: the
last three samples, latest first. -/
theorem All_returns_retained_witness :
    ∃ s, build 3 60 [(100, 10), (101, 20), (102, 30), (103, 40)] = some s ∧
      All (some s) = some [{ Time := 103, Delay := 40 }, { Time := 102, Delay := 30 },
        { Time := 101, Delay := 20 }] := by
  obtain ⟨s, h1, h2, _⟩ := All_returns_retained 3 60 [(100, 10), (101, 20), (102, 30), (103, 40)]
    (by decide) (by decide) (by decide)
  exact ⟨s, h1, h2.trans (by decide)⟩

/-! ## `Get` and `Latest` -/

/-- C2, as stated, fails: at capacity 3 after three calls of `Put`, `Get(1)` is the
sample put first, two writes before the latest, whereas the sample one write
before the latest is the second. -/
theorem Get_positive_offset_counterexample :
    (build 3 60 [(100, 10), (101, 20), (102, 30)]).bind (fun s => Get (some s) 1)
        = some (some { Time := 100, Delay := 10 }) ∧
      (written [(100, 10), (101, 20), (102, 30)])[1]? = some { Time := 101, Delay := 20 } ∧
      (build 3 60 [(100, 10), (101, 20), (102, 30)]).bind (fun s => Get (some s) 1)
        ≠ some ((written [(100, 10), (101, 20), (102, 30)])[1]?) := by
  decide

/-- C2, amended. For every storage of capacity `cap ≥ 1` built by a sequence of
`Put` calls made at instants other than the zero instant, and every `k < cap`,
`Get(-k)` returns the sample put `k` writes before the latest one, or nil when
fewer than `k + 1` samples were ever written. -/
theorem Get_negative_offset (cap : Nat) (validity : Int) (puts : List (Int × Nat))
    (k : Nat) (h1 : 1 ≤ cap) (h2 : (cap : Int) ≤ maxInt)
    (ht : ∀ p ∈ puts, p.1 ≠ 0) (hk : k < cap) :
    ∃ s, build cap validity puts = some s ∧
      Get (some s) (-(k : Int)) = some ((written puts)[k]?) := by
  obtain ⟨s, hb, hs, hc, _⟩ := build_Holds validity puts h1 h2
  refine ⟨s, hb, ?_⟩
  have hk' : (k : Int) < s.cap := by rw [hc]; exact_mod_cast hk
  unfold Get
  simp only [offset_back hs.1 hk', hs.2 k hk', Option.bind_eq_bind, Option.some_bind]
  rw [List.getD_eq_getElem?_getD]
  cases hx : (written puts)[k]? with
  | none => simp [zeroHistory]
  | some x =>
    have := written_time_ne_zero ht x (List.getElem?_mem hx)
    simp [this]

/-- The theorem `Get_negative_offset` at capacity 3, three samples and `k = 1`: the
second sample put. -/
theorem Get_negative_offset_witness :
    ∃ s, build 3 60 [(100, 10), (101, 20), (102, 30)] = some s ∧
      Get (some s) (-1) = some (some { Time := 101, Delay := 20 }) := by
  obtain ⟨s, h1, h2⟩ := Get_negative_offset 3 60 [(100, 10), (101, 20), (102, 30)] 1
    (by decide) (by decide) (by decide) (by decide)
  exact ⟨s, h1, h2.trans (by decide)⟩

/-- C7. For every storage state, `Get(0)` and `Latest()` return the same result:
both nil, or both the same sample.  The receiver `h` is nil or a storage that
satisfies the ring invariant (possibly with no sample written). -/
theorem Get_zero_eq_Latest (h : Option Storage) (hwf : ∀ s, h = some s → s.WF) :
    Get h 0 = Latest h ∧
      (Latest h = some none ∨ ∃ rtt, Latest h = some (some rtt)) := by
  cases h with
  | none => exact ⟨rfl, Or.inl rfl⟩
  | some s =>
    have hs := hwf s rfl
    have hlt : s.idx.toNat < s.history.length := by
      have := hs.len
      have := hs.idx_lo
      have := hs.idx_hi
      omega
    have hi : index s.history s.idx = some (s.history[s.idx.toNat]) := by
      rw [index_eq_getElem? hs.idx_lo, List.getElem?_eq_getElem hlt]
    have hg : Get (some s) 0 =
        some (if (s.history[s.idx.toNat]).Time = 0 then none
          else some (s.history[s.idx.toNat])) := by
      unfold Get
      simp only [offset_zero hs, hi, Option.bind_eq_bind, Option.some_bind]
      split <;> rfl
    have hl : Latest (some s) =
        some (if (s.history[s.idx.toNat]).Time = 0 then none
          else some (s.history[s.idx.toNat])) := by
      unfold Latest
      simp only [hi, Option.bind_eq_bind, Option.some_bind]
      by_cases hz : (s.history[s.idx.toNat]).Time = 0
      · simp [hz]
      · rw [if_neg hz, hg]
    refine ⟨by rw [hg, hl], ?_⟩
    rw [hl]
    by_cases hz : (s.history[s.idx.toNat]).Time = 0
    · exact Or.inl (by rw [if_pos hz])
    · exact Or.inr ⟨_, by rw [if_neg hz]⟩

/-- The theorem `Get_zero_eq_Latest` on a storage of capacity 2 with no sample
written. -/
theorem Get_zero_eq_Latest_witness :
    Get (some emptyOfTwo) 0 = Latest (some emptyOfTwo) ∧
      (Latest (some emptyOfTwo) = some none ∨
        ∃ rtt, Latest (some emptyOfTwo) = some (some rtt)) :=
  Get_zero_eq_Latest (some emptyOfTwo) (by
    intro s hs
    cases hs
    exact ⟨by decide, by decide, by decide, by decide, by decide⟩)

/-! ## The loop of `refreshStats` -/

theorem visit_cnt (F : Nat) (v : Int) (a : Locals) (x : History) :
    (a.visit F v x).cnt = a.cnt + (if x.Delay = F then 0 else 1) := by
  unfold Locals.visit
  by_cases h : x.Delay = F
  · simp [h]
  · simp only [h, if_false]
    split <;> split <;> rfl

theorem visit_fail (F : Nat) (v : Int) (a : Locals) (x : History) :
    (a.visit F v x).stats.Fail = a.stats.Fail + (if x.Delay = F then 1 else 0) := by
  unfold Locals.visit
  by_cases h : x.Delay = F
  · simp [h]
  · simp only [h, if_false]
    split <;> split <;> simp

theorem visit_sum (F : Nat) (v : Int) (a : Locals) (x : History) :
    (a.visit F v x).sum = if x.Delay = F then a.sum else (a.sum + x.Delay) % rttMod := by
  unfold Locals.visit
  by_cases h : x.Delay = F
  · simp [h]
  · simp only [h, if_false]
    split <;> split <;> rfl

theorem visit_validRTTs (F : Nat) (v : Int) (a : Locals) (x : History) :
    (a.visit F v x).validRTTs = a.validRTTs ++ (if x.Delay = F then [] else [x.Delay]) := by
  unfold Locals.visit
  by_cases h : x.Delay = F
  · simp [h]
  · simp only [h, if_false]
    split <;> split <;> rfl

theorem visit_max (F : Nat) (v : Int) (a : Locals) (x : History) :
    (a.visit F v x).stats.Max = if x.Delay = F then a.stats.Max else max a.stats.Max x.Delay := by
  unfold Locals.visit
  by_cases h : x.Delay = F
  · simp [h]
  · simp only [h, if_false]
    split <;> split <;> simp at * <;> omega

theorem visit_min (F : Nat) (v : Int) (a : Locals) (x : History) :
    (a.visit F v x).min = if x.Delay = F then a.min else min a.min x.Delay := by
  unfold Locals.visit
  by_cases h : x.Delay = F
  · simp [h]
  · simp only [h, if_false]
    split <;> split <;> simp at * <;> omega

theorem visit_expiresAt (F : Nat) (v : Int) (a : Locals) (x : History) :
    (a.visit F v x).expiresAt = x.Time + v := by
  unfold Locals.visit timeAdd
  by_cases h : x.Delay = F
  · simp [h]
  · simp only [h, if_false]
    split <;> split <;> rfl

theorem visit_rest (F : Nat) (v : Int) (a : Locals) (x : History) :
    (a.visit F v x).stats.Latest = a.stats.Latest ∧ (a.visit F v x).stats.Average = a.stats.Average ∧
    (a.visit F v x).stats.Deviation = a.stats.Deviation ∧ (a.visit F v x).stats.Min = a.stats.Min ∧
    (a.visit F v x).stats.All = a.stats.All ∧ (a.visit F v x).stats.Expires = a.stats.Expires := by
  unfold Locals.visit
  by_cases h : x.Delay = F
  · simp [h]
  · simp only [h, if_false]
    split <;> split <;> simp

theorem fold_cnt (F : Nat) (v : Int) (w : List History) :
    ∀ a : Locals, (w.foldl (Locals.visit F v) a).cnt = a.cnt + (successes F w).length := by
  induction w with
  | nil => intro a; simp [successes]
  | cons x w ih =>
    intro a
    rw [List.foldl_cons, ih, visit_cnt]
    by_cases h : x.Delay = F
    · simp [successes, h]
    · simp [successes, h]
      omega

theorem fold_fail (F : Nat) (v : Int) (w : List History) :
    ∀ a : Locals, (w.foldl (Locals.visit F v) a).stats.Fail = a.stats.Fail + failures F w := by
  induction w with
  | nil => intro a; simp [failures]
  | cons x w ih =>
    intro a
    rw [List.foldl_cons, ih, visit_fail]
    by_cases h : x.Delay = F
    · simp [failures, h]
      omega
    · simp [failures, h]

theorem fold_sum (F : Nat) (v : Int) (w : List History) :
    ∀ a : Locals, a.sum < rttMod →
      (w.foldl (Locals.visit F v) a).sum = (a.sum + (successes F w).sum) % rttMod := by
  induction w with
  | nil => intro a ha; simp [successes, Nat.mod_eq_of_lt ha]
  | cons x w ih =>
    intro a ha
    have hlt : (a.visit F v x).sum < rttMod := by
      rw [visit_sum]
      split
      · exact ha
      · exact Nat.mod_lt _ (by decide)
    rw [List.foldl_cons, ih _ hlt, visit_sum]
    by_cases h : x.Delay = F
    · simp [successes, h]
    · simp only [successes, h, if_false, ne_eq, not_false_eq_true, decide_True,
        List.filter_cons_of_pos, List.map_cons, List.sum_cons]
      rw [Nat.add_mod, Nat.mod_mod, ← Nat.add_mod, Nat.add_assoc]

theorem fold_validRTTs (F : Nat) (v : Int) (w : List History) :
    ∀ a : Locals, (w.foldl (Locals.visit F v) a).validRTTs = a.validRTTs ++ successes F w := by
  induction w with
  | nil => intro a; simp [successes]
  | cons x w ih =>
    intro a
    rw [List.foldl_cons, ih, visit_validRTTs]
    by_cases h : x.Delay = F <;> simp [successes, h]

theorem fold_max (F : Nat) (v : Int) (w : List History) :
    ∀ a : Locals, (w.foldl (Locals.visit F v) a).stats.Max =
      (successes F w).foldl max a.stats.Max := by
  induction w with
  | nil => intro a; simp [successes]
  | cons x w ih =>
    intro a
    rw [List.foldl_cons, ih, visit_max]
    by_cases h : x.Delay = F <;> simp [successes, h]

theorem fold_min (F : Nat) (v : Int) (w : List History) :
    ∀ a : Locals, (w.foldl (Locals.visit F v) a).min = (successes F w).foldl min a.min := by
  induction w with
  | nil => intro a; simp [successes]
  | cons x w ih =>
    intro a
    rw [List.foldl_cons, ih, visit_min]
    by_cases h : x.Delay = F <;> simp [successes, h]

theorem fold_expiresAt (F : Nat) (v : Int) (w : List History) :
    ∀ a : Locals, (w.foldl (Locals.visit F v) a).expiresAt =
      match w.getLast? with
      | some x => x.Time + v
      | none => a.expiresAt := by
  induction w with
  | nil => intro a; rfl
  | cons x w ih =>
    intro a
    rw [List.foldl_cons, ih]
    cases w with
    | nil => simp [visit_expiresAt]
    | cons y w =>
      rw [List.getLast?_cons_cons, List.getLast?_eq_getLast _ (List.cons_ne_nil y w)]

theorem fold_rest (F : Nat) (v : Int) (w : List History) :
    ∀ a : Locals, (w.foldl (Locals.visit F v) a).stats.Latest = a.stats.Latest ∧
      (w.foldl (Locals.visit F v) a).stats.Average = a.stats.Average ∧
      (w.foldl (Locals.visit F v) a).stats.Deviation = a.stats.Deviation ∧
      (w.foldl (Locals.visit F v) a).stats.Min = a.stats.Min := by
  induction w with
  | nil => intro a; exact ⟨rfl, rfl, rfl, rfl⟩
  | cons x w ih =>
    intro a
    rw [List.foldl_cons]
    obtain ⟨h1, h2, h3, h4⟩ := ih (a.visit F v x)
    obtain ⟨g1, g2, g3, g4, _, _⟩ := visit_rest F v a x
    exact ⟨h1.trans g1, h2.trans g2, h3.trans g3, h4.trans g4⟩

theorem live_eq_inWindow (v now : Int) :
    (fun x : History => !decide (timeAdd x.Time v < now)) = inWindow v now := by
  funext x
  unfold inWindow timeAdd
  by_cases h : x.Time + v < now
  · have : ¬ (now - x.Time ≤ v) := by omega
    simp [h, this]
  · have : now - x.Time ≤ v := by omega
    simp [h, this]

theorem refresh_loop_eq {s : Storage} {l : List History} (hs : s.Holds l) (F : Nat) (now : Int) :
    ∀ (is : List Nat) (a : Locals), (∀ i ∈ is, (i : Int) < s.cap) →
      refreshStats.loop s F now is a = some
        (((is.map (fun i => l.getD i zeroHistory)).takeWhile (inWindow s.validity now)).foldl
          (Locals.visit F s.validity) a) := by
  intro is
  induction is with
  | nil => intro a _; rfl
  | cons i rest ih =>
    intro a hi
    have h1 := offset_back hs.1 (hi i (List.mem_cons_self _ _))
    have h2 := hs.2 i (hi i (List.mem_cons_self _ _))
    unfold refreshStats.loop
    simp only [h1, h2, Option.bind_eq_bind, Option.some_bind, List.map_cons,
      List.takeWhile_cons]
    generalize l.getD i zeroHistory = x
    have hw : inWindow s.validity now x = !decide (timeAdd x.Time s.validity < now) :=
      (congrFun (live_eq_inWindow s.validity now) x).symm
    by_cases hz : timeAdd x.Time s.validity < now
    · simp [hz, hw]
    · rw [if_neg hz, ih _ (fun j hj => hi j (List.mem_cons_of_mem _ hj))]
      simp [hz, hw]

theorem Holds_removeStats {s : Storage} {l : List History} (hs : s.Holds l) :
    s.removeStats.Holds l :=
  ⟨⟨hs.1.cap_pos, hs.1.cap_le, hs.1.len, hs.1.idx_lo, hs.1.idx_hi⟩, hs.2⟩

theorem slotBack_zero {s : Storage} (hs : s.WF) : s.slotBack 0 = s.idx := by
  have := hs.idx_lo
  unfold Storage.slotBack
  simp only [Nat.cast_zero, sub_zero]
  rw [if_neg (by omega)]

theorem refreshStats_eq {s : Storage} {l : List History} (hs : s.Holds l) (F : Nat) (now : Int) :
    s.refreshStats F now = some
      (if timeSub now (l.getD 0 zeroHistory).Time > s.validity then s.removeStats
       else refreshStats.finish s.removeStats now
        (((l.take s.cap.toNat ++ List.replicate (s.cap.toNat - l.length) zeroHistory).takeWhile
            (inWindow s.validity now)).foldl
          (Locals.visit F s.validity) (startLocals (l.getD 0 zeroHistory).Delay))) := by
  have hlatest : index s.history s.idx = some (l.getD 0 zeroHistory) := by
    have := hs.2 0 (by simpa using hs.1.cap_pos)
    rwa [slotBack_zero hs.1] at this
  have hloop := refresh_loop_eq (Holds_removeStats hs) F now (List.range s.cap.toNat)
    (startLocals (l.getD 0 zeroHistory).Delay) (by
      intro i hi
      have := List.mem_range.mp hi
      have := hs.1.cap_pos
      show (i : Int) < s.cap
      omega)
  rw [map_getD_range] at hloop
  unfold Storage.refreshStats
  simp only [Option.bind_eq_bind]
  show (index s.history s.idx).bind _ = _
  rw [hlatest, Option.some_bind]
  by_cases he : timeSub now (l.getD 0 zeroHistory).Time > s.validity
  · rw [if_pos he]
    exact if_pos he
  · rw [if_neg he]
    refine (if_neg he).trans ?_
    have hcap : ¬ s.removeStats.cap < 0 := by
      have := hs.1.cap_pos
      show ¬ s.cap < 0
      omega
    refine (if_neg hcap).trans ?_
    exact congrArg (fun o => Option.bind o fun a => some (refreshStats.finish s.removeStats now a))
      hloop

/-! ## The validity window of a run -/

theorem written_sorted {puts : List (Int × Nat)} (h : puts.Pairwise (fun p q => p.1 ≤ q.1)) :
    (written puts).Pairwise (fun x y => y.Time ≤ x.Time) := by
  unfold written
  rw [List.pairwise_reverse, List.pairwise_map]
  exact h

theorem written_time_le {puts : List (Int × Nat)} {now : Int} (h : ∀ p ∈ puts, p.1 ≤ now) :
    ∀ x ∈ written puts, x.Time ≤ now := by
  intro x hx
  unfold written at hx
  simp only [List.mem_reverse, List.mem_map] at hx
  obtain ⟨p, hp, rfl⟩ := hx
  exact h p hp

theorem written_time_pos {puts : List (Int × Nat)} (h : ∀ p ∈ puts, 0 < p.1) :
    ∀ x ∈ written puts, 0 < x.Time := by
  intro x hx
  unfold written at hx
  simp only [List.mem_reverse, List.mem_map] at hx
  obtain ⟨p, hp, rfl⟩ := hx
  exact h p hp

theorem takeWhile_eq_filter_of_sorted (v now : Int) (l : List History)
    (h : l.Pairwise (fun x y => y.Time ≤ x.Time)) :
    l.takeWhile (inWindow v now) = l.filter (inWindow v now) := by
  induction l with
  | nil => rfl
  | cons x l ih =>
    rw [List.pairwise_cons] at h
    rw [List.takeWhile_cons, List.filter_cons]
    by_cases hx : inWindow v now x = true
    · rw [if_pos hx, if_pos hx, ih h.2]
    · rw [if_neg hx, if_neg hx]
      symm
      rw [List.filter_eq_nil_iff]
      intro y hy
      have hle := h.1 y hy
      unfold inWindow at hx ⊢
      simp only [decide_eq_true_eq] at hx ⊢
      omega

theorem window_eq {cap : Nat} {validity : Int} {puts : List (Int × Nat)} {now : Int}
    (hf : Filled cap validity puts now) (k : Nat) :
    ((written puts).take cap ++ List.replicate k zeroHistory).takeWhile (inWindow validity now)
      = window cap validity now puts := by
  obtain ⟨_, _, _, hsorted, _, hv⟩ := hf
  rw [takeWhile_append_of_none _ _ (by
    intro x hx
    rw [List.eq_of_mem_replicate hx]
    unfold inWindow zeroHistory
    simp only [sub_zero, decide_eq_false_iff_not]
    omega)]
  exact takeWhile_eq_filter_of_sorted validity now _
    ((written_sorted hsorted).sublist (List.take_sublist _ _))

theorem timeSub_gt {now t v : Int} (ht : t ≤ now) (h : timeSub now t > v) : now - t > v := by
  unfold timeSub maxDuration minDuration at h
  split at h
  · omega
  · split at h <;> omega

theorem window_nil_of_latest_expired {cap : Nat} {validity : Int} {puts : List (Int × Nat)}
    {now : Int} (hf : Filled cap validity puts now)
    (h : timeSub now ((written puts).getD 0 zeroHistory).Time > validity) :
    window cap validity now puts = [] := by
  obtain ⟨_, _, _, hsorted, hle, hv⟩ := hf
  have hs := written_sorted hsorted
  have hl := written_time_le hle
  unfold window retained
  rw [List.filter_eq_nil_iff]
  intro x hx
  have hx' := List.mem_of_mem_take hx
  unfold inWindow
  simp only [decide_eq_true_eq]
  cases hw : written puts with
  | nil => rw [hw] at hx'; cases hx'
  | cons y l =>
    rw [hw] at hs hl hx' h
    simp only [List.getD_cons_zero] at h
    have hy := timeSub_gt (hl y (List.mem_cons_self _ _)) h
    rw [List.pairwise_cons] at hs
    rcases List.mem_cons.mp hx' with rfl | hm
    · omega
    · have := hs.1 x hm
      omega

/-- The outcome of `refreshStats` on a run: the calls succeed, and the storage
afterwards is either the one with the cache cleared, the window being empty, or
the one that the part after the loop builds from the samples of the window,
visited latest first. -/
theorem refreshStats_run {cap : Nat} {validity : Int} {puts : List (Int × Nat)} {now : Int}
    (hf : Filled cap validity puts now) (F : Nat) :
    ∃ s s', build cap validity puts = some s ∧ s.refreshStats F now = some s' ∧
      ((s' = s.removeStats ∧ window cap validity now puts = []) ∨
        s' = refreshStats.finish s.removeStats now
          ((window cap validity now puts).foldl (Locals.visit F validity)
            (startLocals ((written puts).getD 0 zeroHistory).Delay))) := by
  obtain ⟨s, hb, hs, hc, hv⟩ := build_Holds validity puts hf.1 hf.2.1
  refine ⟨s, _, hb, refreshStats_eq hs F now, ?_⟩
  rw [hv, hc, Int.toNat_ofNat, window_eq hf]
  by_cases he : timeSub now ((written puts).getD 0 zeroHistory).Time > validity
  · rw [if_pos he]
    exact Or.inl ⟨rfl, window_nil_of_latest_expired hf he⟩
  · rw [if_neg he]
    exact Or.inr rfl

/-! ## The part of `refreshStats` after the loop -/

theorem finish_All (h : Storage) (now : Int) (a : Locals) :
    (refreshStats.finish h now a).stats.All = a.cnt + a.stats.Fail := by
  unfold refreshStats.finish
  by_cases hc : a.cnt > 0 <;> simp only [hc, reduceIte] <;> split <;> rfl

theorem finish_Fail (h : Storage) (now : Int) (a : Locals) :
    (refreshStats.finish h now a).stats.Fail = a.stats.Fail := by
  unfold refreshStats.finish
  by_cases hc : a.cnt > 0 <;> simp only [hc, reduceIte] <;> split <;> rfl

theorem finish_Expires (h : Storage) (now : Int) (a : Locals) :
    (refreshStats.finish h now a).stats.Expires = a.expiresAt := by
  unfold refreshStats.finish
  by_cases hc : a.cnt > 0 <;> simp only [hc, reduceIte] <;> split <;> rfl

theorem finish_Max (h : Storage) (now : Int) (a : Locals) :
    (refreshStats.finish h now a).stats.Max = a.stats.Max := by
  unfold refreshStats.finish
  by_cases hc : a.cnt > 0 <;> simp only [hc, reduceIte] <;> split <;> rfl

theorem finish_Latest (h : Storage) (now : Int) (a : Locals) :
    (refreshStats.finish h now a).stats.Latest = a.stats.Latest := by
  unfold refreshStats.finish
  by_cases hc : a.cnt > 0 <;> simp only [hc, reduceIte] <;> split <;> rfl

theorem finish_expireTimer (h : Storage) (now : Int) (a : Locals) :
    (refreshStats.finish h now a).expireTimer =
      if a.expiresAt ≠ 0 then some (timeSub a.expiresAt now) else h.expireTimer := by
  unfold refreshStats.finish
  by_cases hc : a.cnt > 0 <;> simp only [hc, reduceIte] <;> split <;> rfl

theorem finish_Average (h : Storage) (now : Int) (a : Locals) :
    (refreshStats.finish h now a).stats.Average =
      if a.cnt > 0 then (a.sum / a.cnt.toNat) % rttMod else a.stats.Average := by
  unfold refreshStats.finish
  by_cases hc : a.cnt > 0 <;> simp only [hc, reduceIte] <;> split <;> rfl

theorem finish_Min (h : Storage) (now : Int) (a : Locals) (hc : 0 < a.cnt)
    (hf : 0 ≤ a.stats.Fail) : (refreshStats.finish h now a).stats.Min = a.min := by
  unfold refreshStats.finish
  simp only
  rw [if_pos hc]
  simp only
  rw [if_neg (by omega)]

theorem finish_Deviation (h : Storage) (now : Int) (a : Locals) (hc : 0 < a.cnt)
    (hf : 0 ≤ a.stats.Fail) :
    (refreshStats.finish h now a).stats.Deviation =
      (if a.cnt < 2 then (a.sum / a.cnt.toNat) % rttMod / 2
        else stdDev (variance ((a.sum / a.cnt.toNat) % rttMod) a.validRTTs) a.cnt) % rttMod := by
  unfold refreshStats.finish
  simp only
  rw [if_pos hc]
  simp only
  rw [if_neg (by omega)]

/-- The method `refreshStats` starts with `removeStats`: its outcome does not depend
on the cache and the timer the storage holds. -/
theorem refreshStats_ignores_cache (s : Storage) (c : Stats) (tm : Option Int) (F : Nat)
    (now : Int) :
    Storage.refreshStats { s with stats := c, expireTimer := tm } F now = s.refreshStats F now :=
  rfl

theorem finish_stats_congr (h h' : Storage) (now : Int) (a : Locals) :
    (refreshStats.finish h now a).stats = (refreshStats.finish h' now a).stats := by
  unfold refreshStats.finish
  by_cases hc : a.cnt > 0 <;> simp only [hc, reduceIte] <;> split <;> rfl

theorem window_head {cap : Nat} {validity : Int} {puts : List (Int × Nat)} {now : Int}
    (hf : Filled cap validity puts now) (hne : window cap validity now puts ≠ []) :
    (window cap validity now puts).head? = some ((written puts).getD 0 zeroHistory) := by
  obtain ⟨hcap, _, _, hsorted, _, _⟩ := hf
  have hs := written_sorted hsorted
  unfold window retained at hne ⊢
  cases hw : written puts with
  | nil => rw [hw] at hne; simp at hne
  | cons y l =>
    rw [hw] at hs hne
    obtain ⟨c, rfl⟩ : ∃ c, cap = c + 1 := ⟨cap - 1, by omega⟩
    rw [List.take_succ_cons] at hne ⊢
    rw [List.pairwise_cons] at hs
    have hy : inWindow validity now y = true := by
      by_contra hy
      apply hne
      rw [List.filter_eq_nil_iff]
      intro x hx
      unfold inWindow at hy ⊢
      simp only [decide_eq_true_eq] at hy ⊢
      rcases List.mem_cons.mp hx with rfl | hm
      · exact hy
      · have := hs.1 x (List.mem_of_mem_take hm)
        omega
    rw [List.filter_cons_of_pos hy]
    rfl

theorem latest_expired_of_window_nil {cap : Nat} {validity : Int} {puts : List (Int × Nat)}
    {now : Int} (hf : Filled cap validity puts now) (hv : validity < maxDuration)
    (hnil : window cap validity now puts = []) :
    timeSub now ((written puts).getD 0 zeroHistory).Time > validity := by
  obtain ⟨hcap, _, _, _, hle, hnow⟩ := hf
  have hl := written_time_le hle
  have key : now - ((written puts).getD 0 zeroHistory).Time > validity := by
    unfold window retained at hnil
    cases hw : written puts with
    | nil =>
      simp only [List.getD_nil, zeroHistory]
      omega
    | cons y l =>
      rw [hw] at hnil
      obtain ⟨c, rfl⟩ : ∃ c, cap = c + 1 := ⟨cap - 1, by omega⟩
      rw [List.take_succ_cons, List.filter_eq_nil_iff] at hnil
      have := hnil y (List.mem_cons_self _ _)
      unfold inWindow at this
      simp only [decide_eq_true_eq] at this
      simp only [List.getD_cons_zero]
      omega
  unfold timeSub maxDuration minDuration
  unfold maxDuration at hv
  split
  · omega
  · split <;> omega

theorem WF_Holds {s : Storage} (hs : s.WF) :
    s.Holds ((List.range s.cap.toNat).map
      (fun i => s.history.getD (s.slotBack i).toNat zeroHistory)) := by
  refine ⟨hs, ?_⟩
  intro i hi
  have h1 := hs.cap_pos
  have h3 := hs.len
  have h4 := hs.idx_lo
  have h5 := hs.idx_hi
  have hb : 0 ≤ s.slotBack i ∧ s.slotBack i < s.cap := by
    unfold Storage.slotBack
    split <;> omega
  have hi' : i < s.cap.toNat := by omega
  rw [index_eq_getElem? hb.1, List.getD_eq_getElem?_getD, List.getElem?_map,
    List.getElem?_range hi', Option.map_some', Option.getD_some, List.getD_eq_getElem?_getD,
    List.getElem?_eq_getElem (by omega)]
  rfl

theorem refreshStats_total {s : Storage} (hs : s.WF) (F : Nat) (now : Int) :
    ∃ r, s.refreshStats F now = some r :=
  ⟨_, refreshStats_eq (WF_Holds hs) F now⟩

/-! ## Statistics of a run -/

/-- C3. Time-window law.  On a storage filled by `Put` calls at non-decreasing
instants and queried at `now`, not earlier than the last `Put`, the recomputation
succeeds and `All` is the number of retained samples (the last `min n cap`
written) whose age `now - Time` does not exceed `validity`.  Moreover samples
outside the window contribute to no field: when `validity` is not the largest
duration, two runs with the same window get the same statistics and the same
timer. -/
theorem refreshStats_All_eq_window (cap : Nat) (validity : Int) (puts : List (Int × Nat))
    (now : Int) (F : Nat) (hf : Filled cap validity puts now) :
    ∃ s s', build cap validity puts = some s ∧ s.refreshStats F now = some s' ∧
      s'.stats.All = (window cap validity now puts).length ∧
      (validity < maxDuration → ∀ puts₂, Filled cap validity puts₂ now →
        window cap validity now puts₂ = window cap validity now puts →
        ∃ s₂ s₂', build cap validity puts₂ = some s₂ ∧ s₂.refreshStats F now = some s₂' ∧
          s₂'.stats = s'.stats ∧ s₂'.expireTimer = s'.expireTimer) := by
  obtain ⟨s, s', hb, hr, hcase⟩ := refreshStats_run hf F
  refine ⟨s, s', hb, hr, ?_, ?_⟩
  · rcases hcase with ⟨rfl, hnil⟩ | rfl
    · rw [hnil]
      rfl
    · rw [finish_All, fold_cnt, fold_fail]
      show (0 : Int) + _ + (0 + _) = _
      have : (successes F (window cap validity now puts)).length
          + failures F (window cap validity now puts)
          = (window cap validity now puts).length := by
        unfold successes failures
        rw [List.length_map, ← List.countP_eq_length_filter, Nat.add_comm]
        simpa using List.length_eq_countP_add_countP
          (fun x : History => decide (x.Delay = F)) (window cap validity now puts) |>.symm
      omega
  · intro hv puts₂ hf₂ hw
    obtain ⟨s₂, s₂', hb₂, hr₂, hcase₂⟩ := refreshStats_run hf₂ F
    refine ⟨s₂, s₂', hb₂, hr₂, ?_⟩
    by_cases hnil : window cap validity now puts = []
    · have e1 : s' = s.removeStats := by
        rcases hcase with ⟨h, _⟩ | h
        · exact h
        · have hs := build_Holds validity puts hf.1 hf.2.1
          obtain ⟨t, ht, hh, hc, hval⟩ := hs
          rw [hb] at ht
          cases ht
          have := refreshStats_eq hh F now
          rw [hval, if_pos (latest_expired_of_window_nil hf hv hnil), hr] at this
          exact Option.some.inj this
      have e2 : s₂' = s₂.removeStats := by
        rcases hcase₂ with ⟨h, _⟩ | h
        · exact h
        · have hs := build_Holds validity puts₂ hf₂.1 hf₂.2.1
          obtain ⟨t, ht, hh, hc, hval⟩ := hs
          rw [hb₂] at ht
          cases ht
          have := refreshStats_eq hh F now
          rw [hval, if_pos (latest_expired_of_window_nil hf₂ hv (hw.trans hnil)), hr₂] at this
          exact Option.some.inj this
      rw [e1, e2]
      exact ⟨rfl, rfl⟩
    · have hne₂ : window cap validity now puts₂ ≠ [] := by rw [hw]; exact hnil
      have e1 : s' = refreshStats.finish s.removeStats now
          ((window cap validity now puts).foldl (Locals.visit F validity)
            (startLocals ((written puts).getD 0 zeroHistory).Delay)) := by
        rcases hcase with ⟨_, h⟩ | h
        · exact absurd h hnil
        · exact h
      have e2 : s₂' = refreshStats.finish s₂.removeStats now
          ((window cap validity now puts₂).foldl (Locals.visit F validity)
            (startLocals ((written puts₂).getD 0 zeroHistory).Delay)) := by
        rcases hcase₂ with ⟨_, h⟩ | h
        · exact absurd h hne₂
        · exact h
      have hl : (written puts₂).getD 0 zeroHistory = (written puts).getD 0 zeroHistory := by
        have h1 := window_head hf hnil
        have h2 := window_head hf₂ hne₂
        rw [hw, h1] at h2
        exact (Option.some.inj h2).symm
      rw [e1, e2, hw, hl]
      refine ⟨finish_stats_congr _ _ _ _, ?_⟩
      rw [finish_expireTimer, finish_expireTimer]
      rfl

/-- The theorem `refreshStats_All_eq_window` at capacity 3 and validity 60, samples 10,
20, 30 put at the instants 0, 1 and 2 counted from instant 100: `All` is 3 at
instant 3 and 0 at instant 65. -/
theorem refreshStats_All_eq_window_witness :
    (∃ s s', build 3 60 [(100, 10), (101, 20), (102, 30)] = some s ∧
      s.refreshStats 65535 103 = some s' ∧ s'.stats.All = 3) ∧
    (∃ s s', build 3 60 [(100, 10), (101, 20), (102, 30)] = some s ∧
      s.refreshStats 65535 165 = some s' ∧ s'.stats.All = 0) := by
  constructor
  · obtain ⟨s, s', h1, h2, h3, _⟩ := refreshStats_All_eq_window 3 60
      [(100, 10), (101, 20), (102, 30)] 103 65535 (by decide)
    exact ⟨s, s', h1, h2, h3.trans (by decide)⟩
  · obtain ⟨s, s', h1, h2, h3, _⟩ := refreshStats_All_eq_window 3 60
      [(100, 10), (101, 20), (102, 30)] 165 65535 (by decide)
    exact ⟨s, s', h1, h2, h3.trans (by decide)⟩

/-- C6. On a run queried at `now`, with `validity` in the range of a duration, the
recomputation succeeds; when the window holds a sample, `Expires` is the instant
of the oldest sample of the window, failed or not, plus `validity`, and the timer
is armed for exactly `Expires - now`; when the window is empty, `Expires` is the
zero instant and no timer is armed. -/
theorem refreshStats_Expires (cap : Nat) (validity : Int) (puts : List (Int × Nat))
    (now : Int) (F : Nat) (hf : Filled cap validity puts now) (hv : validity ≤ maxDuration) :
    ∃ s s', build cap validity puts = some s ∧ s.refreshStats F now = some s' ∧
      (∀ x, (window cap validity now puts).getLast? = some x →
        s'.stats.Expires = x.Time + validity ∧ s'.stats.Expires ≠ 0 ∧
        s'.expireTimer = some (s'.stats.Expires - now)) ∧
      (window cap validity now puts = [] →
        s'.stats.Expires = 0 ∧ s'.expireTimer = none) := by
  obtain ⟨s, s', hb, hr, hcase⟩ := refreshStats_run hf F
  refine ⟨s, s', hb, hr, ?_, ?_⟩
  · intro x hx
    have hne : window cap validity now puts ≠ [] := by
      intro h
      rw [h] at hx
      cases hx
    have e1 : s' = refreshStats.finish s.removeStats now
        ((window cap validity now puts).foldl (Locals.visit F validity)
          (startLocals ((written puts).getD 0 zeroHistory).Delay)) := by
      rcases hcase with ⟨_, h⟩ | h
      · exact absurd h hne
      · exact h
    have hmem : x ∈ window cap validity now puts := List.mem_of_getLast?_eq_some hx
    have hxw : inWindow validity now x = true := (List.mem_filter.mp hmem).2
    have hxr : x ∈ written puts := List.mem_of_mem_take (List.mem_filter.mp hmem).1
    have hxle : x.Time ≤ now := written_time_le hf.2.2.2.2.1 x hxr
    have hxpos : 0 < x.Time := written_time_pos hf.2.2.1 x hxr
    unfold inWindow at hxw
    simp only [decide_eq_true_eq] at hxw
    have hexp : s'.stats.Expires = x.Time + validity := by
      rw [e1, finish_Expires, fold_expiresAt, hx]
    have hne0 : x.Time + validity ≠ 0 := by omega
    refine ⟨hexp, by rw [hexp]; exact hne0, ?_⟩
    rw [hexp]
    rw [e1, finish_expireTimer, fold_expiresAt, hx]
    simp only
    rw [if_pos hne0]
    unfold timeSub maxDuration minDuration
    unfold maxDuration at hv
    rw [if_neg (by omega), if_neg (by omega)]
  · intro hnil
    rcases hcase with ⟨rfl, _⟩ | rfl
    · exact ⟨rfl, rfl⟩
    · rw [finish_Expires, finish_expireTimer, fold_expiresAt, hnil]
      exact ⟨rfl, rfl⟩

/-- The theorem `refreshStats_Expires` at capacity 3 and validity 60, three samples put
at the instants 100, 101 and 102, queried at 103: the oldest sample of the window
was put at 100, so `Expires` is 160 and the timer is armed for 57. -/
theorem refreshStats_Expires_witness :
    ∃ s s', build 3 60 [(100, 10), (101, 20), (102, 30)] = some s ∧
      s.refreshStats 65535 103 = some s' ∧
      s'.stats.Expires = 160 ∧ s'.expireTimer = some 57 := by
  obtain ⟨s, s', h1, h2, h3, _⟩ := refreshStats_Expires 3 60 [(100, 10), (101, 20), (102, 30)]
    103 65535 (by decide) (by decide)
  obtain ⟨e1, _, e2⟩ := h3 { Time := 100, Delay := 10 } (by decide)
  refine ⟨s, s', h1, h2, e1, ?_⟩
  rw [e2, e1]
  rfl

/-- C8. On a run whose window holds at least one sample, all of them failed, the
recomputation succeeds with `Average` zero and `Fail` equal to `All`, the number
of samples of the window. -/
theorem refreshStats_all_failed (cap : Nat) (validity : Int) (puts : List (Int × Nat))
    (now : Int) (F : Nat) (hf : Filled cap validity puts now)
    (hne : window cap validity now puts ≠ [])
    (hall : ∀ x ∈ window cap validity now puts, x.Delay = F) :
    ∃ s s', build cap validity puts = some s ∧ s.refreshStats F now = some s' ∧
      s'.stats.Average = 0 ∧ s'.stats.Fail = s'.stats.All ∧
      s'.stats.All = (window cap validity now puts).length := by
  obtain ⟨s, s', hb, hr, hcase⟩ := refreshStats_run hf F
  refine ⟨s, s', hb, hr, ?_⟩
  have e1 : s' = refreshStats.finish s.removeStats now
      ((window cap validity now puts).foldl (Locals.visit F validity)
        (startLocals ((written puts).getD 0 zeroHistory).Delay)) := by
    rcases hcase with ⟨_, h⟩ | h
    · exact absurd h hne
    · exact h
  have hsucc : successes F (window cap validity now puts) = [] := by
    unfold successes
    rw [List.map_eq_nil_iff, List.filter_eq_nil_iff]
    intro x hx
    simp [hall x hx]
  have hfail : failures F (window cap validity now puts)
      = (window cap validity now puts).length := by
    unfold failures
    rw [List.countP_eq_length]
    intro x hx
    simp [hall x hx]
  have hcnt : ((window cap validity now puts).foldl (Locals.visit F validity)
      (startLocals ((written puts).getD 0 zeroHistory).Delay)).cnt = 0 := by
    rw [fold_cnt, hsucc]
    rfl
  have hF : ((window cap validity now puts).foldl (Locals.visit F validity)
      (startLocals ((written puts).getD 0 zeroHistory).Delay)).stats.Fail
        = (window cap validity now puts).length := by
    rw [fold_fail, hfail]
    show (0 : Int) + _ = _
    omega
  refine ⟨?_, ?_, ?_⟩
  · rw [e1, finish_Average, hcnt, if_neg (by decide), (fold_rest _ _ _ _).2.1]
    rfl
  · rw [e1, finish_Fail, finish_All, hcnt, hF]
    omega
  · rw [e1, finish_All, hcnt, hF]
    omega

/-- The theorem `refreshStats_all_failed` at capacity 3 with two failed samples (the
sentinel being 65535 here): `Average` is 0, `Fail` and `All` are 2. -/
theorem refreshStats_all_failed_witness :
    ∃ s s', build 3 60 [(100, 65535), (101, 65535)] = some s ∧
      s.refreshStats 65535 103 = some s' ∧
      s'.stats.Average = 0 ∧ s'.stats.Fail = 2 ∧ s'.stats.All = 2 := by
  obtain ⟨s, s', h1, h2, h3, h4, h5⟩ := refreshStats_all_failed 3 60
    [(100, 65535), (101, 65535)] 103 65535 (by decide) (by decide) (by decide)
  have h6 : s'.stats.All = 2 := h5.trans (by decide)
  exact ⟨s, s', h1, h2, h3, h4.trans h6, h6⟩

/-- C9. On a run whose window holds exactly one sample that did not fail, of
latency `d`, and any number of failed ones, the recomputation succeeds with
`Deviation` equal to `Average / 2`, `Average` being `d` (a value of `RTT`, so
reduced modulo `rttMod`). -/
theorem refreshStats_single_success (cap : Nat) (validity : Int) (puts : List (Int × Nat))
    (now : Int) (F : Nat) (d : Nat) (hf : Filled cap validity puts now)
    (hone : successes F (window cap validity now puts) = [d]) :
    ∃ s s', build cap validity puts = some s ∧ s.refreshStats F now = some s' ∧
      s'.stats.Deviation = s'.stats.Average / 2 ∧ s'.stats.Average = d % rttMod := by
  obtain ⟨s, s', hb, hr, hcase⟩ := refreshStats_run hf F
  refine ⟨s, s', hb, hr, ?_⟩
  have hne : window cap validity now puts ≠ [] := by
    intro h
    rw [h] at hone
    cases hone
  have e1 : s' = refreshStats.finish s.removeStats now
      ((window cap validity now puts).foldl (Locals.visit F validity)
        (startLocals ((written puts).getD 0 zeroHistory).Delay)) := by
    rcases hcase with ⟨_, h⟩ | h
    · exact absurd h hne
    · exact h
  have hdlt : d % rttMod < rttMod := Nat.mod_lt _ (by decide)
  have hcnt : ((window cap validity now puts).foldl (Locals.visit F validity)
      (startLocals ((written puts).getD 0 zeroHistory).Delay)).cnt = 1 := by
    rw [fold_cnt, hone]
    rfl
  have hsum : ((window cap validity now puts).foldl (Locals.visit F validity)
      (startLocals ((written puts).getD 0 zeroHistory).Delay)).sum = d % rttMod := by
    have h0 : (startLocals ((written puts).getD 0 zeroHistory).Delay).sum < rttMod := by
      show 0 < rttMod
      decide
    rw [fold_sum _ _ _ _ h0, hone]
    show (0 + (d + 0)) % rttMod = d % rttMod
    rw [Nat.zero_add, Nat.add_zero]
  have hF : 0 ≤ ((window cap validity now puts).foldl (Locals.visit F validity)
      (startLocals ((written puts).getD 0 zeroHistory).Delay)).stats.Fail := by
    rw [fold_fail]
    show (0 : Int) ≤ 0 + _
    omega
  have hA : s'.stats.Average = d % rttMod := by
    rw [e1, finish_Average, hcnt, if_pos (by decide), hsum]
    show d % rttMod / 1 % rttMod = d % rttMod
    rw [Nat.div_one, Nat.mod_mod]
  refine ⟨?_, hA⟩
  rw [hA, e1, finish_Deviation _ _ _ (by rw [hcnt]; decide) hF, hcnt, if_pos (by decide), hsum]
  show d % rttMod / 1 % rttMod / 2 % rttMod = d % rttMod / 2
  rw [Nat.div_one, Nat.mod_mod]
  exact Nat.mod_eq_of_lt (lt_of_le_of_lt (Nat.div_le_self _ _) hdlt)

/-- The theorem `refreshStats_single_success` at capacity 3 with one sample of latency
30 and two failed ones (the sentinel being 65535 here): `Average` is 30 and
`Deviation` is 15. -/
theorem refreshStats_single_success_witness :
    ∃ s s', build 3 60 [(100, 65535), (101, 30), (102, 65535)] = some s ∧
      s.refreshStats 65535 103 = some s' ∧
      s'.stats.Deviation = 15 ∧ s'.stats.Average = 30 := by
  obtain ⟨s, s', h1, h2, h3, h4⟩ := refreshStats_single_success 3 60
    [(100, 65535), (101, 30), (102, 65535)] 103 65535 30 (by decide) (by decide)
  have h5 : s'.stats.Average = 30 := h4.trans (by decide)
  refine ⟨s, s', h1, h2, ?_, h5⟩
  rw [h3, h5]

/-- On a run whose window holds exactly two samples that did not fail, both of
latency `x`: the sum is formed in `RTT`, so `Average` is `(x + x) % rttMod / 2`,
and `Deviation` is the deviation of the two samples from that value. -/
theorem refreshStats_two_equal (cap : Nat) (validity : Int) (puts : List (Int × Nat))
    (now : Int) (F : Nat) (x : Nat) (hf : Filled cap validity puts now)
    (htwo : successes F (window cap validity now puts) = [x, x]) :
    ∃ s s', build cap validity puts = some s ∧ s.refreshStats F now = some s' ∧
      s'.stats.Average = (x + x) % rttMod / 2 ∧
      s'.stats.Deviation = stdDev (variance ((x + x) % rttMod / 2) [x, x]) 2 % rttMod := by
  obtain ⟨s, s', hb, hr, hcase⟩ := refreshStats_run hf F
  refine ⟨s, s', hb, hr, ?_⟩
  have hne : window cap validity now puts ≠ [] := by
    intro h
    rw [h] at htwo
    cases htwo
  have e1 : s' = refreshStats.finish s.removeStats now
      ((window cap validity now puts).foldl (Locals.visit F validity)
        (startLocals ((written puts).getD 0 zeroHistory).Delay)) := by
    rcases hcase with ⟨_, h⟩ | h
    · exact absurd h hne
    · exact h
  have hcnt : ((window cap validity now puts).foldl (Locals.visit F validity)
      (startLocals ((written puts).getD 0 zeroHistory).Delay)).cnt = 2 := by
    rw [fold_cnt, htwo]
    rfl
  have hsum : ((window cap validity now puts).foldl (Locals.visit F validity)
      (startLocals ((written puts).getD 0 zeroHistory).Delay)).sum = (x + x) % rttMod := by
    have h0 : (startLocals ((written puts).getD 0 zeroHistory).Delay).sum < rttMod := by
      show 0 < rttMod
      decide
    rw [fold_sum _ _ _ _ h0, htwo]
    show (0 + (x + (x + 0))) % rttMod = (x + x) % rttMod
    rw [Nat.zero_add, Nat.add_zero]
  have hval : ((window cap validity now puts).foldl (Locals.visit F validity)
      (startLocals ((written puts).getD 0 zeroHistory).Delay)).validRTTs = [x, x] := by
    rw [fold_validRTTs, htwo]
    rfl
  have hF : 0 ≤ ((window cap validity now puts).foldl (Locals.visit F validity)
      (startLocals ((written puts).getD 0 zeroHistory).Delay)).stats.Fail := by
    rw [fold_fail]
    show (0 : Int) ≤ 0 + _
    omega
  have hlt : (x + x) % rttMod / 2 < rttMod :=
    lt_of_le_of_lt (Nat.div_le_self _ _) (Nat.mod_lt _ (by decide))
  constructor
  · rw [e1, finish_Average, hcnt, if_pos (by decide), hsum]
    exact Nat.mod_eq_of_lt hlt
  · rw [e1, finish_Deviation _ _ _ (by rw [hcnt]; decide) hF, hcnt, if_neg (by decide), hsum,
      hval]
    show stdDev (variance ((x + x) % rttMod / 2 % rttMod) [x, x]) 2 % rttMod = _
    rw [Nat.mod_eq_of_lt hlt]

/-- For two equal samples whose sum stays below `rttMod` the deviation is zero. -/
theorem refreshStats_two_equal_small (cap : Nat) (validity : Int) (puts : List (Int × Nat))
    (now : Int) (F : Nat) (x : Nat) (hf : Filled cap validity puts now)
    (htwo : successes F (window cap validity now puts) = [x, x]) (hx : x + x < rttMod) :
    ∃ s s', build cap validity puts = some s ∧ s.refreshStats F now = some s' ∧
      s'.stats.Average = x ∧ s'.stats.Deviation = 0 := by
  obtain ⟨s, s', hb, hr, hA, hD⟩ := refreshStats_two_equal cap validity puts now F x hf htwo
  have hav : (x + x) % rttMod / 2 = x := by
    rw [Nat.mod_eq_of_lt hx]
    omega
  refine ⟨s, s', hb, hr, by rw [hA, hav], ?_⟩
  rw [hD, hav]
  unfold stdDev variance
  simp

theorem stdDev_two_squares (n : Nat) : stdDev (2 * (n * n)) 2 = n := by
  unfold stdDev
  have h : 2 * (n * n) / (2 : Int).toNat = n * n := by
    show 2 * (n * n) / 2 = n * n
    omega
  rw [h, Nat.sqrt_eq]

/-- Two samples of latency 40000, whatever the sentinel `F` other than 40000: the
sum computed in `RTT` is `80000 - 65536 = 14464`, so `Average` is 7232 and
`Deviation` is 32768. -/
theorem refreshStats_two_of_40000 (F : Nat) (hF : F ≠ 40000) :
    ∃ s s', build 2 60 [(100, 40000), (101, 40000)] = some s ∧
      s.refreshStats F 103 = some s' ∧
      successes F (window 2 60 103 [(100, 40000), (101, 40000)]) = [40000, 40000] ∧
      s'.stats.Average = 7232 ∧ s'.stats.Deviation = 32768 := by
  have hw : window 2 60 103 [(100, 40000), (101, 40000)]
      = [{ Time := 101, Delay := 40000 }, { Time := 100, Delay := 40000 }] := by decide
  have hs : successes F (window 2 60 103 [(100, 40000), (101, 40000)]) = [40000, 40000] := by
    rw [hw]
    simp [successes, Ne.symm hF]
  obtain ⟨s, s', hb, hr, hA, hD⟩ := refreshStats_two_equal 2 60 [(100, 40000), (101, 40000)]
    103 F 40000 (by decide) hs
  refine ⟨s, s', hb, hr, hs, by rw [hA]; decide, ?_⟩
  rw [hD]
  have hv : variance ((40000 + 40000) % rttMod / 2) [40000, 40000] = 2 * (32768 * 32768) := by
    decide
  rw [hv, stdDev_two_squares]
  decide

/-- C10, at a failing input. Capacity 2, two samples of latency 40000 put at the
instants 100 and 101, queried at 103 with validity 60: the two samples of the
window did not fail and are equal, yet the sum computed in `RTT` is
`80000 - 65536 = 14464`, `Average` is 7232 and `Deviation` is 32768, not 0.  This
holds with the sentinel 65535 as well as with the sentinel 0. -/
theorem refreshStats_Deviation_overflow :
    (∃ s s', build 2 60 [(100, 40000), (101, 40000)] = some s ∧
      s.refreshStats 65535 103 = some s' ∧
      successes 65535 (window 2 60 103 [(100, 40000), (101, 40000)]) = [40000, 40000] ∧
      s'.stats.Average = 7232 ∧ s'.stats.Deviation = 32768) ∧
    (∃ s s', build 2 60 [(100, 40000), (101, 40000)] = some s ∧
      s.refreshStats 0 103 = some s' ∧
      successes 0 (window 2 60 103 [(100, 40000), (101, 40000)]) = [40000, 40000] ∧
      s'.stats.Average = 7232 ∧ s'.stats.Deviation = 32768) :=
  ⟨refreshStats_two_of_40000 65535 (by decide), refreshStats_two_of_40000 0 (by decide)⟩

theorem foldl_min_spec (l : List Nat) : ∀ a : Nat,
    l.foldl min a ≤ a ∧ (∀ x ∈ l, l.foldl min a ≤ x) ∧ (l.foldl min a = a ∨ l.foldl min a ∈ l) := by
  induction l with
  | nil => intro a; simp
  | cons y l ih =>
    intro a
    obtain ⟨h1, h2, h3⟩ := ih (min a y)
    rw [List.foldl_cons]
    refine ⟨le_trans h1 (Nat.min_le_left _ _), ?_, ?_⟩
    · intro x hx
      rcases List.mem_cons.mp hx with rfl | hm
      · exact le_trans h1 (Nat.min_le_right _ _)
      · exact h2 x hm
    · rcases h3 with h | h
      · rcases Nat.le_total a y with hay | hay
        · left; rw [h, Nat.min_eq_left hay]
        · right; rw [h, Nat.min_eq_right hay]; exact List.mem_cons_self _ _
      · right; exact List.mem_cons_of_mem _ h

theorem foldl_max_spec (l : List Nat) : ∀ a : Nat,
    a ≤ l.foldl max a ∧ (∀ x ∈ l, x ≤ l.foldl max a) ∧ (l.foldl max a = a ∨ l.foldl max a ∈ l) := by
  induction l with
  | nil => intro a; simp
  | cons y l ih =>
    intro a
    obtain ⟨h1, h2, h3⟩ := ih (max a y)
    rw [List.foldl_cons]
    refine ⟨le_trans (Nat.le_max_left _ _) h1, ?_, ?_⟩
    · intro x hx
      rcases List.mem_cons.mp hx with rfl | hm
      · exact le_trans (Nat.le_max_right _ _) h1
      · exact h2 x hm
    · rcases h3 with h | h
      · rcases Nat.le_total a y with hay | hay
        · right; rw [h, Nat.max_eq_right hay]; exact List.mem_cons_self _ _
        · left; rw [h, Nat.max_eq_left hay]
      · right; exact List.mem_cons_of_mem _ h

/-- What `refreshStats` computes on a run whose window holds a sample that did not
fail, all latencies being values of `RTT`: `Average` is the sum of the successful
latencies of the window, reduced modulo `rttMod`, divided by their number; `Min`
and `Max` are their minimum and maximum; `Fail` is the number of failed samples of
the window. -/
theorem refreshStats_Average_Min_Max (cap : Nat) (validity : Int) (puts : List (Int × Nat))
    (now : Int) (F : Nat) (hf : Filled cap validity puts now)
    (hd : ∀ p ∈ puts, p.2 < rttMod)
    (hne : successes F (window cap validity now puts) ≠ []) :
    ∃ s s', build cap validity puts = some s ∧ s.refreshStats F now = some s' ∧
      s'.stats.Average = (successes F (window cap validity now puts)).sum % rttMod
        / (successes F (window cap validity now puts)).length ∧
      s'.stats.Min ∈ successes F (window cap validity now puts) ∧
      (∀ x ∈ successes F (window cap validity now puts), s'.stats.Min ≤ x) ∧
      s'.stats.Max ∈ successes F (window cap validity now puts) ∧
      (∀ x ∈ successes F (window cap validity now puts), x ≤ s'.stats.Max) ∧
      s'.stats.Fail = failures F (window cap validity now puts) := by
  obtain ⟨s, s', hb, hr, hcase⟩ := refreshStats_run hf F
  refine ⟨s, s', hb, hr, ?_⟩
  have hwne : window cap validity now puts ≠ [] := by
    intro h
    rw [h] at hne
    exact hne rfl
  have e1 : s' = refreshStats.finish s.removeStats now
      ((window cap validity now puts).foldl (Locals.visit F validity)
        (startLocals ((written puts).getD 0 zeroHistory).Delay)) := by
    rcases hcase with ⟨_, h⟩ | h
    · exact absurd h hwne
    · exact h
  have hlen : 0 < (successes F (window cap validity now puts)).length :=
    List.length_pos.mpr hne
  have hrange : ∀ x ∈ successes F (window cap validity now puts), x < rttMod := by
    intro x hmem
    unfold successes at hmem
    obtain ⟨y, hy, rfl⟩ := List.mem_map.mp hmem
    have hyw : y ∈ written puts :=
      List.mem_of_mem_take (List.mem_filter.mp (List.mem_filter.mp hy).1).1
    unfold written at hyw
    simp only [List.mem_reverse, List.mem_map] at hyw
    obtain ⟨p, hp, rfl⟩ := hyw
    exact hd p hp
  have hcnt : ((window cap validity now puts).foldl (Locals.visit F validity)
      (startLocals ((written puts).getD 0 zeroHistory).Delay)).cnt
        = ((successes F (window cap validity now puts)).length : Int) := by
    rw [fold_cnt]
    show (0 : Int) + _ = _
    omega
  have hsum : ((window cap validity now puts).foldl (Locals.visit F validity)
      (startLocals ((written puts).getD 0 zeroHistory).Delay)).sum
        = (successes F (window cap validity now puts)).sum % rttMod := by
    have h0 : (startLocals ((written puts).getD 0 zeroHistory).Delay).sum < rttMod := by
      show 0 < rttMod
      decide
    rw [fold_sum _ _ _ _ h0]
    show (0 + _) % rttMod = _
    rw [Nat.zero_add]
  have hF : ((window cap validity now puts).foldl (Locals.visit F validity)
      (startLocals ((written puts).getD 0 zeroHistory).Delay)).stats.Fail
        = (failures F (window cap validity now puts) : Int) := by
    rw [fold_fail]
    show (0 : Int) + _ = _
    omega
  have hcpos : 0 < ((window cap validity now puts).foldl (Locals.visit F validity)
      (startLocals ((written puts).getD 0 zeroHistory).Delay)).cnt := by
    rw [hcnt]
    exact_mod_cast hlen
  have hFnn : 0 ≤ ((window cap validity now puts).foldl (Locals.visit F validity)
      (startLocals ((written puts).getD 0 zeroHistory).Delay)).stats.Fail := by
    rw [hF]
    exact Int.ofNat_nonneg _
  have hmin := foldl_min_spec (successes F (window cap validity now puts)) 65535
  have hmax := foldl_max_spec (successes F (window cap validity now puts)) 0
  obtain ⟨x0, hx0⟩ := List.exists_mem_of_ne_nil _ hne
  have hMin : s'.stats.Min = (successes F (window cap validity now puts)).foldl min 65535 := by
    rw [e1, finish_Min _ _ _ hcpos hFnn, fold_min]
    rfl
  have hMax : s'.stats.Max = (successes F (window cap validity now puts)).foldl max 0 := by
    rw [e1, finish_Max, fold_max]
    rfl
  refine ⟨?_, ?_, ?_, ?_, ?_, ?_⟩
  · rw [e1, finish_Average, if_pos hcpos, hsum, hcnt, Int.toNat_ofNat]
    exact Nat.mod_eq_of_lt (lt_of_le_of_lt (Nat.div_le_self _ _) (Nat.mod_lt _ (by decide)))
  · rw [hMin]
    rcases hmin.2.2 with h | h
    · have h1 := hmin.2.1 x0 hx0
      have h2 := hrange x0 hx0
      have : x0 = 65535 := by
        unfold rttMod at h2
        omega
      rw [h, ← this]
      exact hx0
    · exact h
  · rw [hMin]
    exact hmin.2.1
  · rw [hMax]
    rcases hmax.2.2 with h | h
    · have h1 := hmax.2.1 x0 hx0
      have : x0 = 0 := by omega
      rw [h, ← this]
      exact hx0
    · exact h
  · rw [hMax]
    exact hmax.2.1
  · rw [e1, finish_Fail, hF]

/-- Three samples of latency 30000, whatever the sentinel `F` other than 30000: the
sum computed in `RTT` is `90000 - 65536 = 24464`, so `Average` is 8154. -/
theorem refreshStats_three_of_30000 (F : Nat) (hF : F ≠ 30000) :
    ∃ s s', build 3 60 [(100, 30000), (101, 30000), (102, 30000)] = some s ∧
      s.refreshStats F 103 = some s' ∧
      successes F (window 3 60 103 [(100, 30000), (101, 30000), (102, 30000)])
        = [30000, 30000, 30000] ∧
      s'.stats.Average = 8154 ∧ s'.stats.Min = 30000 ∧ s'.stats.Max = 30000 := by
  have hw : window 3 60 103 [(100, 30000), (101, 30000), (102, 30000)]
      = [{ Time := 102, Delay := 30000 }, { Time := 101, Delay := 30000 },
        { Time := 100, Delay := 30000 }] := by decide
  have hs : successes F (window 3 60 103 [(100, 30000), (101, 30000), (102, 30000)])
      = [30000, 30000, 30000] := by
    rw [hw]
    simp [successes, Ne.symm hF]
  obtain ⟨s, s', hb, hr, hA, hm, _, hM, _, _⟩ := refreshStats_Average_Min_Max 3 60
    [(100, 30000), (101, 30000), (102, 30000)] 103 F (by decide) (by decide)
    (by rw [hs]; exact List.cons_ne_nil _ _)
  rw [hs] at hA hm hM
  refine ⟨s, s', hb, hr, hs, hA.trans (by decide), ?_, ?_⟩
  · simpa using hm
  · simpa using hM

/-- Fourteen samples of latency 4800, whatever the sentinel `F` other than 4800:
the sum computed in `RTT` is `67200 - 65536 = 1664`, so `Average` is 118. -/
theorem refreshStats_fourteen_of_4800 (F : Nat) (hF : F ≠ 4800) :
    ∃ s s', build 14 60 ((List.range 14).map (fun i => ((100 : Int) + i, 4800))) = some s ∧
      s.refreshStats F 120 = some s' ∧
      successes F (window 14 60 120 ((List.range 14).map (fun i => ((100 : Int) + i, 4800))))
        = List.replicate 14 4800 ∧
      s'.stats.Average = 118 := by
  have hw : (window 14 60 120 ((List.range 14).map (fun i => ((100 : Int) + i, 4800)))).map
      (fun x => x.Delay) = List.replicate 14 4800 := by decide
  have hs : successes F
      (window 14 60 120 ((List.range 14).map (fun i => ((100 : Int) + i, 4800))))
      = List.replicate 14 4800 := by
    unfold successes
    rw [← hw]
    congr 1
    apply List.filter_eq_self.mpr
    intro x hx
    have hx' : x.Delay ∈ List.replicate 14 4800 := by
      rw [← hw]
      exact List.mem_map_of_mem _ hx
    rw [List.eq_of_mem_replicate hx']
    simpa using Ne.symm hF
  obtain ⟨s, s', hb, hr, hA, _⟩ := refreshStats_Average_Min_Max 14 60
    ((List.range 14).map (fun i => ((100 : Int) + i, 4800))) 120 F (by decide) (by decide)
    (by rw [hs]; decide)
  rw [hs] at hA
  exact ⟨s, s', hb, hr, hs, hA.trans (by decide)⟩

/-- C4, at a failing input. Capacity 3, three samples of latency 30000 put at the
instants 100, 101 and 102, queried at 103 with validity 60: the three samples of
the window did not fail, their sum divided by their number is 30000, yet the sum
computed in `RTT` is `90000 - 65536 = 24464` and `Average` is 8154.  Likewise
fourteen samples of latency 4800, put at the instants 100 to 113 and queried at
120, give the sum `67200 - 65536 = 1664` and `Average` 118.  This holds with the
sentinel 65535 as well as with the sentinel 0. -/
theorem refreshStats_Average_overflow :
    ((30000 + 30000 + 30000) / 3 = 30000 ∧ 14 * 4800 / 14 = 4800) ∧
    (∃ s s', build 3 60 [(100, 30000), (101, 30000), (102, 30000)] = some s ∧
      s.refreshStats 65535 103 = some s' ∧
      successes 65535 (window 3 60 103 [(100, 30000), (101, 30000), (102, 30000)])
        = [30000, 30000, 30000] ∧
      s'.stats.Average = 8154 ∧ s'.stats.Min = 30000 ∧ s'.stats.Max = 30000) ∧
    (∃ s s', build 3 60 [(100, 30000), (101, 30000), (102, 30000)] = some s ∧
      s.refreshStats 0 103 = some s' ∧
      successes 0 (window 3 60 103 [(100, 30000), (101, 30000), (102, 30000)])
        = [30000, 30000, 30000] ∧
      s'.stats.Average = 8154 ∧ s'.stats.Min = 30000 ∧ s'.stats.Max = 30000) ∧
    (∃ s s', build 14 60 ((List.range 14).map (fun i => ((100 : Int) + i, 4800))) = some s ∧
      s.refreshStats 65535 120 = some s' ∧
      successes 65535
          (window 14 60 120 ((List.range 14).map (fun i => ((100 : Int) + i, 4800))))
        = List.replicate 14 4800 ∧
      s'.stats.Average = 118) :=
  ⟨by decide, refreshStats_three_of_30000 65535 (by decide),
    refreshStats_three_of_30000 0 (by decide), refreshStats_fourteen_of_4800 65535 (by decide)⟩

/-! ## Cache invalidation -/

/-- C5. Cache invalidation law.  On every storage that satisfies the ring
invariant, whatever its cache `c` and timer `tm`, `Put(d)` at `now` succeeds and
gives one and the same storage `s'`: its cache is the zero value (`Expires`
zero), its timer is cleared, and the slot under its cursor holds `d`; the next
`Stats()` call, at any instant `t`, recomputes and returns the statistics of
`s'`, never the value `c` cached before the `Put`. -/
theorem Put_invalidates_cache (s : Storage) (now : Int) (d : Nat) (hs : s.WF) :
    ∃ s', (∀ (c : Stats) (tm : Option Int),
        Storage.Put { s with stats := c, expireTimer := tm } now d = some s') ∧
      s.Put now d = some s' ∧
      s'.stats = {} ∧ s'.stats.Expires = 0 ∧ s'.expireTimer = none ∧
      index s'.history s'.idx = some { Time := now, Delay := d } ∧
      ∀ (F : Nat) (t : Int), ∃ r, s'.refreshStats F t = some r ∧
        Storage.Stats (some s') F t = some (r.stats, some r) := by
  have hput := Put_eq hs now d
  have hwf := Put_WF hs hput
  refine ⟨_, ?_, hput, rfl, rfl, rfl, ?_, ?_⟩
  · intro c tm
    exact Put_eq (s := { s with stats := c, expireTimer := tm })
      ⟨hs.cap_pos, hs.cap_le, hs.len, hs.idx_lo, hs.idx_hi⟩ now d
  · have h := (Put_Holds (WF_Holds hs) hput).2 0 (by simpa using hs.cap_pos)
    rw [slotBack_zero hwf] at h
    exact h
  · intro F t
    obtain ⟨r, hr⟩ := refreshStats_total hwf F t
    refine ⟨r, hr, ?_⟩
    unfold Storage.Stats
    simp only [ne_eq, not_true_eq_false, if_false, hr, Option.bind_eq_bind, Option.some_bind]

/-- The theorem `Put_invalidates_cache` on a storage of capacity 2 that holds a
cache and an armed timer. -/
theorem Put_invalidates_cache_witness :
    ∃ s', (∀ (c : Stats) (tm : Option Int),
        Storage.Put { cachedOfTwo with stats := c, expireTimer := tm } 104 20 = some s') ∧
      cachedOfTwo.Put 104 20 = some s' ∧
      s'.stats = {} ∧ s'.stats.Expires = 0 ∧ s'.expireTimer = none ∧
      index s'.history s'.idx = some { Time := 104, Delay := 20 } ∧
      ∀ (F : Nat) (t : Int), ∃ r, s'.refreshStats F t = some r ∧
        Storage.Stats (some s') F t = some (r.stats, some r) :=
  Put_invalidates_cache cachedOfTwo 104 20
    ⟨by decide, by decide, by decide, by decide, by decide⟩

/-! ## `RealOutbound` -/

theorem follow_succ_front (router : Router) (o : Outbound) (k : Nat) :
    follow router o (k + 1) =
      match o.Now with
      | none => none
      | some now =>
        match getOutbound router now with
        | none => none
        | some o' => follow router o' k := by
  induction k with
  | zero =>
    simp only [follow]
    cases o.Now with
    | none => rfl
    | some now =>
      simp only
      cases getOutbound router now <;> rfl
  | succ k ih =>
    rw [follow, ih]
    cases o.Now with
    | none => rfl
    | some now =>
      simp only
      cases hg : getOutbound router now with
      | none => rfl
      | some o' =>
        simp only
        rw [follow]

theorem loop_succ_of_concrete (router : Router) (fuel : Nat) (o : Outbound) (n : Int)
    (hops : List String) (h : o.Now = none) :
    RealOutbound.loop router (fuel + 1) o n hops =
      some { outbound := some o, err := none, hops := hops } := by
  unfold RealOutbound.loop
  rw [h]

theorem loop_succ_of_group (router : Router) (fuel : Nat) (o : Outbound) (n : Int)
    (hops : List String) (now : String) (h : o.Now = some now) :
    RealOutbound.loop router (fuel + 1) o n hops =
      if n + 1 > 100 then some { outbound := none, err := some .tooDeep, hops := hops }
      else
        match getOutbound router now with
        | none => some { outbound := none, err := some (.notFound now), hops := hops ++ [now] }
        | some o' => RealOutbound.loop router fuel o' (n + 1) (hops ++ [now]) := by
  rw [RealOutbound.loop, h]

/-- The loop runs at most `101 - nLoop` more times: it returns whenever the bound
on the iterations is at least that. -/
theorem loop_total (router : Router) : ∀ (fuel : Nat) (o : Outbound) (n : Int)
    (hops : List String), n ≤ 100 → 101 ≤ (fuel : Int) + n →
    ∃ r, RealOutbound.loop router fuel o n hops = some r := by
  intro fuel
  induction fuel with
  | zero => intro o n hops h1 h2; omega
  | succ fuel ih =>
    intro o n hops h1 h2
    cases ho : o.Now with
    | none => exact ⟨_, loop_succ_of_concrete router fuel o n hops ho⟩
    | some now =>
      rw [loop_succ_of_group router fuel o n hops now ho]
      by_cases hn : n + 1 > 100
      · rw [if_pos hn]
        exact ⟨_, rfl⟩
      · rw [if_neg hn]
        cases getOutbound router now with
        | none => exact ⟨_, rfl⟩
        | some o' => exact ih o' (n + 1) _ (by omega) (by push_cast at h2; omega)

/-- The function `RealOutbound` always returns: the bound of 101 iterations is never
reached. -/
theorem RealOutbound_total (router : Router) (o : Outbound) :
    ∃ r, RealOutbound router o = some r :=
  loop_total router 101 o 0 [] (by decide) (by decide)

theorem loop_resolves (router : Router) : ∀ (k : Nat) (fuel : Nat) (o c : Outbound) (n : Int)
    (hops : List String), follow router o k = some c → c.Now = none →
    n + k ≤ 100 → k < fuel →
    ∃ tags : List String, tags.length = k ∧
      RealOutbound.loop router fuel o n hops =
        some { outbound := some c, err := none, hops := hops ++ tags } := by
  intro k
  induction k with
  | zero =>
    intro fuel o c n hops hf hc _ hfuel
    obtain ⟨f, rfl⟩ : ∃ f, fuel = f + 1 := ⟨fuel - 1, by omega⟩
    have ho : o = c := Option.some.inj hf
    subst ho
    exact ⟨[], rfl, by rw [loop_succ_of_concrete router f o n hops hc, List.append_nil]⟩
  | succ k ih =>
    intro fuel o c n hops hf hc hn hfuel
    obtain ⟨f, rfl⟩ : ∃ f, fuel = f + 1 := ⟨fuel - 1, by omega⟩
    rw [follow_succ_front] at hf
    cases ho : o.Now with
    | none => rw [ho] at hf; cases hf
    | some now =>
      rw [ho] at hf
      simp only at hf
      cases hg : getOutbound router now with
      | none => rw [hg] at hf; cases hf
      | some o' =>
        rw [hg] at hf
        simp only at hf
        obtain ⟨tags, hlen, hres⟩ := ih f o' c (n + 1) (hops ++ [now]) hf hc
          (by push_cast at hn; omega) (by omega)
        refine ⟨now :: tags, by simp [hlen], ?_⟩
        rw [loop_succ_of_group router f o n hops now ho, if_neg (by push_cast at hn; omega), hg]
        simp only
        rw [hres, List.append_assoc]
        rfl

/-- C11. For every router and every outbound `o` from which following the selected
tags passes through `k` groups, `0 ≤ k ≤ 100`, each found by `getOutbound`, and
then reaches a non-group outbound `c`, `RealOutbound` returns `c` with a nil
error, after `k` lookups; for `k = 0` that is the input outbound itself. -/
theorem RealOutbound_resolves (router : Router) (o c : Outbound) (k : Nat)
    (hk : k ≤ 100) (hf : follow router o k = some c) (hc : c.Now = none) :
    (∃ tags : List String, tags.length = k ∧
      RealOutbound router o = some { outbound := some c, err := none, hops := tags }) ∧
    (k = 0 → c = o) := by
  constructor
  · obtain ⟨tags, hlen, hres⟩ := loop_resolves router k 101 o c 0 [] hf hc
      (by omega) (by omega)
    exact ⟨tags, hlen, by rw [RealOutbound, hres, List.nil_append]⟩
  · intro h0
    subst h0
    exact (Option.some.inj hf).symm

/-- The theorem `RealOutbound_resolves` on the chain `A`, selecting `B`, selecting the
concrete outbound `C`: the result is `C`, after two lookups. -/
theorem RealOutbound_resolves_witness :
    ∃ tags : List String, tags.length = 2 ∧
      RealOutbound chainRouter { Tag := "A", Now := some "B" } =
        some { outbound := some { Tag := "C", Now := none }, err := none, hops := tags } :=
  (RealOutbound_resolves chainRouter { Tag := "A", Now := some "B" }
    { Tag := "C", Now := none } 2 (by decide) (by decide) (by decide)).1

theorem follow_group_front {router : Router} {o : Outbound} {r : Nat}
    (h : ∀ j, j ≤ r + 1 → (follow router o j).bind (fun g => g.Now) ≠ none) :
    ∃ now o', o.Now = some now ∧ getOutbound router now = some o' ∧
      ∀ j, j ≤ r → (follow router o' j).bind (fun g => g.Now) ≠ none := by
  have h0 := h 0 (by omega)
  cases ho : o.Now with
  | none =>
    exfalso
    apply h0
    show (some o).bind (fun g => g.Now) = none
    rw [Option.some_bind, ho]
  | some now =>
    have h1 := h 1 (by omega)
    rw [follow_succ_front, ho] at h1
    simp only at h1
    cases hg : getOutbound router now with
    | none =>
      exfalso
      apply h1
      rw [hg]
      rfl
    | some o' =>
      refine ⟨now, o', rfl, hg, ?_⟩
      intro j hj
      have := h (j + 1) (by omega)
      rw [follow_succ_front, ho] at this
      simp only at this
      rw [hg] at this
      exact this

theorem loop_tooDeep (router : Router) : ∀ (r : Nat) (fuel : Nat) (o : Outbound) (n : Int)
    (hops : List String),
    (∀ j, j ≤ r → (follow router o j).bind (fun g => g.Now) ≠ none) →
    n + r = 100 → r < fuel →
    ∃ tags : List String, tags.length = r ∧
      RealOutbound.loop router fuel o n hops =
        some { outbound := none, err := some .tooDeep, hops := hops ++ tags } := by
  intro r
  induction r with
  | zero =>
    intro fuel o n hops h hn hfuel
    obtain ⟨f, rfl⟩ : ∃ f, fuel = f + 1 := ⟨fuel - 1, by omega⟩
    have h0 := h 0 (le_refl _)
    cases ho : o.Now with
    | none =>
      exfalso
      apply h0
      show (some o).bind (fun g => g.Now) = none
      rw [Option.some_bind, ho]
    | some now =>
      refine ⟨[], rfl, ?_⟩
      rw [loop_succ_of_group router f o n hops now ho, if_pos (by push_cast at hn; omega),
        List.append_nil]
  | succ r ih =>
    intro fuel o n hops h hn hfuel
    obtain ⟨f, rfl⟩ : ∃ f, fuel = f + 1 := ⟨fuel - 1, by omega⟩
    obtain ⟨now, o', ho, hg, hrest⟩ := follow_group_front h
    obtain ⟨tags, hlen, hres⟩ := ih f o' (n + 1) (hops ++ [now]) hrest
      (by push_cast at hn; omega) (by omega)
    refine ⟨now :: tags, by simp [hlen], ?_⟩
    rw [loop_succ_of_group router f o n hops now ho, if_neg (by push_cast at hn; omega), hg]
    simp only
    rw [hres, List.append_assoc]
    rfl

/-- C12. For every router and every outbound `o` from which following the selected
tags reaches a group after each of `0, 1, ..., 100` lookups (as on a cycle),
`RealOutbound` terminates and returns the nil outbound with the error
`too deep or loop nesting of outbound groups`, after exactly 100 lookups. -/
theorem RealOutbound_tooDeep (router : Router) (o : Outbound)
    (h : ∀ j, j ≤ 100 → (follow router o j).bind (fun g => g.Now) ≠ none) :
    ∃ tags : List String, tags.length = 100 ∧
      RealOutbound router o = some { outbound := none, err := some .tooDeep, hops := tags } := by
  obtain ⟨tags, hlen, hres⟩ := loop_tooDeep router 100 101 o 0 [] h (by decide) (by decide)
  exact ⟨tags, hlen, by rw [RealOutbound, hres, List.nil_append]⟩

/-- The theorem `RealOutbound_tooDeep` on the cycle `A`, selecting `B`, selecting `A`. -/
theorem RealOutbound_tooDeep_witness :
    ∃ tags : List String, tags.length = 100 ∧
      RealOutbound cycleRouter { Tag := "A", Now := some "B" } =
        some { outbound := none, err := some .tooDeep, hops := tags } :=
  RealOutbound_tooDeep cycleRouter { Tag := "A", Now := some "B" } (by decide)

theorem loop_notFound (router : Router) : ∀ (k : Nat) (fuel : Nat) (o g : Outbound) (n : Int)
    (hops : List String) (tag : String), follow router o k = some g → g.Now = some tag →
    getOutbound router tag = none → n + k < 100 → k < fuel →
    ∃ tags : List String, tags.length = k ∧
      RealOutbound.loop router fuel o n hops =
        some { outbound := none, err := some (.notFound tag), hops := hops ++ tags ++ [tag] } := by
  intro k
  induction k with
  | zero =>
    intro fuel o g n hops tag hf hg hnone hn hfuel
    obtain ⟨f, rfl⟩ : ∃ f, fuel = f + 1 := ⟨fuel - 1, by omega⟩
    have ho : o = g := Option.some.inj hf
    subst ho
    refine ⟨[], rfl, ?_⟩
    rw [loop_succ_of_group router f o n hops tag hg, if_neg (by push_cast at hn; omega), hnone,
      List.append_nil]
  | succ k ih =>
    intro fuel o g n hops tag hf hg hnone hn hfuel
    obtain ⟨f, rfl⟩ : ∃ f, fuel = f + 1 := ⟨fuel - 1, by omega⟩
    rw [follow_succ_front] at hf
    cases ho : o.Now with
    | none => rw [ho] at hf; cases hf
    | some now =>
      rw [ho] at hf
      simp only at hf
      cases hlook : getOutbound router now with
      | none => rw [hlook] at hf; cases hf
      | some o' =>
        rw [hlook] at hf
        simp only at hf
        obtain ⟨tags, hlen, hres⟩ := ih f o' g (n + 1) (hops ++ [now]) tag hf hg hnone
          (by push_cast at hn; omega) (by omega)
        refine ⟨now :: tags, by simp [hlen], ?_⟩
        rw [loop_succ_of_group router f o n hops now ho, if_neg (by push_cast at hn; omega),
          hlook]
        simp only
        rw [hres]
        simp

theorem getOutbound_scan_eq (tag : String) (ps : List Provider) :
    getOutbound.scan tag ps = ps.findSome? (fun p => p.Outbound tag) := by
  induction ps with
  | nil => rfl
  | cons p ps ih =>
    rw [getOutbound.scan, List.findSome?_cons]
    cases p.Outbound tag with
    | none => exact ih
    | some o => rfl

/-- C13. For every router and every outbound `o` from which following the selected
tags passes through `k < 100` lookups and reaches a group `g` whose selected tag
is found neither in the flat outbound set of the router nor in any provider,
`RealOutbound` returns the nil outbound together with the error
`outbound not found:` naming that tag, the tag being the last one looked up.
`getOutbound` returns the outbound of the flat set when there is one, and
otherwise that of the first provider, in order, which holds the tag. -/
theorem RealOutbound_notFound (router : Router) (o g : Outbound) (k : Nat) (tag : String)
    (hk : k < 100) (hf : follow router o k = some g) (hg : g.Now = some tag)
    (hflat : router.Outbound tag = none)
    (hprov : ∀ p ∈ router.Providers, p.Outbound tag = none) :
    (∃ tags : List String, tags.length = k ∧
      RealOutbound router o =
        some { outbound := none, err := some (.notFound tag), hops := tags ++ [tag] }) ∧
    (∀ t : String, getOutbound router t =
      match router.Outbound t with
      | some outbound => some outbound
      | none => router.Providers.findSome? (fun p => p.Outbound t)) := by
  have hnone : getOutbound router tag = none := by
    rw [getOutbound, hflat]
    simp only
    rw [getOutbound_scan_eq, List.findSome?_eq_none_iff]
    exact hprov
  constructor
  · obtain ⟨tags, hlen, hres⟩ := loop_notFound router k 101 o g 0 [] tag hf hg hnone
      (by omega) (by omega)
    exact ⟨tags, hlen, by rw [RealOutbound, hres, List.nil_append]⟩
  · intro t
    rw [getOutbound]
    cases router.Outbound t with
    | none => exact getOutbound_scan_eq t _
    | some x => rfl

/-- The theorem `RealOutbound_notFound` on the group `G`, selecting the tag `X` that the
router of the chain `A`, `B`, `C` does not hold. -/
theorem RealOutbound_notFound_witness :
    (∃ tags : List String, tags.length = 0 ∧
      RealOutbound chainRouter { Tag := "G", Now := some "X" } =
        some { outbound := none, err := some (.notFound "X"), hops := tags ++ ["X"] }) ∧
    (∀ t : String, getOutbound chainRouter t =
      match chainRouter.Outbound t with
      | some outbound => some outbound
      | none => chainRouter.Providers.findSome? (fun p => p.Outbound t)) :=
  RealOutbound_notFound chainRouter { Tag := "G", Now := some "X" }
    { Tag := "G", Now := some "X" } 0 "X" (by decide) (by decide) (by decide) (by decide)
    (by decide)

/-! ## The cursor arithmetic against the formula of the spec -/

theorem tmod_of_wrap_once {a b : Int} (h1 : b ≤ a) (h2 : a < b + b) (hb : 0 < b) :
    Int.tmod a b = a - b := by
  rw [Int.tmod_eq_emod (by omega) (by omega), Int.emod_eq_sub_self_emod,
    Int.emod_eq_of_lt (by omega) (by omega)]

theorem tmod_neg_bounds {a b : Int} (ha : a < 0) (hb : 0 < b) :
    -b < Int.tmod a b ∧ Int.tmod a b ≤ 0 := by
  obtain ⟨m, rfl⟩ := Int.eq_negSucc_of_lt_zero ha
  obtain ⟨n, rfl⟩ := Int.eq_ofNat_of_zero_le (le_of_lt hb)
  have hn : 0 < n := by exact_mod_cast hb
  have hlt : Nat.succ m % n < n := Nat.mod_lt _ hn
  show -(n : Int) < -((Nat.succ m % n : Nat) : Int) ∧ -((Nat.succ m % n : Nat) : Int) ≤ 0
  constructor <;> omega

/-- What `offset` returns on a storage that satisfies the ring invariant, when the
sum `idx + n` fits an `int`: the value of the formula of the spec, except when
`idx + n` is a negative multiple of the capacity, where it returns the capacity
itself. -/
theorem offset_eq {s : Storage} (hs : s.WF) (n : Int) (h1 : minInt ≤ s.idx + n)
    (h2 : s.idx + n ≤ maxInt) :
    s.offset n = some
      (if s.idx + n < 0 ∧ Int.tmod (s.idx + n) s.cap = 0 then s.cap
        else offsetFormula s.idx n s.cap) := by
  have hc := hs.cap_pos
  have hcl := hs.cap_le
  unfold maxInt at hcl
  have hc0 : s.cap ≠ 0 := by omega
  unfold Storage.offset offsetFormula
  simp only [wrapInt_of_range h1 h2]
  by_cases hge : s.idx + n ≥ s.cap
  · rw [if_pos hge, if_neg hc0, if_neg (by omega)]
    have hr1 := Int.tmod_nonneg s.cap (show 0 ≤ s.idx + n by omega)
    have hr2 := Int.tmod_lt_of_pos (s.idx + n) hc
    generalize Int.tmod (s.idx + n) s.cap = r at hr1 hr2 ⊢
    rw [tmod_of_wrap_once (a := r + s.cap) (by omega) (by omega) hc]
    congr 1
    omega
  · rw [if_neg hge]
    by_cases hneg : s.idx + n < 0
    · rw [if_pos hneg, if_neg hc0]
      obtain ⟨hr1, hr2⟩ := tmod_neg_bounds hneg hc
      generalize Int.tmod (s.idx + n) s.cap = r at hr1 hr2 ⊢
      rw [wrapInt_of_range (by unfold minInt; omega) (by unfold maxInt; omega)]
      by_cases hz : r = 0
      · rw [if_pos ⟨hneg, hz⟩, hz, Int.zero_add]
      · rw [if_neg (by intro h; exact hz h.2),
          Int.tmod_eq_of_lt (a := r + s.cap) (by omega) (by omega)]
    · rw [if_neg hneg, if_neg (by intro h; exact hneg h.1),
        Int.tmod_eq_of_lt (a := s.idx + n) (by omega) (by omega),
        tmod_of_wrap_once (a := s.idx + n + s.cap) (by omega) (by omega) hc]
      congr 1
      omega

/-- C19, at a failing input. On a storage of capacity 3, fresh or after three calls
of `Put`, the cursor is 0 and `offset(-3)` is 3, whereas the formula of the spec
gives 0: the result is not below the capacity, and `Get(-3)` indexes the slice
out of bounds and panics. -/
theorem offset_negative_multiple :
    (∃ s, NewStorage 3 60 = some s ∧ s.idx = 0 ∧ s.offset (-3) = some 3 ∧
      offsetFormula s.idx (-3) 3 = 0 ∧ Get (some s) (-3) = none) ∧
    (∃ s, build 3 60 [(100, 10), (101, 20), (102, 30)] = some s ∧ s.idx = 0 ∧
      s.offset (-3) = some 3 ∧ offsetFormula s.idx (-3) 3 = 0 ∧ Get (some s) (-3) = none) :=
  ⟨⟨_, rfl, by decide, by decide, by decide, by decide⟩,
    ⟨_, rfl, by decide, by decide, by decide, by decide⟩⟩

/-! ## The cache between two queries -/

theorem foldlM_Put_stats (puts : List (Int × Nat)) :
    ∀ {s s' : Storage}, s.WF → s.stats = {} →
      puts.foldlM (fun s p => Storage.Put s p.1 p.2) s = some s' → s'.stats = {} := by
  induction puts with
  | nil =>
    intro s s' _ h0 h
    cases h
    exact h0
  | cons p ps ih =>
    intro s s' hs _ h
    rw [List.foldlM_cons, Put_eq hs] at h
    exact ih (Put_WF hs (Put_eq hs p.1 p.2)) rfl h

theorem build_stats {cap : Nat} {validity : Int} {puts : List (Int × Nat)} {s : Storage}
    (h1 : 1 ≤ cap) (h2 : (cap : Int) ≤ maxInt) (h : build cap validity puts = some s) :
    s.stats = {} := by
  unfold build at h
  rw [NewStorage_eq validity h2] at h
  exact foldlM_Put_stats puts (NewStorage_WF validity h1 h2 (NewStorage_eq validity h2)) rfl h

theorem finish_stats_now (h h' : Storage) (now now' : Int) (a : Locals) :
    (refreshStats.finish h now a).stats = (refreshStats.finish h' now' a).stats := by
  unfold refreshStats.finish
  by_cases hc : a.cnt > 0 <;> simp only [hc, reduceIte] <;> split <;> rfl

theorem refreshStats_finish (h : Storage) (now : Int) (a : Locals) (F : Nat) (t : Int) :
    (refreshStats.finish h now a).refreshStats F t = h.refreshStats F t := by
  unfold refreshStats.finish
  by_cases hc : a.cnt > 0 <;> simp only [hc, reduceIte] <;> split <;> rfl

theorem sorted_getLast_le (l : List History) (h : l.Pairwise (fun x y => y.Time ≤ x.Time))
    (z : History) (hz : l.getLast? = some z) : ∀ x ∈ l, z.Time ≤ x.Time := by
  induction l with
  | nil => intro x hx; cases hx
  | cons y l ih =>
    rw [List.pairwise_cons] at h
    intro x hx
    cases l with
    | nil =>
      have : y = z := by simpa using hz
      rcases List.mem_cons.mp hx with rfl | hm
      · rw [this]
      · cases hm
    | cons w l =>
      rw [List.getLast?_cons_cons] at hz
      have hzmem : z ∈ w :: l := List.mem_of_getLast?_eq_some hz
      rcases List.mem_cons.mp hx with rfl | hm
      · exact h.1 z hzmem
      · exact ih h.2 hz x hm

theorem window_stable {cap : Nat} {validity : Int} {puts : List (Int × Nat)} {t0 t : Int}
    (hf : Filled cap validity puts t0) (z : History)
    (hz : (window cap validity t0 puts).getLast? = some z)
    (h0 : t0 ≤ t) (h1 : t ≤ z.Time + validity) :
    window cap validity t puts = window cap validity t0 puts := by
  have hsorted : (window cap validity t0 puts).Pairwise (fun x y => y.Time ≤ x.Time) :=
    ((written_sorted hf.2.2.2.1).sublist (List.take_sublist _ _)).sublist
      (List.filter_sublist _)
  have hlast := sorted_getLast_le _ hsorted z hz
  unfold window at hlast ⊢
  apply List.filter_congr
  intro x hx
  unfold inWindow
  by_cases hin : t0 - x.Time ≤ validity
  · have hmem : x ∈ (retained cap puts).filter (inWindow validity t0) :=
      List.mem_filter.mpr ⟨hx, by unfold inWindow; simpa using hin⟩
    have := hlast x hmem
    have ht : t - x.Time ≤ validity := by omega
    simp [hin, ht]
  · have ht : ¬ (t - x.Time ≤ validity) := by omega
    simp [hin, ht]

/-- C20. Cached statistics are never stale.  On a storage filled at non-decreasing
instants and queried by `Stats()` at `t0`, the call recomputes and leaves the
storage `s0` with its cache.  When that cache has a non-zero `Expires`, then at
every `t` with `t0 ≤ t ≤ Expires` and no `Put` since, a fresh recomputation at
`t` succeeds and gives the statistics of the cache, and `Stats()` at `t` returns
them, whether the timer has not run yet (the cache is returned) or has already
run `removeStats` (the statistics are recomputed). -/
theorem Stats_cache_fresh (cap : Nat) (validity : Int) (puts : List (Int × Nat))
    (t0 t : Int) (F : Nat) (hf : Filled cap validity puts t0) :
    ∃ s s0, build cap validity puts = some s ∧
      Storage.Stats (some s) F t0 = some (s0.stats, some s0) ∧
      (s0.stats.Expires ≠ 0 → t0 ≤ t → t ≤ s0.stats.Expires →
        ∃ r, s0.refreshStats F t = some r ∧ r.stats = s0.stats ∧
          Storage.Stats (some s0) F t = some (s0.stats, some s0) ∧
          Storage.Stats (some s0.removeStats) F t = some (s0.stats, some r)) := by
  obtain ⟨s, s0, hb, hr, hcase⟩ := refreshStats_run hf F
  have hst : s.stats = {} := build_stats hf.1 hf.2.1 hb
  refine ⟨s, s0, hb, ?_, ?_⟩
  · unfold Storage.Stats
    simp only [hst, ne_eq, not_true_eq_false, if_false, hr, Option.bind_eq_bind,
      Option.some_bind]
  · intro hexp h0 h1
    have hne : window cap validity t0 puts ≠ [] := by
      intro hnil
      apply hexp
      rcases hcase with ⟨rfl, _⟩ | rfl
      · rfl
      · rw [finish_Expires, fold_expiresAt, hnil]
        rfl
    have e0 : s0 = refreshStats.finish s.removeStats t0
        ((window cap validity t0 puts).foldl (Locals.visit F validity)
          (startLocals ((written puts).getD 0 zeroHistory).Delay)) := by
      rcases hcase with ⟨_, h⟩ | h
      · exact absurd h hne
      · exact h
    obtain ⟨z, hz⟩ : ∃ z, (window cap validity t0 puts).getLast? = some z :=
      ⟨_, List.getLast?_eq_getLast _ hne⟩
    have hE : s0.stats.Expires = z.Time + validity := by
      rw [e0, finish_Expires, fold_expiresAt, hz]
    have hf' : Filled cap validity puts t := by
      obtain ⟨a1, a2, a3, a4, a5, a6⟩ := hf
      exact ⟨a1, a2, a3, a4, fun p hp => le_trans (a5 p hp) h0, by omega⟩
    have hw : window cap validity t puts = window cap validity t0 puts :=
      window_stable hf z hz h0 (by rw [← hE]; exact h1)
    obtain ⟨s', r, hb', hr', hcase'⟩ := refreshStats_run hf' F
    rw [hb] at hb'
    cases hb'
    have er : r = refreshStats.finish s.removeStats t
        ((window cap validity t0 puts).foldl (Locals.visit F validity)
          (startLocals ((written puts).getD 0 zeroHistory).Delay)) := by
      rw [hw] at hcase'
      rcases hcase' with ⟨_, h⟩ | h
      · exact absurd h hne
      · exact h
    have hrs : r.stats = s0.stats := by
      rw [er, e0]
      exact finish_stats_now _ _ _ _ _
    have hr0 : s0.refreshStats F t = some r := by
      rw [e0, refreshStats_finish]
      exact hr'
    refine ⟨r, hr0, hrs, ?_, ?_⟩
    · unfold Storage.Stats
      simp only [hexp, ne_eq, not_false_eq_true, if_true]
    · have hr1 : s0.removeStats.refreshStats F t = some r := hr0
      unfold Storage.Stats
      simp only [Storage.removeStats, ne_eq, not_true_eq_false, if_false,
        Option.bind_eq_bind]
      rw [show Storage.refreshStats { s0 with stats := {}, expireTimer := none } F t = some r
        from hr1, Option.some_bind, hrs]

/-- The theorem `Stats_cache_fresh` at capacity 3 and validity 60, three samples put at
the instants 100, 101 and 102, `Stats()` at 103 and again at 150: the cache
expires at 160, and at 150 the cached statistics are those of a recomputation. -/
theorem Stats_cache_fresh_witness :
    ∃ s s0 r, build 3 60 [(100, 10), (101, 20), (102, 30)] = some s ∧
      Storage.Stats (some s) 65535 103 = some (s0.stats, some s0) ∧
      s0.stats.Expires = 160 ∧
      s0.refreshStats 65535 150 = some r ∧ r.stats = s0.stats ∧
      Storage.Stats (some s0) 65535 150 = some (s0.stats, some s0) := by
  obtain ⟨s, s0, hb, hst, hrest⟩ := Stats_cache_fresh 3 60 [(100, 10), (101, 20), (102, 30)]
    103 150 65535 (by decide)
  have key : (build 3 60 [(100, 10), (101, 20), (102, 30)]).bind
      (fun s => (Storage.Stats (some s) 65535 103).map (fun p => p.1.Expires)) = some 160 := by
    decide
  rw [hb, Option.some_bind, hst, Option.map_some'] at key
  have hE : s0.stats.Expires = 160 := Option.some.inj key
  obtain ⟨r, h1, h2, h3, _⟩ := hrest (by rw [hE]; decide) (by decide) (by rw [hE]; decide)
  exact ⟨s, s0, r, hb, hst, hE, h1, h2, h3⟩

/-! ## The probe context -/

theorem Connected_of_some (c : Context) (head : Head) (b : Bool) (h : c.connected = some b) :
    c.Connected head = some (b, c) := by
  unfold Context.Connected
  simp [h]

theorem Connected_of_none (c : Context) (head : Head) (h : c.connected = none) :
    ∃ b, c.Connected head = some (b, c.checkNetwork head) ∧
      (c.checkNetwork head).connected = some b ∧
      (c.checkNetwork head).probes = c.probes + 1 ∧
      (c.checkNetwork head).connectivityURL = c.connectivityURL ∧
      (c.checkNetwork head).checked = c.checked ∧
      (c.connectivityURL = "" → b = true ∧ (c.checkNetwork head).requests = c.requests) ∧
      (c.checkNetwork head).requests ≤ c.requests + 1 := by
  unfold Context.Connected
  simp only [h, if_true]
  unfold Context.checkNetwork
  simp only
  by_cases hu : c.connectivityURL = ""
  · simp [hu, Context.udpate]
  · cases head <;> simp [hu, Context.udpate]

theorem call_Connected (c : Context) (head : Head) :
    c.call (.Connected head) =
      match c.Connected head with
      | none => none
      | some (b, c) => some (c, .connected b) := rfl

theorem call_probes (c : Context) (call : Call) (c' : Context) (reply : Reply)
    (h : c.call call = some (c', reply)) :
    c'.probes = c.probes ∨
      (c'.probes = c.probes + 1 ∧ c.connected = none ∧ ∃ head, call = .Connected head) := by
  cases call with
  | ReportChecked tag => cases h; exact Or.inl rfl
  | Checked tag => cases h; exact Or.inl rfl
  | ReportConnected => cases h; exact Or.inl rfl
  | Connected head =>
    rw [call_Connected] at h
    cases hc : c.connected with
    | some b =>
      rw [Connected_of_some c head b hc] at h
      cases h
      exact Or.inl rfl
    | none =>
      obtain ⟨b, h1, _, h3, _⟩ := Connected_of_none c head hc
      rw [h1] at h
      cases h
      exact Or.inr ⟨h3, rfl, head, rfl⟩

theorem call_inv (c : Context) (hc : c.Inv) (call : Call) :
    ∃ c' reply, c.call call = some (c', reply) ∧ c'.Inv ∧
      c'.connectivityURL = c.connectivityURL ∧
      (c.connectivityURL = "" → reply ≠ .connected false) ∧
      (c.connected = some true →
        c'.connected = some true ∧ c'.probes = c.probes ∧ reply ≠ .connected false) := by
  obtain ⟨i1, i2, i3, i4⟩ := hc
  cases call with
  | ReportChecked tag =>
    exact ⟨_, _, rfl, ⟨i1, i2, i3, i4⟩, rfl, fun _ => by simp, fun h => ⟨h, rfl, by simp⟩⟩
  | Checked tag =>
    exact ⟨_, _, rfl, ⟨i1, i2, i3, i4⟩, rfl, fun _ => by simp, fun h => ⟨h, rfl, by simp⟩⟩
  | ReportConnected =>
    refine ⟨_, _, rfl, ⟨i1, ?_, i3, ?_⟩, rfl, fun _ => by simp, fun _ => ⟨rfl, rfl, by simp⟩⟩
    · intro h
      cases h
    · intro h
      exact ⟨(i4 h).1, by simp [Context.ReportConnected, Context.udpate]⟩
  | Connected head =>
    cases hcon : c.connected with
    | some b =>
      refine ⟨c, .connected b, ?_, ⟨i1, i2, i3, i4⟩, rfl, ?_, ?_⟩
      · rw [call_Connected, Connected_of_some c head b hcon]
      · intro hu
        have := (i4 hu).2
        rw [hcon] at this
        cases b
        · exact absurd rfl this
        · simp
      · intro h
        cases h
        exact ⟨hcon, rfl, by simp⟩
    | none =>
      obtain ⟨b, h1, h2, h3, h4, _, h6, h7⟩ := Connected_of_none c head hcon
      have hp := i2 hcon
      refine ⟨c.checkNetwork head, .connected b, ?_, ⟨?_, ?_, ?_, ?_⟩, h4, ?_, ?_⟩
      · rw [call_Connected, h1]
      · omega
      · intro h
        rw [h2] at h
        cases h
      · omega
      · intro hu
        rw [h4] at hu
        obtain ⟨hb, hr⟩ := h6 hu
        refine ⟨by rw [hr]; exact (i4 hu).1, ?_⟩
        rw [h2, hb]
        simp
      · intro hu
        rw [(h6 hu).1]
        simp
      · intro h
        cases h

theorem run_inv : ∀ (calls : List Call) (c : Context), c.Inv →
    ∃ c' replies, c.run calls = some (c', replies) ∧ c'.Inv ∧
      c'.connectivityURL = c.connectivityURL ∧
      (c.connectivityURL = "" → Reply.connected false ∉ replies) ∧
      (c.connected = some true →
        c'.connected = some true ∧ c'.probes = c.probes ∧ Reply.connected false ∉ replies) := by
  intro calls
  induction calls with
  | nil =>
    intro c hc
    exact ⟨c, [], rfl, hc, rfl, fun _ => by simp, fun h => ⟨h, rfl, by simp⟩⟩
  | cons call rest ih =>
    intro c hc
    obtain ⟨c1, reply, h1, hinv1, hu1, he1, ht1⟩ := call_inv c hc call
    obtain ⟨c2, replies, h2, hinv2, hu2, he2, ht2⟩ := ih c1 hinv1
    refine ⟨c2, reply :: replies, ?_, hinv2, by rw [hu2, hu1], ?_, ?_⟩
    · rw [Context.run, h1]
      simp only
      rw [h2]
    · intro hu
      intro hmem
      rcases List.mem_cons.mp hmem with h | h
      · exact he1 hu h.symm
      · exact he2 (by rw [hu1]; exact hu) h
    · intro ht
      obtain ⟨a1, a2, a3⟩ := ht1 ht
      obtain ⟨b1, b2, b3⟩ := ht2 a1
      refine ⟨b1, by rw [b2, a2], ?_⟩
      intro hmem
      rcases List.mem_cons.mp hmem with h | h
      · exact a3 h.symm
      · exact b3 h

/-- C14. For every context made by `NewContext` and every sequence of calls of
`ReportChecked`, `Checked`, `ReportConnected` and `Connected` on it, taken in two
parts, all calls return and `checkNetwork` has run at most once, sending at most
one request.  With an empty connectivity URL no request is sent and no
`Connected()` returns false.  Once the value true is recorded, every later
`Connected()` returns true and `checkNetwork` does not run.  A call runs
`checkNetwork` only if it is a `Connected()` made while no value is recorded. -/
theorem Context_probes_once (url : String) (calls₁ calls₂ : List Call) :
    ∃ c₁ r₁ c₂ r₂, (NewContext url).run calls₁ = some (c₁, r₁) ∧
      c₁.run calls₂ = some (c₂, r₂) ∧
      c₂.probes ≤ 1 ∧ c₂.requests ≤ c₂.probes ∧
      (url = "" → c₂.requests = 0 ∧ Reply.connected false ∉ r₁ ∧
        Reply.connected false ∉ r₂) ∧
      (c₁.connected = some true →
        c₂.connected = some true ∧ c₂.probes = c₁.probes ∧ Reply.connected false ∉ r₂) ∧
      (∀ (c : Context) (call : Call) (c' : Context) (reply : Reply),
        c.call call = some (c', reply) →
        c'.probes = c.probes ∨
          (c'.probes = c.probes + 1 ∧ c.connected = none ∧ ∃ head, call = .Connected head)) := by
  have h0 : (NewContext url).Inv :=
    ⟨Nat.zero_le _, fun _ => rfl, Nat.le_refl _, fun _ => ⟨rfl, by simp [NewContext]⟩⟩
  obtain ⟨c₁, r₁, h1, hinv1, hu1, he1, _⟩ := run_inv calls₁ (NewContext url) h0
  obtain ⟨c₂, r₂, h2, hinv2, hu2, he2, ht2⟩ := run_inv calls₂ c₁ hinv1
  refine ⟨c₁, r₁, c₂, r₂, h1, h2, hinv2.1, hinv2.2.2.1, ?_, ht2, call_probes⟩
  intro hu
  have hu' : c₂.connectivityURL = "" := by rw [hu2, hu1]; exact hu
  exact ⟨(hinv2.2.2.2 hu').1, he1 hu, he2 (by rw [hu1]; exact hu)⟩

/-! ## The storage registry -/

theorem Latest_of_index {s : Storage} (hs : s.WF) {rtt : History}
    (hi : index s.history s.idx = some rtt) :
    Latest (some s) = some (if rtt.Time = 0 then none else some rtt) := by
  have hg : Get (some s) 0 = some (if rtt.Time = 0 then none else some rtt) := by
    unfold Get
    simp only [offset_zero hs, hi, Option.bind_eq_bind, Option.some_bind]
    split <;> rfl
  unfold Latest
  simp only [hi, Option.bind_eq_bind, Option.some_bind]
  by_cases hz : rtt.Time = 0
  · simp [hz]
  · rw [if_neg hz, hg, if_neg hz]

theorem Latest_total {s : Storage} (hs : s.WF) : ∃ r, Latest (some s) = some r := by
  have hlt : s.idx.toNat < s.history.length := by
    have := hs.len
    have := hs.idx_lo
    have := hs.idx_hi
    omega
  have hi : index s.history s.idx = some (s.history[s.idx.toNat]) := by
    rw [index_eq_getElem? hs.idx_lo, List.getElem?_eq_getElem hlt]
  exact ⟨_, Latest_of_index hs hi⟩

theorem Latest_Put {s s' : Storage} (hs : s.WF) {now : Int} {d : Nat}
    (h : s.Put now d = some s') (hnow : now ≠ 0) :
    Latest (some s') = some (some { Time := now, Delay := d }) := by
  have hwf := Put_WF hs h
  have hi := (Put_Holds (WF_Holds hs) h).2 0 (by simpa using hwf.cap_pos)
  rw [slotBack_zero hwf] at hi
  simp only [List.getD_cons_zero] at hi
  rw [Latest_of_index hwf hi, if_neg hnow]

theorem Storages_Latest_total {s : Storages} (hs : s.WF) (tag : String) :
    ∃ r, s.Latest tag = some r := by
  unfold Storages.Latest
  cases h : s.storages tag with
  | none => exact ⟨none, rfl⟩
  | some st => exact Latest_total (hs.2.2 tag st h)

theorem Storages_Put_spec {s : Storages} (hs : s.WF) (tag : String) (now : Int) (d : Nat) :
    ∃ s', s.Put tag now d = some s' ∧ s'.WF ∧
      (now ≠ 0 → s'.Latest tag = some (some { Time := now, Delay := d })) := by
  obtain ⟨h1, h2, h3⟩ := hs
  obtain ⟨st0, hst0, hwf0⟩ : ∃ st0, s.GetOrCreate tag = some st0 ∧ st0.WF := by
    unfold Storages.GetOrCreate
    cases h : s.storages tag with
    | some st => exact ⟨st, rfl, h3 tag st h⟩
    | none =>
      exact ⟨_, NewStorage_eq s.validity h2,
        NewStorage_WF s.validity h1 h2 (NewStorage_eq s.validity h2)⟩
  obtain ⟨st1, hput⟩ : ∃ st1, st0.Put now d = some st1 := ⟨_, Put_eq hwf0 now d⟩
  have hwf1 := Put_WF hwf0 hput
  refine ⟨{ s with storages := fun t => if t = tag then some st1 else s.storages t },
    ?_, ⟨h1, h2, ?_⟩, ?_⟩
  · unfold Storages.Put
    rw [hst0]
    simp only
    rw [hput]
  · intro t st hst
    by_cases ht : t = tag
    · have hst' : some st1 = some st := (if_pos ht).symm.trans hst
      cases hst'
      exact hwf1
    · have hst' : s.storages t = some st := (if_neg ht).symm.trans hst
      exact h3 t st hst'
  · intro hnow
    unfold Storages.Latest
    show Latest (if tag = tag then some st1 else s.storages tag) = _
    rw [if_pos rfl]
    exact Latest_Put hwf0 hput hnow

/-! ## `ReportFailure` -/

theorem ReportFailure_skip (h : HealthCheck) (F : Nat) (now : Int) (o : Outbound)
    (hk : o.Now ≠ none ∨ knownFailed h.Storage F o.Tag) :
    h.ReportFailure F now o = some h := by
  unfold HealthCheck.ReportFailure
  cases ho : o.Now with
  | some g => rfl
  | none =>
    rcases hk with hk | ⟨x, hx, hd⟩
    · exact absurd ho hk
    · simp only [hx]
      rw [if_neg]
      intro hc
      rcases hc with hc | hc
      · cases hc
      · apply hc
        simp [hd]

theorem ReportFailure_write (h : HealthCheck) (F : Nat) (now : Int) (o : Outbound)
    (hwf : h.Storage.WF) (ho : o.Now = none) (hk : ¬ knownFailed h.Storage F o.Tag) :
    ∃ st, h.Storage.Put o.Tag now F = some st ∧ st.WF ∧
      (now ≠ 0 → st.Latest o.Tag = some (some { Time := now, Delay := F })) ∧
      h.ReportFailure F now o = some { h with Storage := st } := by
  obtain ⟨st, hput, hstwf, hlat⟩ := Storages_Put_spec hwf o.Tag now F
  refine ⟨st, hput, hstwf, hlat, ?_⟩
  obtain ⟨r, hr⟩ := Storages_Latest_total hwf o.Tag
  unfold HealthCheck.ReportFailure
  rw [ho]
  simp only [hr, hput]
  rw [if_pos]
  cases r with
  | none => exact Or.inl rfl
  | some x =>
    right
    intro hc
    apply hk
    refine ⟨x, hr, ?_⟩
    simpa using hc

/-- C15, as stated, fails: when the most recent stored sample of the tag is already
a failure (here one put at instant 100 on a scheduler made by `New`), two
consecutive calls of `ReportFailure` on the concrete outbound `C` write no
sample at all: the storage of the tag holds the same single sample before and
after. -/
theorem ReportFailure_twice_counterexample :
    ((chainCheck.Storage.Put "C" 100 65535).bind fun st => All (st.storages "C"))
        = some [{ Time := 100, Delay := 65535 }] ∧
      ((chainCheck.Storage.Put "C" 100 65535).bind fun st =>
        (HealthCheck.ReportFailure { chainCheck with Storage := st } 65535 101
            { Tag := "C", Now := none }).bind fun h₂ =>
          (h₂.ReportFailure 65535 102 { Tag := "C", Now := none }).bind fun h₃ =>
            All (h₃.Storage.storages "C"))
        = some [{ Time := 100, Delay := 65535 }] := by
  decide

/-- C15, amended. On a scheduler whose registry satisfies its invariant,
`ReportFailure(outbound)` at `now` returns; it writes one `Failed` sample for the
tag of the outbound, by one `Put` of the registry, if the outbound is not a group
and the most recent stored sample of the tag is absent or is not `Failed`, and
otherwise it leaves the scheduler unchanged.  A second call right after the
first writes nothing, so that the two write one failure sample in the first case
and none otherwise.  After a first call on a concrete outbound, a success
recorded for the tag makes the next `ReportFailure` write again. -/
theorem ReportFailure_writes (h : HealthCheck) (F : Nat) (now now' : Int) (o : Outbound)
    (hwf : h.Storage.WF) (hnow : now ≠ 0) :
    ∃ h₁, h.ReportFailure F now o = some h₁ ∧ h₁.Storage.WF ∧
      (o.Now = none ∧ ¬ knownFailed h.Storage F o.Tag →
        ∃ st, h.Storage.Put o.Tag now F = some st ∧ h₁ = { h with Storage := st } ∧
          st.Latest o.Tag = some (some { Time := now, Delay := F })) ∧
      (¬ (o.Now = none ∧ ¬ knownFailed h.Storage F o.Tag) → h₁ = h) ∧
      h₁.ReportFailure F now' o = some h₁ ∧
      (o.Now = none → ∀ (rtt : Nat) (now₂ now₃ : Int), rtt ≠ F → now₂ ≠ 0 →
        ∃ st₂ st₃, h₁.Storage.Put o.Tag now₂ rtt = some st₂ ∧
          st₂.Put o.Tag now₃ F = some st₃ ∧
          HealthCheck.ReportFailure { h₁ with Storage := st₂ } F now₃ o
            = some { h₁ with Storage := st₃ }) := by
  have third : ∀ h₁ : HealthCheck, h₁.Storage.WF → o.Now = none →
      ∀ (rtt : Nat) (now₂ now₃ : Int), rtt ≠ F → now₂ ≠ 0 →
        ∃ st₂ st₃, h₁.Storage.Put o.Tag now₂ rtt = some st₂ ∧
          st₂.Put o.Tag now₃ F = some st₃ ∧
          HealthCheck.ReportFailure { h₁ with Storage := st₂ } F now₃ o
            = some { h₁ with Storage := st₃ } := by
    intro h₁ hwf₁ ho rtt now₂ now₃ hrtt hnow₂
    obtain ⟨st₂, hput₂, hwf₂, hlat₂⟩ := Storages_Put_spec hwf₁ o.Tag now₂ rtt
    have hnk : ¬ knownFailed st₂ F o.Tag := by
      rintro ⟨x, hx, hd⟩
      rw [hlat₂ hnow₂] at hx
      cases hx
      exact hrtt hd
    obtain ⟨st₃, hput₃, _, _, hrf⟩ :=
      ReportFailure_write { h₁ with Storage := st₂ } F now₃ o hwf₂ ho hnk
    exact ⟨st₂, st₃, hput₂, hput₃, hrf⟩
  by_cases hc : o.Now = none ∧ ¬ knownFailed h.Storage F o.Tag
  · obtain ⟨st, hput, hstwf, hlat, hrf⟩ := ReportFailure_write h F now o hwf hc.1 hc.2
    refine ⟨{ h with Storage := st }, hrf, hstwf, fun _ => ⟨st, hput, rfl, hlat hnow⟩,
      fun hn => absurd hc hn, ?_, third _ hstwf⟩
    exact ReportFailure_skip _ F now' o (Or.inr ⟨_, hlat hnow, rfl⟩)
  · have hk : o.Now ≠ none ∨ knownFailed h.Storage F o.Tag := by
      by_cases ho : o.Now = none
      · right
        by_contra hk
        exact hc ⟨ho, hk⟩
      · exact Or.inl ho
    refine ⟨h, ReportFailure_skip h F now o hk, hwf, fun hn => absurd hn hc, fun _ => rfl,
      ReportFailure_skip h F now' o hk, third h hwf⟩

/-- The theorem `ReportFailure_writes` on a scheduler made by `New`, for the concrete
outbound `C` that has no sample yet: the first call, at 100, writes one failure
sample, and the second, at 101, leaves the scheduler unchanged. -/
theorem ReportFailure_writes_witness :
    ∃ h₁, chainCheck.ReportFailure 65535 100 { Tag := "C", Now := none } = some h₁ ∧
      h₁.ReportFailure 65535 101 { Tag := "C", Now := none } = some h₁ ∧
      All (h₁.Storage.storages "C") = some [{ Time := 100, Delay := 65535 }] := by
  obtain ⟨h₁, e1, _, e2, _, e3, _⟩ := ReportFailure_writes chainCheck 65535 100 101
    { Tag := "C", Now := none }
    ⟨by decide, by decide, fun tag st hst => by cases hst⟩ (by decide)
  have hnk : ¬ knownFailed chainCheck.Storage 65535 "C" := by
    rintro ⟨x, hx, _⟩
    cases hx
  obtain ⟨st, hput, rfl, _⟩ := e2 ⟨rfl, hnk⟩
  refine ⟨_, e1, e3, ?_⟩
  have key : ((chainCheck.Storage.Put "C" 100 65535).bind fun st => All (st.storages "C"))
      = some [{ Time := 100, Delay := 65535 }] := by decide
  rw [hput] at key
  exact key

/-! ## `checkOutbound` -/

theorem checkOutbound_of_resolves (h : HealthCheck) (F : Nat) (env : Env) (o : Outbound)
    (ctx : Context) (real : Outbound) (hr : Resolves h.router o real) :
    h.checkOutbound F env o ctx = HealthCheck.checkOutbound.probe h F env real ctx := by
  have hres : ∃ hops, HealthCheck.checkOutbound.redirect h o
      = some { outbound := some real, err := none, hops := hops } := by
    unfold HealthCheck.checkOutbound.redirect
    rcases hr with ⟨ho, rfl⟩ | ⟨ho, hops, hh⟩
    · exact ⟨[], by rw [ho]⟩
    · cases hn : o.Now with
      | none => exact absurd hn ho
      | some g => exact ⟨hops, hh⟩
  obtain ⟨hops, hres⟩ := hres
  unfold HealthCheck.checkOutbound
  rw [hres]

theorem probe_checked (h : HealthCheck) (F : Nat) (env : Env) (real : Outbound)
    (ctx : Context) (hc : ctx.Checked real.Tag = true) :
    HealthCheck.checkOutbound.probe h F env real ctx =
      some { t := 0, err := none, h := h, ctx := ctx, probed := false } := by
  unfold HealthCheck.checkOutbound.probe
  simp only [hc, if_true]

theorem probe_ok (h : HealthCheck) (F : Nat) (env : Env) (real : Outbound)
    (ctx : Context) (t : Nat) (st : Storages) (hc : ctx.Checked real.Tag = false)
    (hp : env.URLTest h.options.Destination real = .ok t)
    (hput : h.Storage.Put real.Tag env.now (t % rttMod) = some st) :
    HealthCheck.checkOutbound.probe h F env real ctx =
      some { t := t, err := none
             h := h.recorded st { tag := real.Tag, Time := env.sinkNow, Delay := t }
             ctx := (ctx.ReportChecked real.Tag).ReportConnected, probed := true } := by
  unfold HealthCheck.checkOutbound.probe
  simp only [hc, hp, hput, Bool.false_eq_true, if_false]

theorem probe_no_network (h : HealthCheck) (F : Nat) (env : Env) (real : Outbound)
    (ctx ctx' : Context) (e : String) (hc : ctx.Checked real.Tag = false)
    (hp : env.URLTest h.options.Destination real = .error e)
    (hcon : (ctx.ReportChecked real.Tag).Connected env.head = some (false, ctx')) :
    HealthCheck.checkOutbound.probe h F env real ctx =
      some { t := 0, err := some .noNetwork, h := h, ctx := ctx', probed := true } := by
  unfold HealthCheck.checkOutbound.probe
  simp only [hc, hp, hcon, Bool.false_eq_true, if_false, Bool.not_false, if_true]

theorem probe_failed (h : HealthCheck) (F : Nat) (env : Env) (real : Outbound)
    (ctx ctx' : Context) (e : String) (st : Storages) (hc : ctx.Checked real.Tag = false)
    (hp : env.URLTest h.options.Destination real = .error e)
    (hcon : (ctx.ReportChecked real.Tag).Connected env.head = some (true, ctx'))
    (hput : h.Storage.Put real.Tag env.now F = some st) :
    HealthCheck.checkOutbound.probe h F env real ctx =
      some { t := 0, err := some (.probe e)
             h := h.recorded st { tag := real.Tag, Time := env.sinkNow, Delay := 0 }
             ctx := ctx', probed := true } := by
  unfold HealthCheck.checkOutbound.probe
  simp only [hc, hp, hcon, hput, Bool.false_eq_true, if_false, Bool.not_true]

theorem Connected_total (c : Context) (head : Head) :
    ∃ b c', c.Connected head = some (b, c') ∧ c'.checked = c.checked := by
  cases hc : c.connected with
  | some b => exact ⟨b, c, Connected_of_some c head b hc, rfl⟩
  | none =>
    obtain ⟨b, h1, _, _, _, h5, _⟩ := Connected_of_none c head hc
    exact ⟨b, _, h1, h5⟩

/-- C16. For every scheduler, outbound that resolves to the concrete outbound
`real`, and context in which the tag of `real` is not checked yet: when the probe
function returns an error, `Connected()` returns a value `b`; if `b` is false,
`checkOutbound` returns `(0, ErrNoNetWork)` and leaves the scheduler, its latency
storage and its global history, unchanged; if `b` is true it records the sample
`Failed` by one `Put` and stores an entry of delay 0.  Whatever the outside
answers, a returning `checkOutbound` leaves the scheduler unchanged, or records
the latency of a successful probe, or records `Failed` after a failed probe with
`Connected()` true. -/
theorem checkOutbound_no_network (h : HealthCheck) (F : Nat) (env : Env) (o real : Outbound)
    (ctx : Context) (e : String) (hr : Resolves h.router o real)
    (hnc : ctx.Checked real.Tag = false)
    (hp : env.URLTest h.options.Destination real = .error e) :
    (∃ b ctx', (ctx.ReportChecked real.Tag).Connected env.head = some (b, ctx') ∧
      (b = false → h.checkOutbound F env o ctx =
        some { t := 0, err := some .noNetwork, h := h, ctx := ctx', probed := true }) ∧
      (b = true → ∀ st, h.Storage.Put real.Tag env.now F = some st →
        h.checkOutbound F env o ctx =
          some { t := 0, err := some (.probe e)
                 h := h.recorded st { tag := real.Tag, Time := env.sinkNow, Delay := 0 }
                 ctx := ctx', probed := true })) ∧
    (∀ (env' : Env) (out : CheckOutcome), h.checkOutbound F env' o ctx = some out →
      out.h = h ∨
      (∃ t st, env'.URLTest h.options.Destination real = .ok t ∧
        h.Storage.Put real.Tag env'.now (t % rttMod) = some st ∧
        out.h = h.recorded st { tag := real.Tag, Time := env'.sinkNow, Delay := t }) ∨
      (∃ e' ctx' st, env'.URLTest h.options.Destination real = .error e' ∧
        (ctx.ReportChecked real.Tag).Connected env'.head = some (true, ctx') ∧
        h.Storage.Put real.Tag env'.now F = some st ∧
        out.h = h.recorded st { tag := real.Tag, Time := env'.sinkNow, Delay := 0 })) := by
  constructor
  · obtain ⟨b, ctx', hcon, _⟩ := Connected_total (ctx.ReportChecked real.Tag) env.head
    refine ⟨b, ctx', hcon, ?_, ?_⟩
    · intro hb
      subst hb
      rw [checkOutbound_of_resolves h F env o ctx real hr]
      exact probe_no_network h F env real ctx ctx' e hnc hp hcon
    · intro hb st hput
      subst hb
      rw [checkOutbound_of_resolves h F env o ctx real hr]
      exact probe_failed h F env real ctx ctx' e st hnc hp hcon hput
  · intro env' out hout
    rw [checkOutbound_of_resolves h F env' o ctx real hr] at hout
    cases hp' : env'.URLTest h.options.Destination real with
    | ok t =>
      cases hput : h.Storage.Put real.Tag env'.now (t % rttMod) with
      | none =>
        exfalso
        unfold HealthCheck.checkOutbound.probe at hout
        simp [hnc, hp', hput] at hout
      | some st =>
        rw [probe_ok h F env' real ctx t st hnc hp' hput] at hout
        cases hout
        exact Or.inr (Or.inl ⟨t, st, rfl, hput, rfl⟩)
    | error e' =>
      obtain ⟨b, ctx', hcon, _⟩ := Connected_total (ctx.ReportChecked real.Tag) env'.head
      cases b with
      | false =>
        rw [probe_no_network h F env' real ctx ctx' e' hnc hp' hcon] at hout
        cases hout
        exact Or.inl rfl
      | true =>
        cases hput : h.Storage.Put real.Tag env'.now F with
        | none =>
          exfalso
          unfold HealthCheck.checkOutbound.probe at hout
          simp [hnc, hp', hcon, hput] at hout
        | some st =>
          rw [probe_failed h F env' real ctx ctx' e' st hnc hp' hcon hput] at hout
          cases hout
          exact Or.inr (Or.inr ⟨e', ctx', st, rfl, hcon, rfl, rfl⟩)

/-- The theorem `checkOutbound_no_network` on a scheduler made by `New`, for the group
`A` that resolves to `C`, a fresh context with a connectivity URL, and an outside
in which the probe and the connectivity request fail: the call returns
`(0, ErrNoNetWork)`, the storage of `C` holds no sample and the global history
no entry. -/
theorem checkOutbound_no_network_witness :
    (chainCheck.checkOutbound 65535 deadEnv { Tag := "A", Now := some "B" }
        (NewContext "http://connectivity")).map (observeOne "C")
      = some (0, some .noNetwork, true, some [], some []) := by
  obtain ⟨⟨b, ctx', hcon, hfalse, _⟩, _⟩ := checkOutbound_no_network chainCheck 65535 deadEnv
    { Tag := "A", Now := some "B" } { Tag := "C", Now := none }
    (NewContext "http://connectivity") "timeout"
    (Or.inr ⟨by decide, ["B", "C"], by decide⟩) (by decide) (by decide)
  have key : (((NewContext "http://connectivity").ReportChecked "C").Connected
      deadEnv.head).map (fun p => p.1) = some false := by decide
  have hb : b = false := by
    have hcon' : (((NewContext "http://connectivity").ReportChecked "C").Connected
        deadEnv.head) = some (b, ctx') := hcon
    rw [hcon'] at key
    exact Option.some.inj key
  rw [hfalse hb]
  rfl

theorem ReportChecked_checked (c : Context) (tag : String) :
    (c.ReportChecked tag).Checked tag = true := by
  unfold Context.ReportChecked Context.Checked
  simp

/-- C17, as stated, fails: with a context that has a connectivity URL and an outside
in which the probe and the connectivity request fail, `checkOutbound` on the
concrete outbound `C` and then on the group `B`, which resolves to `C`, probes
once and returns `ErrNoNetWork`, then returns `(0, nil)` without probing, and no
sample at all is recorded for the tag. -/
theorem checkOutbound_shared_counterexample :
    ((chainCheck.checkOutbound 65535 deadEnv { Tag := "C", Now := none }
        (NewContext "http://connectivity")).bind fun out₁ =>
      (out₁.h.checkOutbound 65535 deadEnv { Tag := "B", Now := some "C" } out₁.ctx).map
        (observeTwo "C" out₁))
      = some (true, some .noNetwork, false, 0, none, some []) := by
  rfl

/-- C17, amended. For every scheduler whose registry satisfies its invariant, every
context and every two outbounds, plain or group, that resolve to concrete
outbounds of the same tag, not checked yet in the context: `checkOutbound` on
the first returns after calling the probe function, and `checkOutbound` on the
second, with the scheduler and the context the first call left, returns
`(0, nil)` without probing and changes neither.  The first call records exactly
one sample for the tag, by one `Put` of the registry, unless the probe failed
while `Connected()` was false: it then returns `ErrNoNetWork` and leaves the
scheduler unchanged, so that no sample is recorded. -/
theorem checkOutbound_shared_context (h : HealthCheck) (F : Nat) (env₁ env₂ : Env)
    (o₁ o₂ real₁ real₂ : Outbound) (ctx : Context) (hwf : h.Storage.WF)
    (hr₁ : Resolves h.router o₁ real₁) (hr₂ : Resolves h.router o₂ real₂)
    (htag : real₂.Tag = real₁.Tag) (hnc : ctx.Checked real₁.Tag = false) :
    ∃ out₁, h.checkOutbound F env₁ o₁ ctx = some out₁ ∧ out₁.probed = true ∧
      out₁.h.checkOutbound F env₂ o₂ out₁.ctx
        = some { t := 0, err := none, h := out₁.h, ctx := out₁.ctx, probed := false } ∧
      ((out₁.h = h ∧ out₁.err = some .noNetwork ∧
          ∃ e ctx', env₁.URLTest h.options.Destination real₁ = .error e ∧
            (ctx.ReportChecked real₁.Tag).Connected env₁.head = some (false, ctx')) ∨
        (∃ d st, h.Storage.Put real₁.Tag env₁.now d = some st ∧ out₁.h.Storage = st ∧
          out₁.err ≠ some .noNetwork)) := by
  have second : ∀ (h' : HealthCheck) (ctx' : Context), h'.router = h.router →
      ctx'.Checked real₁.Tag = true →
      h'.checkOutbound F env₂ o₂ ctx'
        = some { t := 0, err := none, h := h', ctx := ctx', probed := false } := by
    intro h' ctx' hrt hck
    rw [checkOutbound_of_resolves h' F env₂ o₂ ctx' real₂ (by rw [hrt]; exact hr₂)]
    exact probe_checked h' F env₂ real₂ ctx' (by rw [htag]; exact hck)
  rw [checkOutbound_of_resolves h F env₁ o₁ ctx real₁ hr₁]
  cases hp : env₁.URLTest h.options.Destination real₁ with
  | ok t =>
    obtain ⟨st, hput, _, _⟩ := Storages_Put_spec hwf real₁.Tag env₁.now (t % rttMod)
    refine ⟨_, probe_ok h F env₁ real₁ ctx t st hnc hp hput, rfl, ?_, ?_⟩
    · exact second _ _ rfl (ReportChecked_checked ctx real₁.Tag)
    · exact Or.inr ⟨_, st, hput, rfl, by simp⟩
  | error e =>
    obtain ⟨b, ctx', hcon, hck⟩ := Connected_total (ctx.ReportChecked real₁.Tag) env₁.head
    have hck' : ctx'.Checked real₁.Tag = true := by
      have := ReportChecked_checked ctx real₁.Tag
      unfold Context.Checked at this ⊢
      rw [hck]
      exact this
    cases b with
    | false =>
      refine ⟨_, probe_no_network h F env₁ real₁ ctx ctx' e hnc hp hcon, rfl, ?_, ?_⟩
      · exact second _ _ rfl hck'
      · exact Or.inl ⟨rfl, rfl, e, ctx', rfl, hcon⟩
    | true =>
      obtain ⟨st, hput, _, _⟩ := Storages_Put_spec hwf real₁.Tag env₁.now F
      refine ⟨_, probe_failed h F env₁ real₁ ctx ctx' e st hnc hp hcon hput, rfl, ?_, ?_⟩
      · exact second _ _ rfl hck'
      · exact Or.inr ⟨_, st, hput, rfl, by simp⟩

/-- The theorem `checkOutbound_shared_context` on a scheduler made by `New`, for the
concrete outbound `C` and the group `B` that resolves to it, a fresh context and
an outside in which the probe succeeds with latency 42: the first call probes
and records the sample, the second returns `(0, nil)` without probing, and the
storage of `C` holds exactly one sample. -/
theorem checkOutbound_shared_context_witness :
    ((chainCheck.checkOutbound 65535 liveEnv { Tag := "C", Now := none }
        (NewContext "")).bind fun out₁ =>
      (out₁.h.checkOutbound 65535 liveEnv { Tag := "B", Now := some "C" } out₁.ctx).map
        (observeTwo "C" out₁))
      = some (true, none, false, 0, none, some [{ Time := 100, Delay := 42 }]) := by
  obtain ⟨out₁, h1, _, h3, _⟩ := checkOutbound_shared_context chainCheck 65535 liveEnv liveEnv
    { Tag := "C", Now := none } { Tag := "B", Now := some "C" }
    { Tag := "C", Now := none } { Tag := "C", Now := none } (NewContext "")
    ⟨by decide, by decide, fun tag st hst => by cases hst⟩
    (Or.inl ⟨rfl, rfl⟩) (Or.inr ⟨by decide, ["C"], by decide⟩) rfl (by decide)
  have key : (chainCheck.checkOutbound 65535 liveEnv { Tag := "C", Now := none }
      (NewContext "")).map (fun o => (o.probed, o.err, All (o.h.Storage.storages "C")))
      = some (true, none, some [{ Time := 100, Delay := 42 }]) := by rfl
  rw [h1] at key ⊢
  rw [Option.some_bind, h3]
  have k := Option.some.inj key
  simp only [Prod.mk.injEq] at k
  obtain ⟨k1, k2, k3⟩ := k
  show some (observeTwo "C" out₁ _) = _
  unfold observeTwo
  simp only [k1, k2, k3]

/-! ## The cleanup loop -/

/-- C18, at a failing input. The ticker of `cleanupLoop` is made from the probe
interval of the options and not from the argument `interval`: whatever the
scheduler and the argument, its period is `options.Interval`, the period of the
probe loop.  On a scheduler made by `New` with nil options, `Start` passes 8
hours and the cleanup ticks every 10 seconds. -/
theorem cleanupLoop_period_ignores_interval :
    (∀ (h : HealthCheck) (interval : Int),
      HealthCheck.cleanupLoop.period h interval = h.options.Interval ∧
      HealthCheck.cleanupLoop.period h interval = HealthCheck.checkLoop.period h) ∧
    HealthCheck.Start.interval = 8 * hour ∧
    HealthCheck.cleanupLoop.period chainCheck HealthCheck.Start.interval = 10 * second ∧
    HealthCheck.cleanupLoop.period chainCheck HealthCheck.Start.interval
      ≠ HealthCheck.Start.interval :=
  ⟨fun _ _ => ⟨rfl, rfl⟩, rfl, by decide, by decide⟩

/-! ## Concurrent calls of `checkOutbound` -/

theorem Task_run_succ (t : Task) (F : Nat) (s : Shared) (n : Nat) :
    Task.run t F s (n + 1) = (t.step F s).bind (fun x => Task.run x.2 F x.1 n) := by
  rw [Task.run]
  cases t.step F s with
  | none => rfl
  | some x => rfl

theorem step_returned (t : Task) (F : Nat) (s : Shared) (d : Nat)
    (err : Option CheckError) (hpc : t.pc = .returned d err) :
    t.step F s = some (s, t) := by
  unfold Task.step
  rw [hpc]

theorem Task_run_returned (t : Task) (F : Nat) (s : Shared) (d : Nat)
    (err : Option CheckError) (hpc : t.pc = .returned d err) (n : Nat) :
    Task.run t F s n = some (s, t) := by
  induction n with
  | zero => rfl
  | succ n ih => rw [Task_run_succ, step_returned t F s d err hpc]; exact ih

theorem step_entry (t : Task) (F : Nat) (s : Shared) (o real : Outbound)
    (hpc : t.pc = .entry o) (hr : Resolves s.h.router o real) :
    t.step F s = some (s, t.goto (.test real)) := by
  unfold Task.step
  rw [hpc]
  unfold HealthCheck.checkOutbound.redirect
  rcases hr with ⟨hn, rfl⟩ | ⟨hn, hops, hro⟩
  · simp only [hn]
  · cases hnow : o.Now with
    | none => exact absurd hnow hn
    | some now => simp only [hnow, hro]

theorem step_test_checked (t : Task) (F : Nat) (s : Shared) (o : Outbound)
    (hpc : t.pc = .test o) (hc : s.ctx.Checked o.Tag = true) :
    t.step F s = some (s, t.goto (.returned 0 none)) := by
  unfold Task.step
  rw [hpc]
  simp only [hc, if_true]

theorem step_test_unchecked (t : Task) (F : Nat) (s : Shared) (o : Outbound)
    (hpc : t.pc = .test o) (hc : s.ctx.Checked o.Tag = false) :
    t.step F s = some (s, t.goto (.claim o)) := by
  unfold Task.step
  rw [hpc]
  simp only [hc, Bool.false_eq_true, if_false]

theorem step_claim (t : Task) (F : Nat) (s : Shared) (o : Outbound)
    (hpc : t.pc = .claim o) :
    t.step F s = some (s.withCtx (s.ctx.ReportChecked o.Tag), t.goto (.urltest o)) := by
  unfold Task.step
  rw [hpc]

theorem step_urltest_ok (t : Task) (F : Nat) (s : Shared) (o : Outbound) (d : Nat)
    (hpc : t.pc = .urltest o) (hp : t.env.URLTest s.h.options.Destination o = .ok d) :
    t.step F s = some (s, t.probedTo (.reportConnected o d)) := by
  unfold Task.step
  rw [hpc]
  simp only [hp]

theorem step_urltest_error (t : Task) (F : Nat) (s : Shared) (o : Outbound) (e : String)
    (hpc : t.pc = .urltest o) (hp : t.env.URLTest s.h.options.Destination o = .error e) :
    t.step F s = some (s, t.probedTo (.connected o e)) := by
  unfold Task.step
  rw [hpc]
  simp only [hp]

theorem step_reportConnected (t : Task) (F : Nat) (s : Shared) (o : Outbound) (d : Nat)
    (hpc : t.pc = .reportConnected o d) :
    t.step F s = some (s.withCtx s.ctx.ReportConnected, t.goto (.putOk o d)) := by
  unfold Task.step
  rw [hpc]

theorem step_putOk (t : Task) (F : Nat) (s : Shared) (o : Outbound) (d : Nat)
    (hpc : t.pc = .putOk o d) :
    t.step F s = (s.h.Storage.Put o.Tag t.env.now (d % rttMod)).map
      (fun storage => (s.withStorage storage, t.goto (.sinkOk o d))) := by
  unfold Task.step
  rw [hpc]
  simp only []
  cases s.h.Storage.Put o.Tag t.env.now (d % rttMod) <;> rfl

theorem step_sinkOk (t : Task) (F : Nat) (s : Shared) (o : Outbound) (d : Nat)
    (hpc : t.pc = .sinkOk o d) :
    t.step F s = some (s.withEntry { tag := o.Tag, Time := t.env.sinkNow, Delay := d },
      t.goto (.returned d none)) := by
  unfold Task.step
  rw [hpc]

theorem step_connected_false (t : Task) (F : Nat) (s : Shared) (o : Outbound) (e : String)
    (ctx : Context) (hpc : t.pc = .connected o e)
    (hc : s.ctx.Connected t.env.head = some (false, ctx)) :
    t.step F s = some (s.withCtx ctx, t.goto (.returned 0 (some .noNetwork))) := by
  unfold Task.step
  rw [hpc]
  simp only [hc, Bool.not_false, if_true]

theorem step_connected_true (t : Task) (F : Nat) (s : Shared) (o : Outbound) (e : String)
    (ctx : Context) (hpc : t.pc = .connected o e)
    (hc : s.ctx.Connected t.env.head = some (true, ctx)) :
    t.step F s = some (s.withCtx ctx, t.goto (.putFailed o e)) := by
  unfold Task.step
  rw [hpc]
  simp only [hc, Bool.not_true, Bool.false_eq_true, if_false]

theorem step_connected_none (t : Task) (F : Nat) (s : Shared) (o : Outbound) (e : String)
    (hpc : t.pc = .connected o e) (hc : s.ctx.Connected t.env.head = none) :
    t.step F s = none := by
  unfold Task.step
  rw [hpc]
  simp only [hc]

theorem step_putFailed (t : Task) (F : Nat) (s : Shared) (o : Outbound) (e : String)
    (hpc : t.pc = .putFailed o e) :
    t.step F s = (s.h.Storage.Put o.Tag t.env.now F).map
      (fun storage => (s.withStorage storage, t.goto (.sinkFailed o e))) := by
  unfold Task.step
  rw [hpc]
  simp only []
  cases s.h.Storage.Put o.Tag t.env.now F <;> rfl

theorem step_sinkFailed (t : Task) (F : Nat) (s : Shared) (o : Outbound) (e : String)
    (hpc : t.pc = .sinkFailed o e) :
    t.step F s = some (s.withEntry { tag := o.Tag, Time := t.env.sinkNow, Delay := 0 },
      t.goto (.returned 0 (some (.probe e)))) := by
  unfold Task.step
  rw [hpc]

theorem Task_run_test (h : HealthCheck) (F : Nat) (env : Env) (real : Outbound)
    (ctx : Context) (t : Task) (hpc : t.pc = .test real) (henv : t.env = env)
    (hpr : t.probed = 0) :
    (Task.run t F { h := h, ctx := ctx } 6).bind Task.outcome
      = HealthCheck.checkOutbound.probe h F env real ctx := by
  unfold HealthCheck.checkOutbound.probe
  cases hc : ctx.Checked real.Tag with
  | true =>
    rw [Task_run_succ, step_test_checked t F _ real hpc hc, Option.some_bind,
      Task_run_returned _ F _ 0 none rfl]
    simp [Task.outcome, Task.goto, hpr, hc]
  | false =>
    rw [Task_run_succ, step_test_unchecked t F _ real hpc hc, Option.some_bind,
      Task_run_succ, step_claim _ F _ real rfl, Option.some_bind, Task_run_succ]
    simp only [hc, Bool.false_eq_true, if_false]
    cases hp : env.URLTest h.options.Destination real with
    | ok d =>
      rw [step_urltest_ok _ F _ real d rfl (by rw [← henv] at hp; exact hp), Option.some_bind,
        Task_run_succ, step_reportConnected _ F _ real d rfl, Option.some_bind,
        Task_run_succ, step_putOk _ F _ real d rfl]
      simp only [Task.goto, Task.probedTo, Shared.withCtx, henv]
      cases hput : h.Storage.Put real.Tag env.now (d % rttMod) with
      | none => rfl
      | some st =>
        simp only [Option.map_some']
        rw [Option.some_bind, Task_run_succ, step_sinkOk _ F _ real d rfl, Option.some_bind]
        simp [Task.run, Task.outcome, Task.goto, Shared.withEntry, Shared.withStorage,
          HealthCheck.recorded, henv]
    | error e =>
      rw [step_urltest_error _ F _ real e rfl (by rw [← henv] at hp; exact hp),
        Option.some_bind, Task_run_succ]
      cases hcon : (ctx.ReportChecked real.Tag).Connected env.head with
      | none =>
        rw [step_connected_none _ F _ real e rfl (by rw [← henv] at hcon; exact hcon)]
        rfl
      | some x =>
        obtain ⟨b, ctx'⟩ := x
        cases b with
        | false =>
          rw [step_connected_false _ F _ real e ctx' rfl (by rw [← henv] at hcon; exact hcon),
            Option.some_bind, Task_run_returned _ F _ 0 (some .noNetwork) rfl]
          simp [Task.outcome, Task.goto, Task.probedTo, Shared.withCtx]
        | true =>
          rw [step_connected_true _ F _ real e ctx' rfl (by rw [← henv] at hcon; exact hcon),
            Option.some_bind, Task_run_succ, step_putFailed _ F _ real e rfl]
          simp only [Task.goto, Task.probedTo, Shared.withCtx, henv]
          cases hput : h.Storage.Put real.Tag env.now F with
          | none => rfl
          | some st =>
            simp only [Option.map_some']
            rw [Option.some_bind, Task_run_succ, step_sinkFailed _ F _ real e rfl,
              Option.some_bind]
            simp [Task.run, Task.outcome, Task.goto, Shared.withEntry, Shared.withStorage,
              HealthCheck.recorded, henv]

/-- A call of `checkOutbound` that runs alone, step by step, returns what the method
`checkOutbound` returns, with the same scheduler and context afterwards and the
same use of the probe function: seven steps are enough, and a panic of the one
is a panic of the other. -/
theorem Task_run_eq_checkOutbound (h : HealthCheck) (F : Nat) (env : Env)
    (outbound : Outbound) (ctx : Context) :
    (Task.run (Task.start env outbound) F { h := h, ctx := ctx } 7).bind Task.outcome
      = h.checkOutbound F env outbound ctx := by
  unfold HealthCheck.checkOutbound
  rw [Task_run_succ]
  cases hr : HealthCheck.checkOutbound.redirect h outbound with
  | none =>
    have : (Task.start env outbound).step F { h := h, ctx := ctx } = none := by
      unfold Task.step
      simp only [Task.start, hr]
    rw [this]
    rfl
  | some resolved =>
    cases he : resolved.err with
    | some e =>
      have : (Task.start env outbound).step F { h := h, ctx := ctx }
          = some ({ h := h, ctx := ctx },
              (Task.start env outbound).goto (.returned 0 (some (.resolve e)))) := by
        unfold Task.step
        simp only [Task.start, hr, he]
      rw [this, Option.some_bind, Task_run_returned _ F _ 0 (some (.resolve e)) rfl]
      simp [Task.outcome, Task.goto, Task.start, he]
    | none =>
      cases ho : resolved.outbound with
      | none =>
        have : (Task.start env outbound).step F { h := h, ctx := ctx } = none := by
          unfold Task.step
          simp only [Task.start, hr, he, ho]
        rw [this]
        simp only [he, ho]
        rfl
      | some real =>
        have : (Task.start env outbound).step F { h := h, ctx := ctx }
            = some ({ h := h, ctx := ctx }, (Task.start env outbound).goto (.test real)) := by
          unfold Task.step
          simp only [Task.start, hr, he, ho]
        rw [this, Option.some_bind]
        simp only [he, ho]
        exact Task_run_test h F env real ctx ((Task.start env outbound).goto (.test real))
          rfl rfl rfl

theorem Round_run_cons (r : Round) (F : Nat) (w : Who) (rest : List Who) :
    Round.run r F (w :: rest) = (r.step F w).bind (fun r => Round.run r F rest) := by
  rw [Round.run]
  cases r.step F w with
  | none => rfl
  | some x => rfl

theorem Round_run_append (r : Round) (F : Nat) (l₁ l₂ : List Who) :
    Round.run r F (l₁ ++ l₂) = (Round.run r F l₁).bind (fun r => Round.run r F l₂) := by
  induction l₁ generalizing r with
  | nil => rfl
  | cons w rest ih =>
    rw [List.cons_append, Round_run_cons, Round_run_cons]
    cases r.step F w with
    | none => rfl
    | some x => exact ih x

theorem Round_step_first (r : Round) (F : Nat) (s : Shared) (t : Task)
    (h : r.first.step F r.shared = some (s, t)) :
    r.step F .first = some { r with shared := s, first := t } := by
  unfold Round.step
  simp only [h]

theorem Round_step_second (r : Round) (F : Nat) (s : Shared) (t : Task)
    (h : r.second.step F r.shared = some (s, t)) :
    r.step F .second = some { r with shared := s, second := t } := by
  unfold Round.step
  simp only [h]

/-- Two calls that resolve to the same concrete tag, not checked yet, and take
their first two steps in turn: both pass the test `ctx.Checked(tag)` with the
answer false, nothing that is shared has changed, and both stand at
`ctx.ReportChecked(tag)`. -/
theorem both_pass_the_test (h : HealthCheck) (F : Nat) (ctx : Context) (env₁ env₂ : Env)
    (o₁ o₂ real₁ real₂ : Outbound)
    (hr₁ : Resolves h.router o₁ real₁) (hr₂ : Resolves h.router o₂ real₂)
    (htag : real₂.Tag = real₁.Tag) (hnc : ctx.Checked real₁.Tag = false) :
    Round.run (Round.start h ctx env₁ env₂ o₁ o₂) F [.first, .second, .first, .second]
      = some { shared := { h := h, ctx := ctx }
               first := (Task.start env₁ o₁).goto (.claim real₁)
               second := (Task.start env₂ o₂).goto (.claim real₂) } := by
  rw [Round_run_cons, Round_step_first _ F _ _
    (step_entry (Task.start env₁ o₁) F { h := h, ctx := ctx } o₁ real₁ rfl hr₁),
    Option.some_bind, Round_run_cons, Round_step_second _ F _ _
    (step_entry (Task.start env₂ o₂) F { h := h, ctx := ctx } o₂ real₂ rfl hr₂),
    Option.some_bind, Round_run_cons, Round_step_first _ F _ _
    (step_test_unchecked ((Task.start env₁ o₁).goto (.test real₁)) F { h := h, ctx := ctx }
      real₁ rfl hnc),
    Option.some_bind, Round_run_cons, Round_step_second _ F _ _
    (step_test_unchecked ((Task.start env₂ o₂).goto (.test real₂)) F { h := h, ctx := ctx }
      real₂ rfl (by rw [htag]; exact hnc)),
    Option.some_bind]
  rfl

theorem step_Claimed (t t' : Task) (F : Nat) (s s' : Shared)
    (hstep : t.step F s = some (s', t')) (hc : t.Claimed) : t'.Claimed := by
  unfold Task.Claimed at hc
  cases hpc : t.pc with
  | entry o => rw [hpc] at hc; exact hc.elim
  | test o => rw [hpc] at hc; exact hc.elim
  | claim o =>
    rw [hpc] at hc
    rw [step_claim t F s o hpc] at hstep
    obtain ⟨_, rfl⟩ := Prod.mk.inj (Option.some.inj hstep)
    exact hc
  | urltest o =>
    rw [hpc] at hc
    cases hp : t.env.URLTest s.h.options.Destination o with
    | ok d =>
      rw [step_urltest_ok t F s o d hpc hp] at hstep
      obtain ⟨_, rfl⟩ := Prod.mk.inj (Option.some.inj hstep)
      show t.probed + 1 = 1
      omega
    | error e =>
      rw [step_urltest_error t F s o e hpc hp] at hstep
      obtain ⟨_, rfl⟩ := Prod.mk.inj (Option.some.inj hstep)
      show t.probed + 1 = 1
      omega
  | reportConnected o d =>
    rw [hpc] at hc
    rw [step_reportConnected t F s o d hpc] at hstep
    obtain ⟨_, rfl⟩ := Prod.mk.inj (Option.some.inj hstep)
    exact hc
  | putOk o d =>
    rw [hpc] at hc
    rw [step_putOk t F s o d hpc] at hstep
    cases hput : s.h.Storage.Put o.Tag t.env.now (d % rttMod) with
    | none => rw [hput] at hstep; cases hstep
    | some st =>
      rw [hput] at hstep
      obtain ⟨_, rfl⟩ := Prod.mk.inj (Option.some.inj hstep)
      exact hc
  | sinkOk o d =>
    rw [hpc] at hc
    rw [step_sinkOk t F s o d hpc] at hstep
    obtain ⟨_, rfl⟩ := Prod.mk.inj (Option.some.inj hstep)
    exact hc
  | connected o e =>
    rw [hpc] at hc
    cases hcon : s.ctx.Connected t.env.head with
    | none => rw [step_connected_none t F s o e hpc hcon] at hstep; cases hstep
    | some x =>
      obtain ⟨b, ctx'⟩ := x
      cases b with
      | false =>
        rw [step_connected_false t F s o e ctx' hpc hcon] at hstep
        obtain ⟨_, rfl⟩ := Prod.mk.inj (Option.some.inj hstep)
        exact hc
      | true =>
        rw [step_connected_true t F s o e ctx' hpc hcon] at hstep
        obtain ⟨_, rfl⟩ := Prod.mk.inj (Option.some.inj hstep)
        exact hc
  | putFailed o e =>
    rw [hpc] at hc
    rw [step_putFailed t F s o e hpc] at hstep
    cases hput : s.h.Storage.Put o.Tag t.env.now F with
    | none => rw [hput] at hstep; cases hstep
    | some st =>
      rw [hput] at hstep
      obtain ⟨_, rfl⟩ := Prod.mk.inj (Option.some.inj hstep)
      exact hc
  | sinkFailed o e =>
    rw [hpc] at hc
    rw [step_sinkFailed t F s o e hpc] at hstep
    obtain ⟨_, rfl⟩ := Prod.mk.inj (Option.some.inj hstep)
    exact hc
  | returned d err =>
    rw [hpc] at hc
    rw [step_returned t F s d err hpc] at hstep
    obtain ⟨_, rfl⟩ := Prod.mk.inj (Option.some.inj hstep)
    unfold Task.Claimed
    rw [hpc]
    exact hc

theorem Claimed_returned (t : Task) (d : Nat) (err : Option CheckError)
    (hpc : t.pc = .returned d err) (hc : t.Claimed) : t.probed = 1 := by
  unfold Task.Claimed at hc
  rw [hpc] at hc
  exact hc

theorem Round_step_Claimed (r r' : Round) (F : Nat) (w : Who)
    (hstep : r.step F w = some r') (h₁ : r.first.Claimed) (h₂ : r.second.Claimed) :
    r'.first.Claimed ∧ r'.second.Claimed := by
  cases w with
  | first =>
    cases hs : r.first.step F r.shared with
    | none => unfold Round.step at hstep; simp only [hs] at hstep; cases hstep
    | some x =>
      obtain ⟨s, t⟩ := x
      rw [Round_step_first r F s t hs] at hstep
      cases Option.some.inj hstep
      exact ⟨step_Claimed _ _ F _ _ hs h₁, h₂⟩
  | second =>
    cases hs : r.second.step F r.shared with
    | none => unfold Round.step at hstep; simp only [hs] at hstep; cases hstep
    | some x =>
      obtain ⟨s, t⟩ := x
      rw [Round_step_second r F s t hs] at hstep
      cases Option.some.inj hstep
      exact ⟨h₁, step_Claimed _ _ F _ _ hs h₂⟩

theorem Round_run_Claimed (F : Nat) (l : List Who) (r r' : Round)
    (hrun : r.run F l = some r') (h₁ : r.first.Claimed) (h₂ : r.second.Claimed) :
    r'.first.Claimed ∧ r'.second.Claimed := by
  induction l generalizing r with
  | nil =>
    cases Option.some.inj hrun
    exact ⟨h₁, h₂⟩
  | cons w rest ih =>
    rw [Round_run_cons] at hrun
    cases hs : r.step F w with
    | none => rw [hs] at hrun; cases hrun
    | some x =>
      rw [hs, Option.some_bind] at hrun
      obtain ⟨k₁, k₂⟩ := Round_step_Claimed r x F w hs h₁ h₂
      exact ih x hrun k₁ k₂

/-- Two calls that resolve to the same concrete tag, not checked yet, and take
their first two steps in turn: however the two calls are interleaved afterwards,
each of them that returns has called the probe function once. -/
theorem race_both_probe (h : HealthCheck) (F : Nat) (ctx : Context) (env₁ env₂ : Env)
    (o₁ o₂ real₁ real₂ : Outbound)
    (hr₁ : Resolves h.router o₁ real₁) (hr₂ : Resolves h.router o₂ real₂)
    (htag : real₂.Tag = real₁.Tag) (hnc : ctx.Checked real₁.Tag = false)
    (rest : List Who) (r : Round)
    (hrun : Round.run (Round.start h ctx env₁ env₂ o₁ o₂) F
      ([.first, .second, .first, .second] ++ rest) = some r) :
    (∀ d err, r.first.pc = .returned d err → r.first.probed = 1) ∧
      (∀ d err, r.second.pc = .returned d err → r.second.probed = 1) := by
  rw [Round_run_append, both_pass_the_test h F ctx env₁ env₂ o₁ o₂ real₁ real₂ hr₁ hr₂ htag hnc,
    Option.some_bind] at hrun
  obtain ⟨k₁, k₂⟩ := Round_run_Claimed F rest _ r hrun rfl rfl
  exact ⟨fun d err hpc => Claimed_returned _ d err hpc k₁,
    fun d err hpc => Claimed_returned _ d err hpc k₂⟩

/-- C21, at a failing input. The claim of a tag is not atomic: `checkOutbound` tests
`ctx.Checked(tag)` and marks `ctx.ReportChecked(tag)` in two calls, and the mutex
of the context is released between them.  On a scheduler made by `New` and a
fresh context, the call for the concrete outbound `C` and the call for the group
`B`, which resolves to `C`, run in turn, one step each: both find the tag not
checked, both call the probe function, both return their latency, and the
storage of `C` and the global history hold two results, that of the second call
on top of that of the first.  When the first call returns before the second
starts, the second returns `(0, nil)` without probing and one result is held. -/
theorem checkOutbound_claim_race :
    ((Round.start chainCheck (NewContext "") liveEnv laterEnv { Tag := "C", Now := none }
        { Tag := "B", Now := some "C" }).run 65535 alternating).map (Round.observe "C")
      = some ((.returned 42 none, 1), (.returned 57 none, 1),
          some [{ Time := 101, Delay := 57 }, { Time := 100, Delay := 42 }],
          some [{ tag := "C", Time := 100, Delay := 42 },
                { tag := "C", Time := 101, Delay := 57 }]) ∧
    ((Round.start chainCheck (NewContext "") liveEnv laterEnv { Tag := "C", Now := none }
        { Tag := "B", Now := some "C" }).run 65535 oneAfterTheOther).map (Round.observe "C")
      = some ((.returned 42 none, 1), (.returned 0 none, 0),
          some [{ Time := 100, Delay := 42 }],
          some [{ tag := "C", Time := 100, Delay := 42 }]) := by
  constructor
  · rfl
  · rfl

end Healthcheck
